import Mathlib

/-!
# ez-cgi: the CGI gateway handler

A shallow embedding of `pkg/cgi/handler.go` and `outputHandler.go`.

Go strings and byte slices are sequences of bytes; a byte is a natural number
below 256 and a rune is a natural number (a code point).  Library routines the
handler calls (`strings`, `unicode/utf8`, `net`, `regexp`, `net/textproto`,
`bufio`, `os`) are transcribed from the Go standard library.
-/

namespace EzCgi

/-! ## Strings -/

/-- A Go string: an immutable sequence of bytes. -/
abbrev GoString := List Nat

/-- Go `utf8.EncodeRune`: the UTF-8 bytes of a rune; surrogates and values
above `MaxRune` are encoded as `RuneError` (U+FFFD). -/
def EncodeRune (r : Nat) : GoString :=
  if r ≤ 0x7F then [r]
  else if r ≤ 0x7FF then [0xC0 + r / 64, 0x80 + r % 64]
  else if r > 0x10FFFF ∨ (0xD800 ≤ r ∧ r ≤ 0xDFFF) then [0xEF, 0xBF, 0xBD]
  else if r ≤ 0xFFFF then [0xE0 + r / 4096, 0x80 + r / 64 % 64, 0x80 + r % 64]
  else [0xF0 + r / 262144, 0x80 + r / 4096 % 64, 0x80 + r / 64 % 64, 0x80 + r % 64]

/-- The bytes of a string literal of the source. -/
def str (s : String) : GoString := s.toList.flatMap (fun c => EncodeRune c.toNat)

/-- Go `strings.IndexByte`: index of the first occurrence of `c`, `none` for -1. -/
def IndexByte : GoString → Nat → Option Nat
  | [], _ => none
  | b :: rest, c => if b = c then some 0 else (IndexByte rest c).map (· + 1)

/-- Go `strings.HasPrefix`. -/
def HasPrefix (s pre : GoString) : Bool := pre.isPrefixOf s

/-! ## Environment deduplication (`handler.go`, `removeLeadingDuplicates`) -/

/-- The function `removeLeadingDuplicates`: entry `e` at index `i` is appended to the
result unless it has an `=` and some entry of `env[i+1:]` has the prefix `e[:eq+1]`. -/
def removeLeadingDuplicates : List GoString → List GoString
  | [] => []
  | e :: rest =>
    let found :=
      match IndexByte e 61 with
      | some eq => rest.any (fun e2 => HasPrefix e2 (e.take (eq + 1)))
      | none => false
    if found then removeLeadingDuplicates rest else e :: removeLeadingDuplicates rest

/-- The key of an environment entry: the text before its first `=`, if it has one. -/
def envKey (e : GoString) : Option GoString :=
  (IndexByte e 61).map (fun eq => e.take eq)

/-- The entries of `env` whose key is `k`, in order. -/
def entriesOf (k : GoString) (env : List GoString) : List GoString :=
  env.filter (fun e => envKey e = some k)

/-! ## Runes (`unicode/utf8`) -/

/-- Go `utf8.RuneError`. -/
def RuneError : Nat := 0xFFFD

/-- Go's `first` and `acceptRanges` tables of `unicode/utf8`: for a lead byte, the size of
the sequence and the accepted range of its second byte; `none` for ASCII and invalid
lead bytes. -/
def leadInfo (s0 : Nat) : Option (Nat × Nat × Nat) :=
  if 0xC2 ≤ s0 ∧ s0 ≤ 0xDF then some (2, 0x80, 0xBF)
  else if s0 = 0xE0 then some (3, 0xA0, 0xBF)
  else if 0xE1 ≤ s0 ∧ s0 ≤ 0xEC then some (3, 0x80, 0xBF)
  else if s0 = 0xED then some (3, 0x80, 0x9F)
  else if 0xEE ≤ s0 ∧ s0 ≤ 0xEF then some (3, 0x80, 0xBF)
  else if s0 = 0xF0 then some (4, 0x90, 0xBF)
  else if 0xF1 ≤ s0 ∧ s0 ≤ 0xF3 then some (4, 0x80, 0xBF)
  else if s0 = 0xF4 then some (4, 0x80, 0x8F)
  else none

/-- Go `utf8.DecodeRuneInString`: the first rune of `s` and its width in bytes;
`(RuneError, 0)` for the empty string and `(RuneError, 1)` for an invalid encoding. -/
def DecodeRuneInString (s : GoString) : Nat × Nat :=
  match s with
  | [] => (RuneError, 0)
  | s0 :: t =>
    if s0 < 0x80 then (s0, 1)
    else
      match leadInfo s0 with
      | none => (RuneError, 1)
      | some (sz, lo, hi) =>
        if s.length < sz then (RuneError, 1)
        else
          match t with
          | [] => (RuneError, 1)
          | s1 :: t1 =>
            if s1 < lo ∨ hi < s1 then (RuneError, 1)
            else if sz ≤ 2 then (s0 % 32 * 64 + s1 % 64, 2)
            else
              match t1 with
              | [] => (RuneError, 1)
              | s2 :: t2 =>
                if s2 < 0x80 ∨ 0xBF < s2 then (RuneError, 1)
                else if sz ≤ 3 then (s0 % 16 * 4096 + s1 % 64 * 64 + s2 % 64, 3)
                else
                  match t2 with
                  | [] => (RuneError, 1)
                  | s3 :: _ =>
                    if s3 < 0x80 ∨ 0xBF < s3 then (RuneError, 1)
                    else (s0 % 8 * 262144 + s1 % 64 * 4096 + s2 % 64 * 64 + s3 % 64, 4)

/-- The loop of Go `strings.Map` for a mapping that returns no negative rune: each rune of
`s` (an invalid byte reads as `RuneError`, width 1) is replaced by the encoding of its
image.  `skip` counts the bytes of the current rune still to be passed over. -/
def stringsMapLoop (mapping : Nat → Nat) : Nat → GoString → GoString
  | _, [] => []
  | 0, b :: rest =>
    let d := DecodeRuneInString (b :: rest)
    EncodeRune (mapping d.1) ++ stringsMapLoop mapping (d.2 - 1) rest
  | skip + 1, _ :: rest => stringsMapLoop mapping skip rest

/-- Go `strings.Map`. -/
def stringsMap (mapping : Nat → Nat) (s : GoString) : GoString :=
  stringsMapLoop mapping 0 s

/-- The function `upperCaseAndUnderscore` of `handler.go`. -/
def upperCaseAndUnderscore (r : Nat) : Nat :=
  if r ≥ 97 ∧ r ≤ 122 then r - (97 - 65)
  else if r = 45 then 95
  else if r = 61 then 95
  else r

/-- Go `strings.Join`. -/
def Join (elems : List GoString) (sep : GoString) : GoString :=
  sep.intercalate elems

/-- Go `strings.LastIndexByte`: index of the last occurrence of `c`, `none` for -1. -/
def LastIndexByte : GoString → Nat → Option Nat
  | [], _ => none
  | b :: rest, c =>
    match LastIndexByte rest c with
    | some i => some (i + 1)
    | none => if b = c then some 0 else none

/-! ## Library routines of the environment builder -/

/-- Go `net.SplitHostPort`: host and port of `host:port`, `[host]:port`; `none` when the
call returns an error. -/
def SplitHostPort (hostport : GoString) : Option (GoString × GoString) :=
  match LastIndexByte hostport 58 with
  | none => none
  | some i =>
    if hostport.head? = some 91 then
      match IndexByte hostport 93 with
      | none => none
      | some end_ =>
        if end_ + 1 = hostport.length then none
        else if end_ + 1 = i then
          if (IndexByte (hostport.drop 1) 91).isSome then none
          else if (IndexByte (hostport.drop (end_ + 1)) 93).isSome then none
          else some ((hostport.take end_).drop 1, hostport.drop (i + 1))
        else none
    else
      let host := hostport.take i
      if (IndexByte host 58).isSome then none
      else if (IndexByte hostport 91).isSome then none
      else if (IndexByte hostport 93).isSome then none
      else some (host, hostport.drop (i + 1))

/-- A decimal digit `0`..`9`. -/
def isDigit (c : Nat) : Bool := decide (48 ≤ c ∧ c ≤ 57)

/-- The match of `portRegex`, the regular expression `:([0-9]+)$`, by
`FindStringSubmatch`: the first submatch of the leftmost match, `none` when the
expression does not match. -/
def portRegexFind : GoString → Option GoString
  | [] => none
  | c :: rest =>
    if c = 58 ∧ rest ≠ [] ∧ rest.all isDigit = true then some rest
    else portRegexFind rest

/-- Go `os.Getenv` over the process environment block `envs` of `key=value` strings: the
value of the first entry whose text before its first `=` is `key`; empty when `key` is
empty or unset. -/
def Getenv (envs : List GoString) (key : GoString) : GoString :=
  if key.length = 0 then []
  else
    match envs.find? (fun s => envKey s = some key) with
    | none => []
    | some s =>
      match IndexByte s 61 with
      | some i => s.drop (i + 1)
      | none => []

/-- The verb `%d` of `fmt.Sprintf` on an integer. -/
def formatInt (n : Int) : GoString :=
  match n with
  | Int.ofNat m => (Nat.toDigits 10 m).map Char.toNat
  | Int.negSucc m => 45 :: (Nat.toDigits 10 (m + 1)).map Char.toNat

/-! ## HTTP headers (`net/http`, `net/textproto`) -/

/-- Go `http.Header`, a map from header name to values.  The order of the list is the
order in which `range` visits the map. -/
abbrev Header := List (GoString × List GoString)

/-- Go `textproto.validHeaderFieldByte`: the token characters of RFC 7230. -/
def validHeaderFieldByte (c : Nat) : Bool :=
  decide ((48 ≤ c ∧ c ≤ 57) ∨ (65 ≤ c ∧ c ≤ 90) ∨ (97 ≤ c ∧ c ≤ 122) ∨
    c ∈ [33, 35, 36, 37, 38, 39, 42, 43, 45, 46, 94, 95, 96, 124, 126])

/-- The canonicalising loop of `textproto.canonicalMIMEHeaderKey`: upper case for the
first letter and each letter after a dash, lower case for the others. -/
def canonicalLoop : Bool → GoString → GoString
  | _, [] => []
  | upper, c :: rest =>
    let c' := if upper ∧ 97 ≤ c ∧ c ≤ 122 then c - 32
              else if ¬ upper ∧ 65 ≤ c ∧ c ≤ 90 then c + 32
              else c
    c' :: canonicalLoop (c' = 45) rest

/-- Go `textproto.CanonicalMIMEHeaderKey`: a key with a byte that is no token character is
returned unchanged. -/
def CanonicalMIMEHeaderKey (s : GoString) : GoString :=
  if s.all validHeaderFieldByte then canonicalLoop true s else s

/-- The map index expression `h[key]`: the values stored under `key`, empty when absent. -/
def Header.index (h : Header) (key : GoString) : List GoString :=
  match h.find? (fun p => p.1 = key) with
  | some p => p.2
  | none => []

/-- The map assignment `h[key] = vs`. -/
def Header.assign : Header → GoString → List GoString → Header
  | [], key, vs => [(key, vs)]
  | p :: rest, key, vs =>
    if p.1 = key then (key, vs) :: rest else p :: Header.assign rest key vs

/-- Go `Header.Get`: the first value under the canonical form of `key`, or empty. -/
def Header.Get (h : Header) (key : GoString) : GoString :=
  match Header.index h (CanonicalMIMEHeaderKey key) with
  | [] => []
  | v :: _ => v

/-- Go `Header.Set`: the canonical form of `key` gets the single value `value`. -/
def Header.Set (h : Header) (key value : GoString) : Header :=
  Header.assign h (CanonicalMIMEHeaderKey key) [value]

/-- Go `Header.Add`: `value` is appended to the values of the canonical form of `key`. -/
def Header.Add (h : Header) (key value : GoString) : Header :=
  Header.assign h (CanonicalMIMEHeaderKey key)
    (Header.index h (CanonicalMIMEHeaderKey key) ++ [value])

/-! ## The handler and the request -/

/-- The values of the type `OutputHandler` that `outputHandler.go` defines.  A handler
supplied by the caller is not modelled. -/
inductive OutputHandler where
  | EZOutputHandler
  | EZOutputHandlerReplacer
  | DefaultOutputHandler
  deriving DecidableEq

/-- The type `Handler` of `handler.go` (the logger and the stderr sink are not modelled);
`Header` is `none` for a nil map and `OutputHandler` is `none` for a nil function. -/
structure Handler where
  Path : GoString
  Root : GoString
  Name : GoString
  Port : GoString
  Dir : GoString
  InheritEnv : List GoString
  Args : List GoString
  Header : Option Header
  OutputHandler : Option OutputHandler

/-- The fields of `http.Request` that `ServeHTTP` reads.  `URLRequestURI` is the value of
`r.URL.RequestURI()` and `TLS` tells whether `r.TLS` is non-nil. -/
structure Request where
  Method : GoString
  URLPath : GoString
  URLRawQuery : GoString
  URLRequestURI : GoString
  Host : GoString
  RemoteAddr : GoString
  TLS : Bool
  Header : Header
  ContentLength : Int
  TransferEncoding : List GoString

/-- Lines 68-84 of `ServeHTTP`: the defaults written into the handler. -/
def Handler.withDefaults (h : Handler) : Handler :=
  { h with
    Root := if h.Root = [] then str "/" else h.Root
    Name := if h.Name = [] then str "go" else h.Name
    Header := match h.Header with
      | none => some [(str "Content-Type", [str "text/plain"])]
      | some m => some m
    OutputHandler := match h.OutputHandler with
      | none => some OutputHandler.DefaultOutputHandler
      | some f => some f }

/-- Lines 92-95 of `ServeHTTP`: the value `pathInfo`, for the root after defaulting. -/
def pathInfo (root path : GoString) : GoString :=
  if root ≠ str "/" ∧ HasPrefix path root = true then path.drop root.length else path

/-- Lines 97-103 of `ServeHTTP`: the value `port`. -/
def serverPort (host : GoString) : GoString :=
  match portRegexFind host with
  | some p => p
  | none => str "8080"

/-- Lines 105-118 of `ServeHTTP`: the base entries. -/
def baseEnv (h : Handler) (r : Request) : List GoString :=
  [ str "SERVER_SOFTWARE=" ++ h.Name,
    str "SERVER_NAME=" ++ r.Host,
    str "SERVER_PROTOCOL=HTTP/1.1",
    str "HTTP_HOST=" ++ r.Host,
    str "GATEWAY_INTERFACE=CGI/1.1",
    str "REQUEST_METHOD=" ++ r.Method,
    str "QUERY_STRING=" ++ r.URLRawQuery,
    str "REQUEST_URI=" ++ r.URLRequestURI,
    str "PATH_INFO=" ++ pathInfo h.Root r.URLPath,
    str "SCRIPT_NAME=" ++ h.Root,
    str "SCRIPT_FILENAME=" ++ h.Path,
    str "SERVER_PORT=" ++ serverPort r.Host ]

/-- Lines 120-124 of `ServeHTTP`: the entries of the remote address. -/
def remoteEnv (remoteAddr : GoString) : List GoString :=
  match SplitHostPort remoteAddr with
  | some (remoteIP, remotePort) =>
    [str "REMOTE_ADDR=" ++ remoteIP, str "REMOTE_HOST=" ++ remoteIP,
      str "REMOTE_PORT=" ++ remotePort]
  | none => [str "REMOTE_ADDR=" ++ remoteAddr, str "REMOTE_HOST=" ++ remoteAddr]

/-- The body of the loop at lines 130-140 of `ServeHTTP` for one header: no entry when
the mapped name is `PROXY`. -/
def headerEntry (k : GoString) (v : List GoString) : Option GoString :=
  let k := stringsMap upperCaseAndUnderscore k
  if k = str "PROXY" then none
  else
    let joinStr := if k = str "COOKIE" then str "; " else str ", "
    some (str "HTTP_" ++ k ++ str "=" ++ Join v joinStr)

/-- Lines 130-140 of `ServeHTTP`: the entries of the request headers, in `range` order. -/
def headerEnv (hdr : Header) : List GoString :=
  hdr.filterMap (fun p => headerEntry p.1 p.2)

/-- Lines 155-159 of `ServeHTTP`: the inherited variables that are set and non-empty. -/
def inheritEnv (envs : List GoString) (names : List GoString) : List GoString :=
  names.filterMap (fun e =>
    let v := Getenv envs e
    if v ≠ [] then some (e ++ str "=" ++ v) else none)

/-- Lines 92-159 of `ServeHTTP`: the environment list `env` before deduplication, for
the handler after defaulting, the request, and the process environment `envs`. -/
def constructEnv (h : Handler) (r : Request) (envs : List GoString) : List GoString :=
  let h := h.withDefaults
  let env := baseEnv h r
  let env := env ++ remoteEnv r.RemoteAddr
  let env := if r.TLS then env ++ [str "HTTPS=on"] else env
  let env := env ++ headerEnv r.Header
  let env := if r.ContentLength > 0 then env ++ [str "CONTENT_LENGTH=" ++ formatInt r.ContentLength]
             else env
  let ctype := Header.Get r.Header (str "Content-Type")
  let env := if ctype ≠ [] then env ++ [str "CONTENT_TYPE=" ++ ctype] else env
  let envPath := Getenv envs (str "PATH")
  let envPath := if envPath = [] then str "/bin:/usr/bin:/usr/ucb:/usr/bsd:/usr/local/bin"
                 else envPath
  let env := env ++ [str "PATH=" ++ envPath]
  env ++ inheritEnv envs h.InheritEnv

/-- Line 161 of `ServeHTTP`: the environment given to the subprocess (`cmd.Env`). -/
def subprocessEnv (h : Handler) (r : Request) (envs : List GoString) : List GoString :=
  removeLeadingDuplicates (constructEnv h r envs)

/-! ## The environment as keyed pairs (proof device)

The same list as `constructEnv`, each entry split into its key and its value. -/

/-- The entries `key=value` of a list of pairs. -/
def render (kvs : List (GoString × GoString)) : List GoString :=
  kvs.map (fun p => p.1 ++ 61 :: p.2)

/-- The pairs of `baseEnv`. -/
def basePairs (h : Handler) (r : Request) : List (GoString × GoString) :=
  [ (str "SERVER_SOFTWARE", h.Name),
    (str "SERVER_NAME", r.Host),
    (str "SERVER_PROTOCOL", str "HTTP/1.1"),
    (str "HTTP_HOST", r.Host),
    (str "GATEWAY_INTERFACE", str "CGI/1.1"),
    (str "REQUEST_METHOD", r.Method),
    (str "QUERY_STRING", r.URLRawQuery),
    (str "REQUEST_URI", r.URLRequestURI),
    (str "PATH_INFO", pathInfo h.Root r.URLPath),
    (str "SCRIPT_NAME", h.Root),
    (str "SCRIPT_FILENAME", h.Path),
    (str "SERVER_PORT", serverPort r.Host) ]

/-- The pairs of `remoteEnv`. -/
def remotePairs (remoteAddr : GoString) : List (GoString × GoString) :=
  match SplitHostPort remoteAddr with
  | some (remoteIP, remotePort) =>
    [(str "REMOTE_ADDR", remoteIP), (str "REMOTE_HOST", remoteIP),
      (str "REMOTE_PORT", remotePort)]
  | none => [(str "REMOTE_ADDR", remoteAddr), (str "REMOTE_HOST", remoteAddr)]

/-- The pair of `headerEntry`. -/
def headerPair (k : GoString) (v : List GoString) : Option (GoString × GoString) :=
  let k := stringsMap upperCaseAndUnderscore k
  if k = str "PROXY" then none
  else some (str "HTTP_" ++ k, Join v (if k = str "COOKIE" then str "; " else str ", "))

/-- The pairs of `headerEnv`. -/
def headerPairs (hdr : Header) : List (GoString × GoString) :=
  hdr.filterMap (fun p => headerPair p.1 p.2)

/-- The pairs of `inheritEnv`. -/
def inheritPairs (envs : List GoString) (names : List GoString) : List (GoString × GoString) :=
  names.filterMap (fun e => if Getenv envs e ≠ [] then some (e, Getenv envs e) else none)

/-- The pairs of the entries `constructEnv` appends between the request headers and the
inherited variables. -/
def tailPairs (r : Request) (envs : List GoString) : List (GoString × GoString) :=
  (if r.ContentLength > 0 then [(str "CONTENT_LENGTH", formatInt r.ContentLength)] else []) ++
  (if Header.Get r.Header (str "Content-Type") ≠ []
    then [(str "CONTENT_TYPE", Header.Get r.Header (str "Content-Type"))] else []) ++
  [(str "PATH", if Getenv envs (str "PATH") = []
      then str "/bin:/usr/bin:/usr/ucb:/usr/bsd:/usr/local/bin" else Getenv envs (str "PATH"))]

/-- The pairs of `constructEnv`. -/
def envPairs (h : Handler) (r : Request) (envs : List GoString) : List (GoString × GoString) :=
  basePairs h.withDefaults r ++ remotePairs r.RemoteAddr ++
  (if r.TLS then [(str "HTTPS", str "on")] else []) ++
  headerPairs r.Header ++ tailPairs r envs ++ inheritPairs envs h.InheritEnv

/-- The pairs of `kvs` whose key is `K`, in order. -/
def pairsOf (K : GoString) (kvs : List (GoString × GoString)) : List (GoString × GoString) :=
  kvs.filter (fun p => p.1 = K)

/-! ## Concrete inputs used by the examples -/

/-- A handler for the executable `./a.sh` with every other field left at its zero value. -/
def sampleHandler : Handler :=
  { Path := str "./a.sh", Root := [], Name := [], Port := [], Dir := [],
    InheritEnv := [], Args := [], Header := none, OutputHandler := none }

/-- A `GET /foo` request from `1.2.3.4:55` to `localhost:8081` with the given headers. -/
def sampleRequest (hdr : Header) : Request :=
  { Method := str "GET", URLPath := str "/foo", URLRawQuery := [], URLRequestURI := str "/foo",
    Host := str "localhost:8081", RemoteAddr := str "1.2.3.4:55", TLS := false,
    Header := hdr, ContentLength := 0, TransferEncoding := [] }

/-! ## White space and integers (`strings`, `unicode`, `strconv`) -/

/-- Go `unicode.IsSpace`. -/
def IsSpace (r : Nat) : Bool :=
  decide (r ∈ [0x09, 0x0A, 0x0B, 0x0C, 0x0D, 0x20, 0x85, 0xA0, 0x1680, 0x2028, 0x2029, 0x202F,
    0x205F, 0x3000] ∨ (0x2000 ≤ r ∧ r ≤ 0x200A))

/-- Go `utf8.RuneStart`: the byte is not a continuation byte. -/
def RuneStart (b : Nat) : Bool := decide (¬ (0x80 ≤ b ∧ b ≤ 0xBF))

/-- The loop `for start--; start >= lim; start--` of `utf8.DecodeLastRuneInString`, from
the value of `start` before the decrement; a negative result is clamped to 0. -/
def lastRuneStartLoop (s : GoString) (lim : Nat) : Nat → Nat
  | 0 => 0
  | start + 1 =>
    if start < lim then start
    else if RuneStart (s.getD start 0) then start
    else lastRuneStartLoop s lim start

/-- Go `utf8.DecodeLastRuneInString`: the last rune of `s` and its width. -/
def DecodeLastRuneInString (s : GoString) : Nat × Nat :=
  match s.getLast? with
  | none => (RuneError, 0)
  | some last =>
    if last < 0x80 then (last, 1)
    else
      let start := lastRuneStartLoop s (s.length - 4) (s.length - 1)
      let d := DecodeRuneInString (s.drop start)
      if start + d.2 ≠ s.length then (RuneError, 1) else d

/-- Go `strings.TrimLeftFunc(s, unicode.IsSpace)`: the loop over the leading runes; the
first argument bounds the number of steps by the length of the string. -/
def trimLeftLoop : Nat → GoString → GoString
  | 0, s => s
  | fuel + 1, s =>
    if s = [] then []
    else if IsSpace (DecodeRuneInString s).1 then trimLeftLoop fuel (s.drop (DecodeRuneInString s).2)
    else s

/-- Go `strings.TrimRightFunc(s, unicode.IsSpace)`: the loop over the trailing runes. -/
def trimRightLoop : Nat → GoString → GoString
  | 0, s => s
  | fuel + 1, s =>
    if s = [] then []
    else if IsSpace (DecodeLastRuneInString s).1
      then trimRightLoop fuel (s.take (s.length - (DecodeLastRuneInString s).2))
    else s

/-- Go `strings.TrimSpace`: `s` without its leading and trailing Unicode white space. -/
def TrimSpace (s : GoString) : GoString :=
  let t := trimLeftLoop s.length s
  trimRightLoop t.length t

/-- The digit loop of `strconv.Atoi`. -/
def atoiDigits : GoString → Nat → Option Nat
  | [], n => some n
  | ch :: rest, n => if 48 ≤ ch ∧ ch ≤ 57 then atoiDigits rest (n * 10 + (ch - 48)) else none

/-- Go `strconv.Atoi` on a string of fewer than ten bytes: an optional sign and decimal
digits; `none` when the call returns an error. -/
def Atoi (s : GoString) : Option Int :=
  match s with
  | [] => none
  | c :: rest =>
    if c = 45 ∨ c = 43 then
      if rest = [] then none
      else (atoiDigits rest 0).map (fun n => if c = 45 then -(n : Int) else (n : Int))
    else (atoiDigits (c :: rest) 0).map (fun n => (n : Int))

/-! ## Buffered reading (`bufio`) -/

/-- The read end of the subprocess's stdout pipe: the chunks of bytes that successive reads
find in the pipe, in order; after the last chunk the stream is at its end. -/
abbrev Pipe := List (List Nat)

/-- The call `Read(p)` with `len(p) = n` on the pipe: at most `n` bytes of the first
non-empty chunk and the pipe after the read; `none` is `io.EOF`.  (A read of a pipe does not
return zero bytes before the end of the stream.) -/
def Pipe.Read (n : Nat) : Pipe → Option (List Nat × Pipe)
  | [] => none
  | c :: cs =>
    if c = [] then Pipe.Read n cs
    else some (c.take n, if c.drop n = [] then cs else c.drop n :: cs)

/-- Go `bufio.Reader`: the buffer, the pipe it reads, the read and write positions, and
whether `io.EOF` is pending in `b.err`. -/
structure Reader where
  buf : List Nat
  rd : Pipe
  r : Nat
  w : Nat
  err : Bool

/-- Go `bufio.NewReaderSize`. -/
def NewReaderSize (rd : Pipe) (size : Nat) : Reader :=
  { buf := List.replicate (if size < 16 then 16 else size) 0, rd := rd, r := 0, w := 0,
    err := false }

/-- Go `(*Reader).fill`: slide the unread bytes to the start of the buffer and read once. -/
def Reader.fill (b : Reader) : Reader :=
  let b : Reader :=
    if b.r > 0 then
      { b with buf := (b.buf.take b.w).drop b.r ++ b.buf.drop (b.w - b.r), w := b.w - b.r, r := 0 }
    else b
  match Pipe.Read (b.buf.length - b.w) b.rd with
  | none => { b with err := true }
  | some (data, rd) =>
    { b with buf := b.buf.take b.w ++ data ++ b.buf.drop (b.w + data.length),
             w := b.w + data.length, rd := rd }

/-- The errors `bufio` returns to the handlers. -/
inductive ReadErr where
  | EOF
  | ErrBufferFull
  deriving DecidableEq

/-- A byte slice into the buffer of a `Reader`: its bytes and its offset in the buffer.  Its
capacity reaches the end of the buffer. -/
structure BufSlice where
  bytes : List Nat
  off : Nat

/-- The loop of Go `(*Reader).ReadSlice`, with `s` the search start index; `none` when the
step bound is exhausted. -/
def Reader.readSliceLoop (delim : Nat) :
    Nat → Nat → Reader → Option (BufSlice × Option ReadErr × Reader)
  | 0, _, _ => none
  | fuel + 1, s, b =>
    match IndexByte ((b.buf.take b.w).drop (b.r + s)) delim with
    | some i =>
      some (⟨(b.buf.drop b.r).take (i + s + 1), b.r⟩, none, { b with r := b.r + (i + s) + 1 })
    | none =>
      if b.err then
        some (⟨(b.buf.take b.w).drop b.r, b.r⟩, some ReadErr.EOF, { b with r := b.w, err := false })
      else if b.w - b.r ≥ b.buf.length then
        some (⟨b.buf, 0⟩, some ReadErr.ErrBufferFull, { b with r := b.w })
      else Reader.readSliceLoop delim fuel (b.w - b.r) b.fill

/-- Go `(*Reader).ReadSlice`.  Every pass of the loop but the last two reads at least one
more byte into the buffer, so `len(buf) + 2` passes are enough. -/
def Reader.ReadSlice (b : Reader) (delim : Nat) : Option (BufSlice × Option ReadErr × Reader) :=
  Reader.readSliceLoop delim (b.buf.length + 2) 0 b

/-- What `ReadLine` returns: `line`, `isPrefix`, and whether `err` is `io.EOF` (it is nil
otherwise). -/
structure Line where
  line : BufSlice
  isPrefix : Bool
  eof : Bool

/-- Go `(*Reader).ReadLine`. -/
def Reader.ReadLine (b : Reader) : Option (Line × Reader) :=
  match b.ReadSlice 10 with
  | none => none
  | some (line, err, b) =>
    if err = some ReadErr.ErrBufferFull then
      if line.bytes.getLast? = some 13 then
        some (⟨⟨line.bytes.dropLast, line.off⟩, true, false⟩, { b with r := b.r - 1 })
      else some (⟨line, true, false⟩, b)
    else if line.bytes.length = 0 then
      some (⟨line, false, err.isSome⟩, b)
    else if line.bytes.getLast? = some 10 then
      let drop := if line.bytes.length > 1 ∧ line.bytes.dropLast.getLast? = some 13 then 2 else 1
      some (⟨⟨line.bytes.take (line.bytes.length - drop), line.off⟩, false, false⟩, b)
    else some (⟨line, false, false⟩, b)

/-- The bytes `io.Copy(w, linebody)` writes: Go `(*Reader).WriteTo` writes the unread part
of the buffer and then the rest of the stream. -/
def Reader.WriteTo (b : Reader) : List Nat :=
  (b.buf.take b.w).drop b.r ++ b.rd.flatten

/-- The effect on the buffer of `append(line, p...)` for a slice `line` of the buffer: when
the capacity of `line` holds the result, the bytes `p` are written into the buffer after
the slice; otherwise a new array is allocated and the buffer is unchanged. -/
def Reader.appendInPlace (b : Reader) (line : BufSlice) (p : List Nat) : Reader :=
  if line.off + line.bytes.length + p.length ≤ b.buf.length then
    { b with buf := b.buf.take (line.off + line.bytes.length) ++ p ++
        b.buf.drop (line.off + line.bytes.length + p.length) }
  else b

/-! ## The response (`http.ResponseWriter`) -/

/-- The state of an `http.ResponseWriter`: the header map `w.Header()`, the status code sent
(`none` while no header has been written) and the body written so far. -/
structure ResponseWriter where
  header : Header
  status : Option Int
  body : List Nat

/-- A response writer on which nothing has been written. -/
def ResponseWriter.fresh : ResponseWriter := { header := [], status := none, body := [] }

/-- Go `ResponseWriter.WriteHeader`: a call after the header was written does nothing;
otherwise the call fixes the status code, and it panics (`none`) for a code below 100 or
above 999.  Informational responses (codes 100 to 199) are not told apart from final ones. -/
def ResponseWriter.WriteHeader (w : ResponseWriter) (code : Int) : Option ResponseWriter :=
  if w.status.isSome then some w
  else if code < 100 ∨ code > 999 then none
  else some { w with status := some code }

/-- Go `ResponseWriter.Write`: writes the status 200 first when no header has been
written. -/
def ResponseWriter.Write (w : ResponseWriter) (p : List Nat) : ResponseWriter :=
  { w with status := some (w.status.getD 200), body := w.body ++ p }

/-- The loops `for k, vv := range hdr { for _, v := range vv { w.Header().Add(k, v) } }` of
the output handlers. -/
def ResponseWriter.addAll (w : ResponseWriter) (hdr : Header) : ResponseWriter :=
  hdr.foldl (fun w p => p.2.foldl (fun w v => { w with header := Header.Add w.header p.1 v }) w) w

/-! ## The output handlers (`outputHandler.go`) -/

/-- How a run of an output handler ends: it returns, or a call inside it panics.  Both carry
the handler's header map `h.Header` and the response writer at that point. -/
inductive Outcome where
  | returned (hdr : Header) (w : ResponseWriter)
  | panicked (hdr : Header) (w : ResponseWriter)

/-- The variables of `EZOutputHandlerReplacer` that its scanning loop changes: the map
`h.Header`, `statusCode`, `readBytes` (`none` for nil) and `linebody`. -/
structure Scan where
  header : Header
  statusCode : Int
  readBytes : Option (List Nat)
  linebody : Reader

/-- How the scanning loop of `EZOutputHandlerReplacer` is left: by `break`, or by one of
the `return` statements after a bogus status. -/
inductive ScanExit where
  | brk (s : Scan)
  | ret (s : Scan)

/-- The loop at lines 55-95 of `EZOutputHandlerReplacer`; `none` when the step bound is
exhausted.  The pipe fails with no error but `io.EOF`, so the branch `err != nil` after the
first test is not taken. -/
def EZOutputHandlerReplacer.scan : Nat → Scan → Option ScanExit
  | 0, _ => none
  | fuel + 1, s =>
    match s.linebody.ReadLine with
    | none => none
    | some (res, lb) =>
      let s := { s with linebody := lb }
      if res.isPrefix ∨ res.eof then some (ScanExit.brk s)
      else if res.line.bytes.length = 0 then some (ScanExit.brk s)
      else
        match IndexByte res.line.bytes 58 with
        | none =>
          some (ScanExit.brk { s with
            readBytes := some (res.line.bytes ++ [10, 13]),
            linebody := lb.appendInPlace res.line [10, 13] })
        | some i =>
          let k := TrimSpace (res.line.bytes.take i)
          let v := TrimSpace (res.line.bytes.drop (i + 1))
          if k = str "Status" then
            if v.length < 3 then some (ScanExit.ret s)
            else
              match Atoi (v.take 3) with
              | none => some (ScanExit.ret s)
              | some code => EZOutputHandlerReplacer.scan fuel { s with statusCode := code }
          else EZOutputHandlerReplacer.scan fuel { s with header := Header.Set s.header k v }

/-- The output handler `EZOutputHandlerReplacer`, run on the handler's header map `hdr`
(`h.Header`), the response writer and the subprocess's stdout; `none` when the step bound
of the scanning loop is exhausted.  Each pass of the loop that does not leave it consumes at
least one byte of the stream. -/
def EZOutputHandlerReplacer (hdr : Header) (w : ResponseWriter) (stdoutRead : Pipe) :
    Option Outcome :=
  let linebody := NewReaderSize stdoutRead 1024
  match EZOutputHandlerReplacer.scan (stdoutRead.flatten.length + 1)
      { header := hdr, statusCode := 0, readBytes := none, linebody := linebody } with
  | none => none
  | some (ScanExit.ret s) => some (Outcome.returned s.header w)
  | some (ScanExit.brk s) =>
    let statusCode := if s.statusCode = 0 then 200 else s.statusCode
    let w := w.addAll s.header
    match w.WriteHeader statusCode with
    | none => some (Outcome.panicked s.header w)
    | some w =>
      let w := match s.readBytes with
        | some readBytes => w.Write readBytes
        | none => w
      some (Outcome.returned s.header (w.Write s.linebody.WriteTo))

/-- The output handler `EZOutputHandler`: the default headers, the status 200, and the whole
output as the body. -/
def EZOutputHandler (hdr : Header) (w : ResponseWriter) (stdoutRead : Pipe) : Option Outcome :=
  let w := w.addAll hdr
  match w.WriteHeader 200 with
  | none => some (Outcome.panicked hdr w)
  | some w =>
    let linebody := NewReaderSize stdoutRead 1024
    some (Outcome.returned hdr (w.Write linebody.WriteTo))

/-- The variables of `DefaultOutputHandler` that its scanning loop changes: `headers`,
`statusCode`, `headerLines`, `sawBlankLine` and `linebody`. -/
structure DefaultScan where
  headers : Header
  statusCode : Int
  headerLines : Nat
  sawBlankLine : Bool
  linebody : Reader

/-- How the scanning loop of `DefaultOutputHandler` is left: by `break`, by the `return` after
a long header line (which writes the status 500), or by one of the `return` statements after
a bogus status (which write nothing). -/
inductive DefaultScanExit where
  | brk (s : DefaultScan)
  | longLine (s : DefaultScan)
  | ret (s : DefaultScan)

/-- The loop at lines 133-177 of `DefaultOutputHandler`; `none` when the step bound is
exhausted.  The pipe fails with no error but `io.EOF`, so the branch `err != nil` after the
test for `io.EOF` is not taken. -/
def DefaultOutputHandler.scan : Nat → DefaultScan → Option DefaultScanExit
  | 0, _ => none
  | fuel + 1, s =>
    match s.linebody.ReadLine with
    | none => none
    | some (res, lb) =>
      let s := { s with linebody := lb }
      if res.isPrefix then some (DefaultScanExit.longLine s)
      else if res.eof then some (DefaultScanExit.brk s)
      else if res.line.bytes.length = 0 then
        some (DefaultScanExit.brk { s with sawBlankLine := true })
      else
        let s := { s with headerLines := s.headerLines + 1 }
        match IndexByte res.line.bytes 58 with
        | none => DefaultOutputHandler.scan fuel s
        | some i =>
          let header := TrimSpace (res.line.bytes.take i)
          let val := TrimSpace (res.line.bytes.drop (i + 1))
          if header = str "Status" then
            if val.length < 3 then some (DefaultScanExit.ret s)
            else
              match Atoi (val.take 3) with
              | none => some (DefaultScanExit.ret s)
              | some code => DefaultOutputHandler.scan fuel { s with statusCode := code }
          else
            DefaultOutputHandler.scan fuel { s with headers := Header.Add s.headers header val }

/-- The statement `w.WriteHeader(http.StatusInternalServerError); return` of the output
handlers. -/
def respond500 (hdr : Header) (w : ResponseWriter) : Outcome :=
  match w.WriteHeader 500 with
  | none => Outcome.panicked hdr w
  | some w => Outcome.returned hdr w

/-- Lines 178-212 of `DefaultOutputHandler`: the response once the scanning loop was left by
`break`, from `headers`, `statusCode`, `headerLines`, `sawBlankLine` and the rest of the
stream. -/
def DefaultOutputHandler.respond (hdr : Header) (w : ResponseWriter) (s : DefaultScan) :
    Outcome :=
  if s.headerLines = 0 ∨ s.sawBlankLine = false then respond500 hdr w
  else
    let statusCode :=
      if Header.Get s.headers (str "Location") ≠ [] then
        (if s.statusCode = 0 then 302 else s.statusCode)
      else s.statusCode
    if statusCode = 0 ∧ Header.Get s.headers (str "Content-Type") = [] then respond500 hdr w
    else
      let statusCode := if statusCode = 0 then 200 else statusCode
      let w := w.addAll s.headers
      match w.WriteHeader statusCode with
      | none => Outcome.panicked hdr w
      | some w => Outcome.returned hdr (w.Write s.linebody.WriteTo)

/-- The output handler `DefaultOutputHandler`, run on the handler's header map `hdr` (which
it neither reads nor changes), the response writer and the subprocess's stdout; `none` when
the step bound of the scanning loop is exhausted. -/
def DefaultOutputHandler (hdr : Header) (w : ResponseWriter) (stdoutRead : Pipe) :
    Option Outcome :=
  let linebody := NewReaderSize stdoutRead 1024
  match DefaultOutputHandler.scan (stdoutRead.flatten.length + 1)
      { headers := [], statusCode := 0, headerLines := 0, sawBlankLine := false,
        linebody := linebody } with
  | none => none
  | some (DefaultScanExit.longLine _) => some (respond500 hdr w)
  | some (DefaultScanExit.ret _) => some (Outcome.returned hdr w)
  | some (DefaultScanExit.brk s) => some (DefaultOutputHandler.respond hdr w s)

/-- The status code a client receives: the code written, or 200 when the handler returned
without writing a header. -/
def ResponseWriter.statusCode (w : ResponseWriter) : Int := w.status.getD 200

/-! ## The request handler (`handler.go`, `ServeHTTP`) -/

/-- Go `exec.Cmd` as `ServeHTTP` fills it; `Stdin` tells whether the request body is wired to
the standard input of the process. -/
structure Cmd where
  Path : GoString
  Args : List GoString
  Dir : GoString
  Env : List GoString
  Stdin : Bool
  deriving DecidableEq

/-- What the operating system answers to a command: `cmd.StdoutPipe()` fails, `cmd.Start()`
fails, or the process starts and writes `stdout` to its standard output. -/
inductive Spawn where
  | pipeError
  | startError
  | started (stdout : Pipe)

/-- The calls of `ServeHTTP` on a started subprocess, in the order they are made. -/
inductive Event where
  | start (cmd : Cmd)
  | kill
  | close
  | wait
  deriving DecidableEq

/-- The state when `ServeHTTP` is over: the handler (a pointer receiver, so its changes
stay), the response, the calls on the subprocess, and whether the run ended in a panic. -/
structure Served where
  h : Handler
  w : ResponseWriter
  events : List Event
  panicked : Bool

/-- Go `filepath.Split` with the separator `/`: the directory with its final slash, and the
file. -/
def filepathSplit (path : GoString) : GoString × GoString :=
  match LastIndexByte path 47 with
  | some i => (path.take (i + 1), path.drop (i + 1))
  | none => ([], path)

/-- Lines 163-185 and 187-189 of `ServeHTTP`: the command. -/
def buildCmd (h : Handler) (r : Request) (env : List GoString) : Cmd :=
  let cwdPath : GoString × GoString :=
    if h.Dir ≠ [] then (h.Dir, h.Path) else filepathSplit h.Path
  let cwd := if cwdPath.1 = [] then str "." else cwdPath.1
  { Path := cwdPath.2, Args := h.Path :: h.Args, Dir := cwd, Env := env,
    Stdin := decide (r.ContentLength ≠ 0) }

/-- The call `h.OutputHandler(w, r, h, stdoutRead)` for the handlers of `outputHandler.go`. -/
def runOutputHandler (f : OutputHandler) (hdr : Header) (w : ResponseWriter)
    (stdoutRead : Pipe) : Option Outcome :=
  match f with
  | OutputHandler.EZOutputHandler => EZOutputHandler hdr w stdoutRead
  | OutputHandler.EZOutputHandlerReplacer => EZOutputHandlerReplacer hdr w stdoutRead
  | OutputHandler.DefaultOutputHandler => DefaultOutputHandler hdr w stdoutRead

/-- The method `ServeHTTP`, for the process environment `envs` and the answer `os` of the
operating system to the command; `none` when the step bound of an output handler is
exhausted.  After a start the deferred calls `stdoutRead.Close()` and `cmd.Wait()` run when
the function is left, also by a panic. -/
def ServeHTTP (h : Handler) (w : ResponseWriter) (r : Request) (envs : List GoString)
    (os : Cmd → Spawn) : Option Served :=
  let h := h.withDefaults
  if r.TransferEncoding.head? = some (str "chunked") then
    match w.WriteHeader 400 with
    | none => some { h := h, w := w, events := [], panicked := true }
    | some w =>
      some { h := h, w := w.Write (str "Chunked request bodies are not supported by CGI."),
             events := [], panicked := false }
  else
    let env := subprocessEnv h r envs
    let cmd := buildCmd h r env
    match os cmd with
    | Spawn.pipeError =>
      match respond500 [] w with
      | Outcome.returned _ w => some { h := h, w := w, events := [], panicked := false }
      | Outcome.panicked _ w => some { h := h, w := w, events := [], panicked := true }
    | Spawn.startError =>
      match respond500 [] w with
      | Outcome.returned _ w => some { h := h, w := w, events := [], panicked := false }
      | Outcome.panicked _ w => some { h := h, w := w, events := [], panicked := true }
    | Spawn.started stdout =>
      match runOutputHandler (h.OutputHandler.getD OutputHandler.DefaultOutputHandler)
          (h.Header.getD []) w stdout with
      | none => none
      | some (Outcome.returned hdr w) =>
        some { h := { h with Header := some hdr }, w := w,
               events := [Event.start cmd, Event.kill, Event.close, Event.wait],
               panicked := false }
      | some (Outcome.panicked hdr w) =>
        some { h := { h with Header := some hdr }, w := w,
               events := [Event.start cmd, Event.close, Event.wait], panicked := true }

/-! ## Reader invariants (proof device) -/

/-- The unread bytes held in the buffer, `buf[r:w]`. -/
def Reader.buffered (b : Reader) : List Nat := (b.buf.take b.w).drop b.r

/-- The positions of a reader are in order and inside the buffer, and once `io.EOF` is
pending the pipe has no byte left. -/
def Reader.WF (b : Reader) : Prop :=
  b.r ≤ b.w ∧ b.w ≤ b.buf.length ∧ (b.err = true → b.rd.flatten = [])

/-! ## Header lines of subprocess output -/

/-- A line of subprocess output with a colon: the text before its first colon, the text after
it, and whether the line ends with `\r\n` (it ends with `\n` otherwise). -/
structure HeaderLine where
  key : GoString
  value : GoString
  crlf : Bool

/-- The text of a header line, without its end-of-line marker. -/
def HeaderLine.text (l : HeaderLine) : List Nat := l.key ++ 58 :: l.value

/-- The end-of-line marker, `\r\n` or `\n`. -/
def endOfLine (crlf : Bool) : List Nat := if crlf then [13, 10] else [10]

/-- The bytes of a header line in the output stream. -/
def HeaderLine.bytes (l : HeaderLine) : List Nat := l.text ++ endOfLine l.crlf

/-- A header line as the scanning loops read it: no line feed inside, the key holds no
colon, the bytes before the line feed are fewer than `size` (the size of the line buffer),
and a line that ends with `\n` alone has no `\r` right before it. -/
def HeaderLine.fits (l : HeaderLine) (size : Nat) : Prop :=
  58 ∉ l.key ∧ 10 ∉ l.text ∧ l.text.length + (if l.crlf then 1 else 0) < size ∧
    (l.crlf = false → l.text.getLast? ≠ some 13)

instance HeaderLine.decidableFits (l : HeaderLine) (size : Nat) : Decidable (l.fits size) :=
  inferInstanceAs (Decidable (58 ∉ l.key ∧ 10 ∉ l.text ∧
    l.text.length + (if l.crlf then 1 else 0) < size ∧
    (l.crlf = false → l.text.getLast? ≠ some 13)))

/-- The header map after `Set` was called for every line, in order, with the trimmed key and
the trimmed value. -/
def setAll (hdr : Header) (lines : List HeaderLine) : Header :=
  lines.foldl (fun h l => Header.Set h (TrimSpace l.key) (TrimSpace l.value)) hdr

/-- The handler's header map `h.Header` when the run of an output handler ends. -/
def Outcome.header : Outcome → Header
  | Outcome.returned hdr _ => hdr
  | Outcome.panicked hdr _ => hdr

/-- The response written when the run of an output handler ends. -/
def Outcome.response : Outcome → ResponseWriter
  | Outcome.returned _ w => w
  | Outcome.panicked _ w => w

/-! ## Lines of a header block (proof device) -/

/-- A line of subprocess output: its text and whether it ends with `\r\n` (it ends with `\n`
otherwise). -/
structure TextLine where
  text : List Nat
  crlf : Bool

/-- The bytes of a line in the output stream. -/
def TextLine.bytes (l : TextLine) : List Nat := l.text ++ endOfLine l.crlf

/-- A non-blank line as the scanning loops read it: no line feed inside, the bytes before
the line feed are fewer than `size` (the size of the line buffer), and a line that ends with
`\n` alone has no `\r` right before it. -/
def TextLine.fits (l : TextLine) (size : Nat) : Prop :=
  l.text ≠ [] ∧ 10 ∉ l.text ∧ l.text.length + (if l.crlf then 1 else 0) < size ∧
    (l.crlf = false → l.text.getLast? ≠ some 13)

instance TextLine.decidableFits (l : TextLine) (size : Nat) : Decidable (l.fits size) :=
  inferInstanceAs (Decidable (l.text ≠ [] ∧ 10 ∉ l.text ∧
    l.text.length + (if l.crlf then 1 else 0) < size ∧
    (l.crlf = false → l.text.getLast? ≠ some 13)))

/-- The header name the scanning loops take from a line: the trimmed text before its first
colon; `none` for a line without a colon. -/
def TextLine.key (l : TextLine) : Option GoString :=
  (IndexByte l.text 58).map (fun i => TrimSpace (l.text.take i))

/-- The header value the scanning loops take from a line: the trimmed text after its first
colon. -/
def TextLine.value (l : TextLine) : GoString :=
  match IndexByte l.text 58 with
  | some i => TrimSpace (l.text.drop (i + 1))
  | none => []

/-- The line is a `Status` line. -/
def TextLine.isStatus (l : TextLine) : Prop := l.key = some (str "Status")

instance TextLine.decidableIsStatus (l : TextLine) : Decidable l.isStatus :=
  inferInstanceAs (Decidable (l.key = some (str "Status")))

/-- The status code of a `Status` line: the integer its first three bytes parse to; `none`
when the value is shorter than three bytes or the bytes do not parse (a bogus status). -/
def TextLine.statusCode (l : TextLine) : Option Int :=
  if l.value.length < 3 then none else Atoi (l.value.take 3)

/-- The line is a `Status` line with a bogus status. -/
def TextLine.isBogusStatus (l : TextLine) : Prop := l.isStatus ∧ l.statusCode = none

instance TextLine.decidableIsBogusStatus (l : TextLine) : Decidable l.isBogusStatus :=
  inferInstanceAs (Decidable (l.isStatus ∧ l.statusCode = none))

/-- The line is a header line named `K`: it has a colon, it is no `Status` line, and the
canonical form of its name is `K`. -/
def TextLine.isHeader (l : TextLine) (K : GoString) : Prop :=
  ¬ l.isStatus ∧ l.key.map CanonicalMIMEHeaderKey = some K

instance TextLine.decidableIsHeader (l : TextLine) (K : GoString) : Decidable (l.isHeader K) :=
  inferInstanceAs (Decidable (¬ l.isStatus ∧ l.key.map CanonicalMIMEHeaderKey = some K))

/-- The map `headers` of `DefaultOutputHandler` after the lines were scanned: `Add` for each
line with a colon that is no `Status` line. -/
def addLines (hdr : Header) (lines : List TextLine) : Header :=
  lines.foldl (fun h l =>
    match l.key with
    | some k => if k = str "Status" then h else Header.Add h k l.value
    | none => h) hdr

/-- The map `h.Header` of `EZOutputHandlerReplacer` after the lines were scanned: `Set` for
each line with a colon that is no `Status` line. -/
def setLines (hdr : Header) (lines : List TextLine) : Header :=
  lines.foldl (fun h l =>
    match l.key with
    | some k => if k = str "Status" then h else Header.Set h k l.value
    | none => h) hdr

/-- The variable `statusCode` after the lines were scanned: the code of the last `Status`
line, or the former value when there is none. -/
def lastStatus (code : Int) (lines : List TextLine) : Int :=
  lines.foldl (fun c l => if l.isStatus then l.statusCode.getD c else c) code

/-- A header block in the output stream: the lines, a blank line, and the bytes after
it. -/
def blockBytes (lines : List TextLine) (blank : Bool) (B : List Nat) : List Nat :=
  lines.flatMap TextLine.bytes ++ endOfLine blank ++ B

/-- The value of the first header line named `K` among the lines, empty when there is none:
what `headers.Get(K)` returns after the lines were scanned. -/
def firstValue (lines : List TextLine) (K : GoString) : GoString :=
  (((lines.filter (fun l => l.isHeader K)).map TextLine.value).head?).getD []

/-- The line has a colon. -/
def TextLine.hasColon (l : TextLine) : Bool := l.key.isSome

/-! ## Theorems -/

theorem IndexByte_eq_none {s : GoString} {c : Nat} : IndexByte s c = none ↔ c ∉ s := by
  induction s with
  | nil => simp [IndexByte]
  | cons b rest ih =>
    by_cases hb : b = c
    · simp [IndexByte, hb]
    · simp [IndexByte, hb, ih, Ne.symm hb]

theorem IndexByte_eq_some {s : GoString} {c i : Nat} :
    IndexByte s c = some i ↔ c ∉ s.take i ∧ ∃ post, s = s.take i ++ c :: post := by
  induction s generalizing i with
  | nil => simp [IndexByte]
  | cons b rest ih =>
    by_cases hb : b = c
    · subst hb
      cases i with
      | zero => simp [IndexByte]
      | succ j => simp [IndexByte]
    · cases i with
      | zero => simp [IndexByte, hb]
      | succ j => simp [IndexByte, hb, ih, Ne.symm hb]

theorem IndexByte_lt_length {s : GoString} {c i : Nat} (h : IndexByte s c = some i) :
    i < s.length := by
  obtain ⟨_, post, hpost⟩ := IndexByte_eq_some.1 h
  have hlen : s.length = (s.take i ++ c :: post).length := by rw [← hpost]
  simp only [List.length_append, List.length_take, List.length_cons] at hlen
  omega

theorem IndexByte_append_cons {k v : GoString} {c : Nat} (hk : c ∉ k) :
    IndexByte (k ++ c :: v) c = some k.length := by
  rw [IndexByte_eq_some]
  simp [hk]

/-- The key of an entry is `k` exactly when the entry is `k`, `=`, and a value, with no
`=` in `k`. -/
theorem envKey_eq_some {e k : GoString} :
    envKey e = some k ↔ 61 ∉ k ∧ ∃ v, e = k ++ 61 :: v := by
  constructor
  · intro h
    simp only [envKey, Option.map_eq_some'] at h
    obtain ⟨i, hi, rfl⟩ := h
    rw [IndexByte_eq_some] at hi
    exact hi
  · rintro ⟨hk, v, rfl⟩
    simp [envKey, IndexByte_append_cons hk]

theorem HasPrefix_iff {s pre : GoString} : HasPrefix s pre = true ↔ pre <+: s := by
  simp [HasPrefix]

/-- The prefix test of `removeLeadingDuplicates` is a comparison of keys. -/
theorem HasPrefix_key_iff {e2 k : GoString} (hk : 61 ∉ k) :
    HasPrefix e2 (k ++ [61]) = true ↔ envKey e2 = some k := by
  rw [HasPrefix_iff, envKey_eq_some]
  constructor
  · rintro ⟨t, rfl⟩
    exact ⟨hk, t, by simp⟩
  · rintro ⟨_, v, rfl⟩
    exact ⟨v, by simp⟩

theorem removeLeadingDuplicates_cons_key {e k : GoString} {rest : List GoString}
    (h : envKey e = some k) :
    removeLeadingDuplicates (e :: rest) =
      if entriesOf k rest = [] then e :: removeLeadingDuplicates rest
      else removeLeadingDuplicates rest := by
  have hk := (envKey_eq_some.1 h).1
  simp only [envKey, Option.map_eq_some'] at h
  obtain ⟨i, hi, rfl⟩ := h
  have htake : e.take (i + 1) = e.take i ++ [61] := by
    obtain ⟨_, post, hpost⟩ := IndexByte_eq_some.1 hi
    have hlen : (e.take i).length = i := by
      rw [List.length_take]
      have : (List.take i e ++ 61 :: post).length = e.length := by rw [← hpost]
      simp at this
      omega
    conv_lhs => rw [hpost]
    rw [List.take_append_eq_append_take]
    simp [hlen]
  simp only [removeLeadingDuplicates, hi, htake, entriesOf]
  have hany : (rest.any fun e2 => HasPrefix e2 (e.take i ++ [61])) =
      !(decide (rest.filter (fun x => envKey x = some (e.take i)) = [])) := by
    induction rest with
    | nil => simp
    | cons x xs ih =>
      by_cases hx : envKey x = some (e.take i)
      · simp [List.filter_cons, hx, (HasPrefix_key_iff hk).2 hx]
      · have : HasPrefix x (e.take i ++ [61]) = false := by
          rw [Bool.eq_false_iff]
          intro hp
          exact hx ((HasPrefix_key_iff hk).1 hp)
        simp [List.filter_cons, hx, this, ih]
  rw [hany]
  by_cases hnil : rest.filter (fun x => envKey x = some (e.take i)) = []
  · simp [hnil]
  · simp [hnil]

theorem removeLeadingDuplicates_cons_nokey {e : GoString} {rest : List GoString}
    (h : envKey e = none) :
    removeLeadingDuplicates (e :: rest) = e :: removeLeadingDuplicates rest := by
  simp only [envKey, Option.map_eq_none'] at h
  simp [removeLeadingDuplicates, h]

/-- After deduplication the entries with key `k` are exactly the last entry of the input
with key `k`, if there is one. -/
theorem entriesOf_removeLeadingDuplicates (k : GoString) (env : List GoString) :
    entriesOf k (removeLeadingDuplicates env) = ((entriesOf k env).getLast?).toList := by
  induction env with
  | nil => simp [removeLeadingDuplicates, entriesOf]
  | cons e rest ih =>
    cases hke : envKey e with
    | none =>
      rw [removeLeadingDuplicates_cons_nokey hke]
      have h1 : entriesOf k (e :: removeLeadingDuplicates rest)
          = entriesOf k (removeLeadingDuplicates rest) := by
        simp [entriesOf, List.filter_cons, hke]
      have h2 : entriesOf k (e :: rest) = entriesOf k rest := by
        simp [entriesOf, List.filter_cons, hke]
      rw [h1, h2, ih]
    | some k' =>
      rw [removeLeadingDuplicates_cons_key hke]
      by_cases hkk : k' = k
      · subst hkk
        have h2 : entriesOf k' (e :: rest) = e :: entriesOf k' rest := by
          simp [entriesOf, List.filter_cons, hke]
        by_cases hnil : entriesOf k' rest = []
        · have h1 : entriesOf k' (e :: removeLeadingDuplicates rest)
              = e :: entriesOf k' (removeLeadingDuplicates rest) := by
            simp [entriesOf, List.filter_cons, hke]
          rw [if_pos hnil, h1, h2, ih, hnil]
          simp
        · rw [if_neg hnil, ih, h2]
          cases hr : entriesOf k' rest with
          | nil => exact absurd hr hnil
          | cons x xs => rw [List.getLast?_cons_cons]
      · have hne : ¬ (envKey e = some k) := by
          rw [hke]
          intro h
          exact hkk (Option.some.inj h)
        have h2 : entriesOf k (e :: rest) = entriesOf k rest := by
          simp [entriesOf, List.filter_cons, hne]
        have h1 : entriesOf k (e :: removeLeadingDuplicates rest)
            = entriesOf k (removeLeadingDuplicates rest) := by
          simp [entriesOf, List.filter_cons, hne]
        by_cases hnil : entriesOf k' rest = []
        · rw [if_pos hnil, h1, h2, ih]
        · rw [if_neg hnil, h2, ih]

/-- C1: for every environment list and every key `k` of one of its entries, the
deduplicated list contains exactly one entry with key `k`, and that entry is the last
entry of the input whose key is `k`. -/
theorem C1_last_write_wins (env : List GoString) (k : GoString)
    (hk : ∃ e ∈ env, envKey e = some k) :
    ∃ e, entriesOf k (removeLeadingDuplicates env) = [e] ∧
      (entriesOf k env).getLast? = some e := by
  obtain ⟨e0, he0, hke0⟩ := hk
  have hne : entriesOf k env ≠ [] := by
    intro h
    have : e0 ∈ entriesOf k env := by
      simp [entriesOf, List.mem_filter, he0, hke0]
    rw [h] at this
    exact List.not_mem_nil _ this
  obtain ⟨e, he⟩ : ∃ e, (entriesOf k env).getLast? = some e := by
    cases h : (entriesOf k env).getLast? with
    | none => exact absurd (List.getLast?_eq_none_iff.1 h) hne
    | some e => exact ⟨e, rfl⟩
  exact ⟨e, by rw [entriesOf_removeLeadingDuplicates, he]; rfl, he⟩

/-- C1 at the list `PATH=/bin`, `A=1`, `PATH=/usr/bin` and the key `PATH`. -/
theorem C1_last_write_wins_witness :
    ∃ e, entriesOf (str "PATH")
        (removeLeadingDuplicates [str "PATH=/bin", str "A=1", str "PATH=/usr/bin"]) = [e] ∧
      (entriesOf (str "PATH") [str "PATH=/bin", str "A=1", str "PATH=/usr/bin"]).getLast?
        = some e :=
  C1_last_write_wins [str "PATH=/bin", str "A=1", str "PATH=/usr/bin"] (str "PATH")
    ⟨str "PATH=/bin", by decide, by decide⟩

/-! ### The environment list as keyed pairs -/

theorem render_append (a b : List (GoString × GoString)) :
    render (a ++ b) = render a ++ render b := by
  simp [render]

theorem baseEnv_eq (h : Handler) (r : Request) : baseEnv h r = render (basePairs h r) := rfl

theorem remoteEnv_eq (a : GoString) : remoteEnv a = render (remotePairs a) := by
  unfold remoteEnv remotePairs
  cases SplitHostPort a with
  | none => rfl
  | some p => rfl

theorem headerEnv_eq (hdr : Header) : headerEnv hdr = render (headerPairs hdr) := by
  induction hdr with
  | nil => rfl
  | cons p rest ih =>
    simp only [headerEnv, headerPairs, render] at ih ⊢
    by_cases hp : stringsMap upperCaseAndUnderscore p.1 = str "PROXY"
    · simp only [List.filterMap_cons, headerEntry, headerPair, hp, if_true]
      exact ih
    · simp only [List.filterMap_cons, headerEntry, headerPair, hp, if_false, List.map_cons, ih]
      congr 1
      have : str "=" = [61] := rfl
      simp [this]

theorem inheritEnv_eq (envs names : List GoString) :
    inheritEnv envs names = render (inheritPairs envs names) := by
  induction names with
  | nil => rfl
  | cons e rest ih =>
    simp only [inheritEnv, inheritPairs, render] at ih ⊢
    by_cases hv : Getenv envs e = []
    · simp only [List.filterMap_cons, hv, ne_eq, not_true_eq_false, if_false]
      exact ih
    · simp only [List.filterMap_cons, hv, ne_eq, not_false_eq_true, if_true, List.map_cons, ih]
      congr 1
      have : str "=" = [61] := rfl
      simp [this]

theorem constructEnv_eq (h : Handler) (r : Request) (envs : List GoString) :
    constructEnv h r envs = render (envPairs h r envs) := by
  have hi : h.withDefaults.InheritEnv = h.InheritEnv := rfl
  simp only [constructEnv, envPairs, tailPairs, render_append, baseEnv_eq, remoteEnv_eq,
    headerEnv_eq, inheritEnv_eq, hi]
  have l1 : str "HTTPS=on" = str "HTTPS" ++ 61 :: str "on" := rfl
  have l2 : ∀ v, str "CONTENT_LENGTH=" ++ v = str "CONTENT_LENGTH" ++ 61 :: v := fun _ => rfl
  have l3 : ∀ v, str "CONTENT_TYPE=" ++ v = str "CONTENT_TYPE" ++ 61 :: v := fun _ => rfl
  have l4 : ∀ v, str "PATH=" ++ v = str "PATH" ++ 61 :: v := fun _ => rfl
  by_cases h1 : r.TLS = true <;> by_cases h2 : r.ContentLength > 0 <;>
    by_cases h3 : Header.Get r.Header (str "Content-Type") = [] <;>
    simp [h1, h2, h3, render, l1, l2, l3, l4]

/-! ### Keys of the constructed environment -/

theorem EncodeRune_mapped {r b : Nat} (hb : b ∈ EncodeRune (upperCaseAndUnderscore r)) :
    b ≠ 61 ∧ ¬ (97 ≤ b ∧ b ≤ 122) := by
  unfold EncodeRune upperCaseAndUnderscore at hb
  split_ifs at hb <;> simp at hb <;> omega

theorem stringsMapLoop_mapped {b : Nat} (skip : Nat) (s : GoString)
    (hb : b ∈ stringsMapLoop upperCaseAndUnderscore skip s) :
    b ≠ 61 ∧ ¬ (97 ≤ b ∧ b ≤ 122) := by
  induction s generalizing skip with
  | nil => simp [stringsMapLoop] at hb
  | cons c rest ih =>
    cases skip with
    | zero =>
      simp only [stringsMapLoop, List.mem_append] at hb
      rcases hb with hb | hb
      · exact EncodeRune_mapped hb
      · exact ih _ hb
    | succ n =>
      simp only [stringsMapLoop] at hb
      exact ih _ hb

/-- A mapped header name has no `=`. -/
theorem stringsMap_no_eq (s : GoString) : 61 ∉ stringsMap upperCaseAndUnderscore s :=
  fun hb => (stringsMapLoop_mapped 0 s hb).1 rfl

theorem Getenv_ne_nil_key {envs : List GoString} {e : GoString} (h : Getenv envs e ≠ []) :
    61 ∉ e := by
  unfold Getenv at h
  split_ifs at h with h0
  · exact absurd rfl h
  · cases hf : envs.find? (fun s => envKey s = some e) with
    | none => simp [hf] at h
    | some s =>
      have := List.find?_some hf
      simp only [decide_eq_true_eq] at this
      exact (envKey_eq_some.1 this).1

theorem mem_headerPairs {hdr : Header} {p : GoString × GoString} (hp : p ∈ headerPairs hdr) :
    ∃ q ∈ hdr, stringsMap upperCaseAndUnderscore q.1 ≠ str "PROXY" ∧
      p = (str "HTTP_" ++ stringsMap upperCaseAndUnderscore q.1,
        Join q.2 (if stringsMap upperCaseAndUnderscore q.1 = str "COOKIE"
          then str "; " else str ", ")) := by
  simp only [headerPairs, List.mem_filterMap] at hp
  obtain ⟨q, hq, hqp⟩ := hp
  refine ⟨q, hq, ?_⟩
  unfold headerPair at hqp
  by_cases hx : stringsMap upperCaseAndUnderscore q.1 = str "PROXY"
  · simp [hx] at hqp
  · simp only [hx, if_false, Option.some.injEq] at hqp
    exact ⟨hx, hqp.symm⟩

theorem mem_inheritPairs {envs names : List GoString} {p : GoString × GoString}
    (hp : p ∈ inheritPairs envs names) :
    p.1 ∈ names ∧ Getenv envs p.1 ≠ [] ∧ p.2 = Getenv envs p.1 := by
  simp only [inheritPairs, List.mem_filterMap] at hp
  obtain ⟨e, he, hep⟩ := hp
  by_cases hv : Getenv envs e = []
  · simp [hv] at hep
  · simp only [hv, ne_eq, not_false_eq_true, if_true, Option.some.injEq] at hep
    subst hep
    exact ⟨he, hv, rfl⟩

theorem basePairs_keys (h : Handler) (r : Request) :
    (basePairs h r).map Prod.fst =
      [str "SERVER_SOFTWARE", str "SERVER_NAME", str "SERVER_PROTOCOL", str "HTTP_HOST",
        str "GATEWAY_INTERFACE", str "REQUEST_METHOD", str "QUERY_STRING", str "REQUEST_URI",
        str "PATH_INFO", str "SCRIPT_NAME", str "SCRIPT_FILENAME", str "SERVER_PORT"] := rfl

theorem remotePairs_keys (a : GoString) :
    ∀ k ∈ (remotePairs a).map Prod.fst,
      k ∈ [str "REMOTE_ADDR", str "REMOTE_HOST", str "REMOTE_PORT"] := by
  unfold remotePairs
  cases SplitHostPort a with
  | none => simp
  | some p => simp

theorem tailPairs_keys (r : Request) (envs : List GoString) :
    ∀ k ∈ (tailPairs r envs).map Prod.fst,
      k ∈ [str "CONTENT_LENGTH", str "CONTENT_TYPE", str "PATH"] := by
  unfold tailPairs
  by_cases h2 : r.ContentLength > 0 <;>
    by_cases h3 : Header.Get r.Header (str "Content-Type") = [] <;> simp [h2, h3]

/-- No key of the constructed environment contains `=`. -/
theorem envPairs_no_eq (h : Handler) (r : Request) (envs : List GoString) :
    ∀ p ∈ envPairs h r envs, 61 ∉ p.1 := by
  intro p hp
  have hlit : ∀ k ∈ [str "SERVER_SOFTWARE", str "SERVER_NAME", str "SERVER_PROTOCOL",
      str "HTTP_HOST", str "GATEWAY_INTERFACE", str "REQUEST_METHOD", str "QUERY_STRING",
      str "REQUEST_URI", str "PATH_INFO", str "SCRIPT_NAME", str "SCRIPT_FILENAME",
      str "SERVER_PORT", str "REMOTE_ADDR", str "REMOTE_HOST", str "REMOTE_PORT",
      str "CONTENT_LENGTH", str "CONTENT_TYPE", str "PATH", str "HTTPS"], 61 ∉ k := by
    decide
  simp only [envPairs, List.mem_append] at hp
  rcases hp with ((((hp | hp) | hp) | hp) | hp) | hp
  · apply hlit
    have : p.1 ∈ (basePairs h.withDefaults r).map Prod.fst := List.mem_map_of_mem _ hp
    rw [basePairs_keys] at this
    simp only [List.mem_cons] at this ⊢
    tauto
  · apply hlit
    have := remotePairs_keys r.RemoteAddr p.1 (List.mem_map_of_mem _ hp)
    simp only [List.mem_cons] at this ⊢
    tauto
  · apply hlit
    by_cases ht : r.TLS = true
    · simp [ht] at hp
      simp [hp]
    · simp [ht] at hp
  · obtain ⟨q, _, _, rfl⟩ := mem_headerPairs hp
    have h5 : 61 ∉ str "HTTP_" := by decide
    simp only [List.mem_append, not_or]
    exact ⟨h5, stringsMap_no_eq q.1⟩
  · apply hlit
    have := tailPairs_keys r envs p.1 (List.mem_map_of_mem _ hp)
    simp only [List.mem_cons] at this ⊢
    tauto
  · exact Getenv_ne_nil_key (mem_inheritPairs hp).2.1

theorem entriesOf_render (K : GoString) (kvs : List (GoString × GoString))
    (hk : ∀ p ∈ kvs, 61 ∉ p.1) : entriesOf K (render kvs) = render (pairsOf K kvs) := by
  induction kvs with
  | nil => rfl
  | cons p rest ih =>
    have hp : envKey (p.1 ++ 61 :: p.2) = some p.1 :=
      envKey_eq_some.2 ⟨hk p (List.mem_cons_self _ _), p.2, rfl⟩
    have ih' := ih (fun q hq => hk q (List.mem_cons_of_mem _ hq))
    simp only [entriesOf, render, pairsOf] at ih' ⊢
    by_cases hK : p.1 = K
    · subst hK
      simp [List.filter_cons, hp, ih']
    · simp [List.filter_cons, hp, hK, ih']

/-- The entries with key `K` of the subprocess environment: the last pair with key `K` of
the constructed list, if there is one. -/
theorem entriesOf_subprocessEnv (K : GoString) (h : Handler) (r : Request)
    (envs : List GoString) :
    entriesOf K (subprocessEnv h r envs) =
      ((render (pairsOf K (envPairs h r envs))).getLast?).toList := by
  rw [subprocessEnv, entriesOf_removeLeadingDuplicates, constructEnv_eq,
    entriesOf_render K _ (envPairs_no_eq h r envs)]

theorem pairsOf_append (K : GoString) (a b : List (GoString × GoString)) :
    pairsOf K (a ++ b) = pairsOf K a ++ pairsOf K b := by
  simp [pairsOf]

theorem pairsOf_eq_nil {K : GoString} {kvs : List (GoString × GoString)}
    (h : K ∉ kvs.map Prod.fst) : pairsOf K kvs = [] := by
  simp only [pairsOf, List.filter_eq_nil_iff, decide_eq_true_eq]
  intro p hp hK
  exact h (hK ▸ List.mem_map_of_mem _ hp)

theorem pairsOf_unique {K v : GoString} {kvs : List (GoString × GoString)}
    (hnd : (kvs.map Prod.fst).Nodup) (hmem : (K, v) ∈ kvs) : pairsOf K kvs = [(K, v)] := by
  induction kvs with
  | nil => simp at hmem
  | cons p rest ih =>
    simp only [List.map_cons, List.nodup_cons] at hnd
    rcases List.mem_cons.1 hmem with hp | hp
    · subst hp
      have : pairsOf K rest = [] := pairsOf_eq_nil hnd.1
      simp only [pairsOf] at this ⊢
      simp [List.filter_cons, this]
    · have hne : p.1 ≠ K := by
        intro hK
        exact hnd.1 (hK ▸ List.mem_map_of_mem Prod.fst hp)
      have := ih hnd.2 hp
      simp only [pairsOf] at this ⊢
      simp [List.filter_cons, hne, this]

theorem pairsOf_headerPairs_nil {K : GoString} (hdr : Header)
    (hK : ∀ k, k ≠ str "PROXY" → K ≠ str "HTTP_" ++ k) : pairsOf K (headerPairs hdr) = [] := by
  apply pairsOf_eq_nil
  intro hmem
  obtain ⟨p, hp, hpk⟩ := List.mem_map.1 hmem
  obtain ⟨q, _, hq, rfl⟩ := mem_headerPairs hp
  exact hK _ hq hpk.symm

theorem pairsOf_inheritPairs_nil {K : GoString} (envs names : List GoString)
    (hK : K ∉ names) : pairsOf K (inheritPairs envs names) = [] := by
  apply pairsOf_eq_nil
  intro hmem
  obtain ⟨p, hp, hpk⟩ := List.mem_map.1 hmem
  exact hK (hpk ▸ (mem_inheritPairs hp).1)

theorem pairsOf_remotePairs_nil {K : GoString} (a : GoString)
    (hK : K ∉ [str "REMOTE_ADDR", str "REMOTE_HOST", str "REMOTE_PORT"]) :
    pairsOf K (remotePairs a) = [] :=
  pairsOf_eq_nil (fun hmem => hK (remotePairs_keys a K hmem))

theorem pairsOf_tailPairs_nil {K : GoString} (r : Request) (envs : List GoString)
    (hK : K ∉ [str "CONTENT_LENGTH", str "CONTENT_TYPE", str "PATH"]) :
    pairsOf K (tailPairs r envs) = [] :=
  pairsOf_eq_nil (fun hmem => hK (tailPairs_keys r envs K hmem))

theorem pairsOf_https_nil {K : GoString} (tls : Bool) (hK : K ≠ str "HTTPS") :
    pairsOf K (if tls then [(str "HTTPS", str "on")] else []) = [] := by
  cases tls with
  | false => rfl
  | true => simp [pairsOf, Ne.symm hK]

theorem pairsOf_basePairs_nil {K : GoString} (h : Handler) (r : Request)
    (hK : K ∉ [str "SERVER_SOFTWARE", str "SERVER_NAME", str "SERVER_PROTOCOL", str "HTTP_HOST",
        str "GATEWAY_INTERFACE", str "REQUEST_METHOD", str "QUERY_STRING", str "REQUEST_URI",
        str "PATH_INFO", str "SCRIPT_NAME", str "SCRIPT_FILENAME", str "SERVER_PORT"]) :
    pairsOf K (basePairs h r) = [] :=
  pairsOf_eq_nil (by rw [basePairs_keys]; exact hK)

/-- C2: a request header whose mapped name is `PROXY` builds no entry, and when the inherit
list does not name `HTTP_PROXY` the subprocess environment has no entry with key
`HTTP_PROXY`, whatever the request. -/
theorem C2_no_http_proxy (h : Handler) (r : Request) (envs : List GoString)
    (hin : str "HTTP_PROXY" ∉ h.InheritEnv) :
    (∀ k v, stringsMap upperCaseAndUnderscore k = str "PROXY" → headerEntry k v = none) ∧
      entriesOf (str "HTTP_PROXY") (subprocessEnv h r envs) = [] := by
  constructor
  · intro k v hk
    simp [headerEntry, hk]
  · have hhdr : pairsOf (str "HTTP_PROXY") (headerPairs r.Header) = [] := by
      apply pairsOf_headerPairs_nil
      intro k hk heq
      have h1 : str "HTTP_PROXY" = str "HTTP_" ++ str "PROXY" := by decide
      rw [h1] at heq
      exact hk (List.append_cancel_left heq).symm
    rw [entriesOf_subprocessEnv]
    simp only [envPairs, pairsOf_append, hhdr,
      pairsOf_basePairs_nil (K := str "HTTP_PROXY") _ r (by decide),
      pairsOf_remotePairs_nil (K := str "HTTP_PROXY") _ (by decide),
      pairsOf_https_nil (K := str "HTTP_PROXY") _ (by decide),
      pairsOf_tailPairs_nil (K := str "HTTP_PROXY") r envs (by decide),
      pairsOf_inheritPairs_nil envs _ hin]
    rfl

/-- C2 at a request with the headers `Proxy: evil` and `Accept: x`, under an empty inherit
list. -/
theorem C2_no_http_proxy_witness :
    entriesOf (str "HTTP_PROXY") (subprocessEnv sampleHandler
      (sampleRequest [(str "Proxy", [str "evil"]), (str "Accept", [str "x"])]) []) = [] :=
  (C2_no_http_proxy sampleHandler
    (sampleRequest [(str "Proxy", [str "evil"]), (str "Accept", [str "x"])]) []
    (by simp [sampleHandler])).2

/-! ### Request headers in the environment -/

theorem http_key_ne {L name : GoString} (hL : L.take 5 ≠ str "HTTP_") :
    str "HTTP_" ++ name ≠ L := by
  intro h
  apply hL
  rw [← h]
  rfl

theorem http_key_not_mem {name : GoString} {Ls : List GoString}
    (hL : ∀ L ∈ Ls, L.take 5 ≠ str "HTTP_") : str "HTTP_" ++ name ∉ Ls :=
  fun hmem => http_key_ne (hL _ hmem) rfl

theorem headerPairs_split (pre post : Header) (k : GoString) (v : List GoString)
    (hproxy : stringsMap upperCaseAndUnderscore k ≠ str "PROXY") :
    headerPairs (pre ++ (k, v) :: post) =
      headerPairs pre ++
        (str "HTTP_" ++ stringsMap upperCaseAndUnderscore k,
          Join v (if stringsMap upperCaseAndUnderscore k = str "COOKIE"
            then str "; " else str ", ")) :: headerPairs post := by
  simp [headerPairs, List.filterMap_append, List.filterMap_cons, headerPair, hproxy]

/-- C3, the claim that every request header has its entry, fails for the header `Proxy`:
the request with the one header `Proxy: x` gives no entry `HTTP_PROXY=x`, before or after
deduplication. -/
theorem C3_counterexample :
    str "HTTP_PROXY=x" ∉ constructEnv sampleHandler (sampleRequest [(str "Proxy", [str "x"])]) [] ∧
    str "HTTP_PROXY=x" ∉
      subprocessEnv sampleHandler (sampleRequest [(str "Proxy", [str "x"])]) [] := by
  decide

theorem mem_constructEnv_of_pair {h : Handler} {r : Request} {envs : List GoString}
    {K v : GoString} (hp : (K, v) ∈ envPairs h r envs) : K ++ 61 :: v ∈ constructEnv h r envs := by
  rw [constructEnv_eq]
  exact List.mem_map.2 ⟨(K, v), hp, rfl⟩

/-- C3 (amended): for every request header `k` with values `v` whose mapped name is not
`PROXY`, the environment list that `ServeHTTP` constructs has the entry `HTTP_<NAME>=<joined>`,
the values joined with `"; "` for `COOKIE` and `", "` otherwise; and when no header later in
`range` order has the same mapped name and the inherit list does not name `HTTP_<NAME>`, it
is the one entry with key `HTTP_<NAME>` of the subprocess environment. -/
theorem C3_header_entry (h : Handler) (r : Request) (envs : List GoString)
    (pre post : Header) (k : GoString) (v : List GoString)
    (hhdr : r.Header = pre ++ (k, v) :: post)
    (hproxy : stringsMap upperCaseAndUnderscore k ≠ str "PROXY") :
    str "HTTP_" ++ stringsMap upperCaseAndUnderscore k ++ str "=" ++
        Join v (if stringsMap upperCaseAndUnderscore k = str "COOKIE"
          then str "; " else str ", ") ∈ constructEnv h r envs ∧
    ((∀ q ∈ post,
        stringsMap upperCaseAndUnderscore q.1 ≠ stringsMap upperCaseAndUnderscore k) →
      str "HTTP_" ++ stringsMap upperCaseAndUnderscore k ∉ h.InheritEnv →
      entriesOf (str "HTTP_" ++ stringsMap upperCaseAndUnderscore k) (subprocessEnv h r envs) =
        [str "HTTP_" ++ stringsMap upperCaseAndUnderscore k ++ str "=" ++
          Join v (if stringsMap upperCaseAndUnderscore k = str "COOKIE"
            then str "; " else str ", ")]) := by
  have heq : str "=" = [61] := rfl
  constructor
  · have hp : (str "HTTP_" ++ stringsMap upperCaseAndUnderscore k,
        Join v (if stringsMap upperCaseAndUnderscore k = str "COOKIE"
          then str "; " else str ", ")) ∈ envPairs h r envs := by
      simp only [envPairs, hhdr, headerPairs_split pre post k v hproxy, List.mem_append,
        List.mem_cons]
      tauto
    have := mem_constructEnv_of_pair hp
    simpa [heq] using this
  · intro hlast hin
    have hpost : pairsOf (str "HTTP_" ++ stringsMap upperCaseAndUnderscore k)
        (headerPairs post) = [] := by
      apply pairsOf_eq_nil
      intro hmem
      obtain ⟨p, hp, hpk⟩ := List.mem_map.1 hmem
      obtain ⟨q, hq, _, rfl⟩ := mem_headerPairs hp
      exact hlast q hq (List.append_cancel_left hpk)
    rw [entriesOf_subprocessEnv]
    simp only [envPairs, pairsOf_append, hhdr, headerPairs_split pre post k v hproxy,
      pairsOf_tailPairs_nil r envs (http_key_not_mem (by decide)),
      pairsOf_inheritPairs_nil envs _ hin, List.append_nil]
    have hself : pairsOf (str "HTTP_" ++ stringsMap upperCaseAndUnderscore k)
        ((str "HTTP_" ++ stringsMap upperCaseAndUnderscore k,
            Join v (if stringsMap upperCaseAndUnderscore k = str "COOKIE"
              then str "; " else str ", ")) :: headerPairs post) =
        [(str "HTTP_" ++ stringsMap upperCaseAndUnderscore k,
            Join v (if stringsMap upperCaseAndUnderscore k = str "COOKIE"
              then str "; " else str ", "))] := by
      simp only [pairsOf] at hpost ⊢
      simp [List.filter_cons, hpost]
    rw [hself, ← List.append_assoc, render_append]
    simp [render, heq]

/-- C3 (amended) at the headers `Accept: a, b` and `Cookie: c=1, d=2`, evaluated. -/
theorem C3_header_entry_witness :
    str "HTTP_COOKIE=c=1; d=2" ∈ constructEnv sampleHandler (sampleRequest
        [(str "Accept", [str "a", str "b"]), (str "Cookie", [str "c=1", str "d=2"])]) [] ∧
    entriesOf (str "HTTP_COOKIE") (subprocessEnv sampleHandler (sampleRequest
        [(str "Accept", [str "a", str "b"]), (str "Cookie", [str "c=1", str "d=2"])]) []) =
      [str "HTTP_COOKIE=c=1; d=2"] :=
  ⟨(C3_header_entry sampleHandler (sampleRequest
      [(str "Accept", [str "a", str "b"]), (str "Cookie", [str "c=1", str "d=2"])]) []
      [(str "Accept", [str "a", str "b"])] [] (str "Cookie") [str "c=1", str "d=2"]
      rfl (by decide)).1,
   (C3_header_entry sampleHandler (sampleRequest
      [(str "Accept", [str "a", str "b"]), (str "Cookie", [str "c=1", str "d=2"])]) []
      [(str "Accept", [str "a", str "b"])] [] (str "Cookie") [str "c=1", str "d=2"]
      rfl (by decide)).2 (by simp) (by simp [sampleHandler])⟩

/-! ### The remote address -/

theorem getLast?_render_singleton (X : List (GoString × GoString)) (p : GoString × GoString) :
    ((render (X ++ [p])).getLast?).toList = [p.1 ++ 61 :: p.2] := by
  simp [render]

/-- The entry with key `K` of the subprocess environment when `K` is one of the fixed keys
built before the request headers, is not the key of a header and is not inherited. -/
theorem entriesOf_fixed (h : Handler) (r : Request) (envs : List GoString) (K v : GoString)
    (hmem : (K, v) ∈ basePairs h.withDefaults r ++ remotePairs r.RemoteAddr ++
      (if r.TLS then [(str "HTTPS", str "on")] else []))
    (hnd : ((basePairs h.withDefaults r ++ remotePairs r.RemoteAddr ++
      (if r.TLS then [(str "HTTPS", str "on")] else [])).map Prod.fst).Nodup)
    (hhttp : K.take 5 ≠ str "HTTP_")
    (htail : K ∉ [str "CONTENT_LENGTH", str "CONTENT_TYPE", str "PATH"])
    (hin : K ∉ h.InheritEnv) :
    entriesOf K (subprocessEnv h r envs) = [K ++ 61 :: v] := by
  have hhdr : pairsOf K (headerPairs r.Header) = [] :=
    pairsOf_headerPairs_nil _ (fun k _ heq => http_key_ne hhttp heq.symm)
  rw [entriesOf_subprocessEnv]
  simp only [envPairs]
  rw [pairsOf_append, pairsOf_append, pairsOf_append, pairsOf_unique hnd hmem, hhdr,
    pairsOf_tailPairs_nil r envs htail, pairsOf_inheritPairs_nil envs _ hin]
  rfl

theorem fixed_nodup (h : Handler) (r : Request) :
    ((basePairs h r ++ remotePairs r.RemoteAddr ++
      (if r.TLS then [(str "HTTPS", str "on")] else [])).map Prod.fst).Nodup := by
  have h1 : [str "SERVER_SOFTWARE", str "SERVER_NAME", str "SERVER_PROTOCOL", str "HTTP_HOST",
      str "GATEWAY_INTERFACE", str "REQUEST_METHOD", str "QUERY_STRING", str "REQUEST_URI",
      str "PATH_INFO", str "SCRIPT_NAME", str "SCRIPT_FILENAME", str "SERVER_PORT",
      str "REMOTE_ADDR", str "REMOTE_HOST", str "REMOTE_PORT", str "HTTPS"].Nodup := by
    decide
  have hsub : List.Sublist ((basePairs h r ++ remotePairs r.RemoteAddr ++
      (if r.TLS then [(str "HTTPS", str "on")] else [])).map Prod.fst)
      [str "SERVER_SOFTWARE", str "SERVER_NAME", str "SERVER_PROTOCOL", str "HTTP_HOST",
      str "GATEWAY_INTERFACE", str "REQUEST_METHOD", str "QUERY_STRING", str "REQUEST_URI",
      str "PATH_INFO", str "SCRIPT_NAME", str "SCRIPT_FILENAME", str "SERVER_PORT",
      str "REMOTE_ADDR", str "REMOTE_HOST", str "REMOTE_PORT", str "HTTPS"] := by
    rw [List.map_append, List.map_append, basePairs_keys]
    have e : [str "SERVER_SOFTWARE", str "SERVER_NAME", str "SERVER_PROTOCOL", str "HTTP_HOST",
      str "GATEWAY_INTERFACE", str "REQUEST_METHOD", str "QUERY_STRING", str "REQUEST_URI",
      str "PATH_INFO", str "SCRIPT_NAME", str "SCRIPT_FILENAME", str "SERVER_PORT",
      str "REMOTE_ADDR", str "REMOTE_HOST", str "REMOTE_PORT", str "HTTPS"] =
      [str "SERVER_SOFTWARE", str "SERVER_NAME", str "SERVER_PROTOCOL", str "HTTP_HOST",
      str "GATEWAY_INTERFACE", str "REQUEST_METHOD", str "QUERY_STRING", str "REQUEST_URI",
      str "PATH_INFO", str "SCRIPT_NAME", str "SCRIPT_FILENAME", str "SERVER_PORT"] ++
      [str "REMOTE_ADDR", str "REMOTE_HOST", str "REMOTE_PORT"] ++ [str "HTTPS"] := rfl
    rw [e]
    refine List.Sublist.append (List.Sublist.append (List.Sublist.refl _) ?_) ?_
    · unfold remotePairs
      cases SplitHostPort r.RemoteAddr with
      | none =>
        exact List.Sublist.cons₂ _ (List.Sublist.cons₂ _ (List.Sublist.cons _ (List.Sublist.refl _)))
      | some p => exact List.Sublist.refl _
    · cases r.TLS with
      | false => exact List.nil_sublist _
      | true => exact List.Sublist.refl _
  exact List.Nodup.sublist hsub h1

/-- C4: with an inherit list that names none of `REMOTE_ADDR`, `REMOTE_HOST`, `REMOTE_PORT`:
when the remote address splits into host and port, the subprocess environment has exactly
`REMOTE_ADDR=host`, `REMOTE_HOST=host` and `REMOTE_PORT=port`; when it does not split,
`REMOTE_ADDR` and `REMOTE_HOST` are the raw address and there is no `REMOTE_PORT` entry.
So a `REMOTE_PORT` entry exists exactly when the address splits. -/
theorem C4_remote_addr (h : Handler) (r : Request) (envs : List GoString)
    (hin : ∀ K ∈ [str "REMOTE_ADDR", str "REMOTE_HOST", str "REMOTE_PORT"], K ∉ h.InheritEnv) :
    (∀ host port, SplitHostPort r.RemoteAddr = some (host, port) →
      entriesOf (str "REMOTE_ADDR") (subprocessEnv h r envs) = [str "REMOTE_ADDR=" ++ host] ∧
      entriesOf (str "REMOTE_HOST") (subprocessEnv h r envs) = [str "REMOTE_HOST=" ++ host] ∧
      entriesOf (str "REMOTE_PORT") (subprocessEnv h r envs) = [str "REMOTE_PORT=" ++ port]) ∧
    (SplitHostPort r.RemoteAddr = none →
      entriesOf (str "REMOTE_ADDR") (subprocessEnv h r envs)
        = [str "REMOTE_ADDR=" ++ r.RemoteAddr] ∧
      entriesOf (str "REMOTE_HOST") (subprocessEnv h r envs)
        = [str "REMOTE_HOST=" ++ r.RemoteAddr] ∧
      entriesOf (str "REMOTE_PORT") (subprocessEnv h r envs) = []) ∧
    (entriesOf (str "REMOTE_PORT") (subprocessEnv h r envs) ≠ [] ↔
      (SplitHostPort r.RemoteAddr).isSome = true) := by
  have hA := hin (str "REMOTE_ADDR") (by decide)
  have hH := hin (str "REMOTE_HOST") (by decide)
  have hP := hin (str "REMOTE_PORT") (by decide)
  have hnd := fixed_nodup h.withDefaults r
  have hsome : ∀ host port, SplitHostPort r.RemoteAddr = some (host, port) →
      entriesOf (str "REMOTE_ADDR") (subprocessEnv h r envs) = [str "REMOTE_ADDR=" ++ host] ∧
      entriesOf (str "REMOTE_HOST") (subprocessEnv h r envs) = [str "REMOTE_HOST=" ++ host] ∧
      entriesOf (str "REMOTE_PORT") (subprocessEnv h r envs) = [str "REMOTE_PORT=" ++ port] := by
    intro host port hs
    refine ⟨?_, ?_, ?_⟩
    · exact entriesOf_fixed h r envs _ host (by simp [remotePairs, hs]) hnd
        (by decide) (by decide) hA
    · exact entriesOf_fixed h r envs _ host (by simp [remotePairs, hs]) hnd
        (by decide) (by decide) hH
    · exact entriesOf_fixed h r envs _ port (by simp [remotePairs, hs]) hnd
        (by decide) (by decide) hP
  have hnone : SplitHostPort r.RemoteAddr = none →
      entriesOf (str "REMOTE_ADDR") (subprocessEnv h r envs)
        = [str "REMOTE_ADDR=" ++ r.RemoteAddr] ∧
      entriesOf (str "REMOTE_HOST") (subprocessEnv h r envs)
        = [str "REMOTE_HOST=" ++ r.RemoteAddr] ∧
      entriesOf (str "REMOTE_PORT") (subprocessEnv h r envs) = [] := by
    intro hs
    refine ⟨?_, ?_, ?_⟩
    · exact entriesOf_fixed h r envs _ r.RemoteAddr (by simp [remotePairs, hs]) hnd
        (by decide) (by decide) hA
    · exact entriesOf_fixed h r envs _ r.RemoteAddr (by simp [remotePairs, hs]) hnd
        (by decide) (by decide) hH
    · have hrem : pairsOf (str "REMOTE_PORT") (remotePairs r.RemoteAddr) = [] := by
        apply pairsOf_eq_nil
        simp only [remotePairs, hs, List.map_cons, List.map_nil]
        decide
      rw [entriesOf_subprocessEnv]
      simp only [envPairs, pairsOf_append, hrem,
        pairsOf_basePairs_nil (K := str "REMOTE_PORT") _ r (by decide),
        pairsOf_https_nil (K := str "REMOTE_PORT") _ (by decide),
        pairsOf_headerPairs_nil (K := str "REMOTE_PORT") r.Header
          (fun k _ heq => http_key_ne (by decide) heq.symm),
        pairsOf_tailPairs_nil (K := str "REMOTE_PORT") r envs (by decide),
        pairsOf_inheritPairs_nil envs _ hP]
      rfl
  refine ⟨hsome, hnone, ?_⟩
  cases hs : SplitHostPort r.RemoteAddr with
  | none => simp [(hnone hs).2.2]
  | some p => simp [(hsome p.1 p.2 hs).2.2]

/-- C4 at the remote address `1.2.3.4:55`, which splits, under an empty inherit list. -/
theorem C4_remote_addr_witness :
    SplitHostPort (str "1.2.3.4:55") = some (str "1.2.3.4", str "55") ∧
    entriesOf (str "REMOTE_PORT") (subprocessEnv sampleHandler (sampleRequest []) [])
      = [str "REMOTE_PORT=55"] :=
  ⟨by decide,
    ((C4_remote_addr sampleHandler (sampleRequest []) [] (by simp [sampleHandler])).1
      (str "1.2.3.4") (str "55") (by decide)).2.2⟩

/-! ### Inherited variables -/

theorem pairsOf_inheritPairs (envs names : List GoString) (N : GoString) :
    ∀ p ∈ pairsOf N (inheritPairs envs names), p = (N, Getenv envs N) := by
  intro p hp
  simp only [pairsOf, List.mem_filter, decide_eq_true_eq] at hp
  obtain ⟨hmem, hk⟩ := hp
  have := (mem_inheritPairs hmem).2.2
  rw [hk] at this
  exact Prod.ext hk this

/-- C5: for every request and every name `N` of the inherit list whose value in the
process environment is non-empty, the subprocess environment has exactly one entry with
key `N`, and it is `N=value`: it overrides every entry for `N` built from the request. -/
theorem C5_inherit_overrides (h : Handler) (r : Request) (envs : List GoString) (N : GoString)
    (hN : N ∈ h.InheritEnv) (hv : Getenv envs N ≠ []) :
    entriesOf N (subprocessEnv h r envs) = [N ++ str "=" ++ Getenv envs N] := by
  have hmem : (N, Getenv envs N) ∈ pairsOf N (inheritPairs envs h.InheritEnv) := by
    simp only [pairsOf, List.mem_filter, decide_eq_true_eq, and_true]
    simp only [inheritPairs, List.mem_filterMap]
    exact ⟨N, hN, by simp [hv]⟩
  have hne : pairsOf N (inheritPairs envs h.InheritEnv) ≠ [] :=
    List.ne_nil_of_mem hmem
  obtain ⟨p, hp⟩ : ∃ p, (pairsOf N (inheritPairs envs h.InheritEnv)).getLast? = some p := by
    cases hl : (pairsOf N (inheritPairs envs h.InheritEnv)).getLast? with
    | none => exact absurd (List.getLast?_eq_none_iff.1 hl) hne
    | some p => exact ⟨p, rfl⟩
  have hpe : p = (N, Getenv envs N) :=
    pairsOf_inheritPairs envs _ N p (List.mem_of_getLast?_eq_some hp)
  rw [entriesOf_subprocessEnv]
  simp only [envPairs]
  rw [pairsOf_append, render_append, List.getLast?_append_of_ne_nil _ (by simpa [render] using hne)]
  have heq : str "=" = [61] := rfl
  simp [render, List.getLast?_map, hp, hpe, heq]

/-- C5 at the inherit list `PATH` with `PATH=/opt/bin` in the process environment: the
inherited value replaces the `PATH` entry built before it. -/
theorem C5_inherit_overrides_witness :
    entriesOf (str "PATH")
      (subprocessEnv { sampleHandler with InheritEnv := [str "PATH"] } (sampleRequest [])
        [str "PATH=/opt/bin"]) = [str "PATH=/opt/bin"] :=
  C5_inherit_overrides { sampleHandler with InheritEnv := [str "PATH"] } (sampleRequest [])
    [str "PATH=/opt/bin"] (str "PATH") (by simp [sampleHandler]) (by decide)

/-! ### The server port -/

theorem portRegexFind_suffix (pre digits : GoString) (hne : digits ≠ [])
    (hd : ∀ d ∈ digits, 48 ≤ d ∧ d ≤ 57) :
    portRegexFind (pre ++ 58 :: digits) = some digits := by
  induction pre with
  | nil =>
    have : digits.all isDigit = true := by
      simp only [List.all_eq_true, isDigit, decide_eq_true_eq]
      exact hd
    simp [portRegexFind, hne, this]
  | cons c rest ih =>
    have : (rest ++ 58 :: digits).all isDigit = false := by
      rw [Bool.eq_false_iff]
      intro hall
      simp only [List.all_eq_true, isDigit, decide_eq_true_eq] at hall
      have := hall 58 (by simp)
      omega
    simp [portRegexFind, this, ih]

theorem portRegexFind_some {s p : GoString} (h : portRegexFind s = some p) :
    ∃ pre, s = pre ++ 58 :: p ∧ p ≠ [] ∧ ∀ d ∈ p, 48 ≤ d ∧ d ≤ 57 := by
  induction s with
  | nil => simp [portRegexFind] at h
  | cons c rest ih =>
    simp only [portRegexFind] at h
    split_ifs at h with hc
    · obtain ⟨rfl, hne, hall⟩ := hc
      simp only [Option.some.injEq] at h
      subst h
      refine ⟨[], rfl, hne, ?_⟩
      simpa only [List.all_eq_true, isDigit, decide_eq_true_eq] using hall
    · obtain ⟨pre, rfl, hne, hd⟩ := ih h
      exact ⟨c :: pre, rfl, hne, hd⟩

/-- C6: when the request host ends with `:` followed by one or more decimal digits the
value `port` is that digit string, and otherwise it is `8080`; the entry `SERVER_PORT=port`
is in the environment list that `ServeHTTP` constructs, and it is the one entry with key
`SERVER_PORT` of the subprocess environment unless the inherit list names `SERVER_PORT`. -/
theorem C6_server_port (h : Handler) (r : Request) (envs : List GoString) :
    (∀ pre digits, r.Host = pre ++ 58 :: digits → digits ≠ [] →
      (∀ d ∈ digits, 48 ≤ d ∧ d ≤ 57) → serverPort r.Host = digits) ∧
    ((¬ ∃ pre digits, r.Host = pre ++ 58 :: digits ∧ digits ≠ [] ∧
      ∀ d ∈ digits, 48 ≤ d ∧ d ≤ 57) → serverPort r.Host = str "8080") ∧
    str "SERVER_PORT=" ++ serverPort r.Host ∈ constructEnv h r envs ∧
    (str "SERVER_PORT" ∉ h.InheritEnv →
      entriesOf (str "SERVER_PORT") (subprocessEnv h r envs)
        = [str "SERVER_PORT=" ++ serverPort r.Host]) := by
  refine ⟨?_, ?_, ?_, ?_⟩
  · intro pre digits hhost hne hd
    rw [serverPort, hhost, portRegexFind_suffix pre digits hne hd]
  · intro hno
    cases hf : portRegexFind r.Host with
    | none => simp [serverPort, hf]
    | some p =>
      obtain ⟨pre, h1, h2, h3⟩ := portRegexFind_some hf
      exact absurd ⟨pre, p, h1, h2, h3⟩ hno
  · have hp : (str "SERVER_PORT", serverPort r.Host) ∈ envPairs h r envs := by
      simp [envPairs, basePairs]
    exact mem_constructEnv_of_pair hp
  · intro hin
    exact entriesOf_fixed h r envs _ (serverPort r.Host) (by simp [basePairs])
      (fixed_nodup h.withDefaults r) (by decide) (by decide) hin

/-- C6 at the host `localhost:8081`: the port is `8081`. -/
theorem C6_server_port_witness :
    serverPort (str "localhost:8081") = str "8081" ∧
    entriesOf (str "SERVER_PORT") (subprocessEnv sampleHandler (sampleRequest []) [])
      = [str "SERVER_PORT=8081"] :=
  ⟨(C6_server_port sampleHandler (sampleRequest []) []).1
      (str "localhost") (str "8081") (by decide) (by decide) (by decide),
    (C6_server_port sampleHandler (sampleRequest []) []).2.2.2 (by simp [sampleHandler])⟩

/-! ### The path -/

/-- C7, the claim that a path beginning with the root loses it, fails for the root `/`:
the path `/foo` begins with `/`, and `PATH_INFO` is `/foo`, not `foo`.  It also fails for
the empty root, for which `SCRIPT_NAME` is `/`. -/
theorem C7_counterexample :
    HasPrefix (str "/foo") (str "/") = true ∧
    entriesOf (str "PATH_INFO")
      (subprocessEnv { sampleHandler with Root := str "/" } (sampleRequest []) [])
        = [str "PATH_INFO=/foo"] ∧
    str "PATH_INFO=/foo" ≠ str "PATH_INFO=" ++ (str "/foo").drop (str "/").length ∧
    entriesOf (str "SCRIPT_NAME")
      (subprocessEnv { sampleHandler with Root := [] } (sampleRequest []) [])
        = [str "SCRIPT_NAME=/"] := by
  decide

/-- C7 (amended): let `root` be the configured root, or `/` when none is configured.  If
`root` is not `/` and the request path begins with it, `PATH_INFO` is the path with that
leading `root` removed; otherwise (the root is `/`, or the path does not begin with it)
`PATH_INFO` is the path unchanged; and `SCRIPT_NAME` is `root`.  Both entries are in the
environment list that `ServeHTTP` constructs, and each is the one entry with its key of the
subprocess environment unless the inherit list names the key. -/
theorem C7_path_info (h : Handler) (r : Request) (envs : List GoString) :
    h.withDefaults.Root = (if h.Root = [] then str "/" else h.Root) ∧
    (∀ rest, h.withDefaults.Root ≠ str "/" → r.URLPath = h.withDefaults.Root ++ rest →
      pathInfo h.withDefaults.Root r.URLPath = rest) ∧
    ((h.withDefaults.Root = str "/" ∨ ¬ h.withDefaults.Root <+: r.URLPath) →
      pathInfo h.withDefaults.Root r.URLPath = r.URLPath) ∧
    str "PATH_INFO=" ++ pathInfo h.withDefaults.Root r.URLPath ∈ constructEnv h r envs ∧
    str "SCRIPT_NAME=" ++ h.withDefaults.Root ∈ constructEnv h r envs ∧
    (str "PATH_INFO" ∉ h.InheritEnv →
      entriesOf (str "PATH_INFO") (subprocessEnv h r envs)
        = [str "PATH_INFO=" ++ pathInfo h.withDefaults.Root r.URLPath]) ∧
    (str "SCRIPT_NAME" ∉ h.InheritEnv →
      entriesOf (str "SCRIPT_NAME") (subprocessEnv h r envs)
        = [str "SCRIPT_NAME=" ++ h.withDefaults.Root]) := by
  refine ⟨rfl, ?_, ?_, ?_, ?_, ?_, ?_⟩
  · intro rest hroot hpath
    rw [pathInfo, hpath]
    have : HasPrefix (h.withDefaults.Root ++ rest) h.withDefaults.Root = true := by
      simp [HasPrefix]
    simp [hroot, this]
  · intro hcase
    rw [pathInfo]
    rcases hcase with hroot | hnp
    · simp [hroot]
    · have : ¬ (HasPrefix r.URLPath h.withDefaults.Root = true) := by
        rw [HasPrefix_iff]
        exact hnp
      simp [this]
  · have hp : (str "PATH_INFO", pathInfo h.withDefaults.Root r.URLPath) ∈ envPairs h r envs := by
      simp [envPairs, basePairs]
    exact mem_constructEnv_of_pair hp
  · have hp : (str "SCRIPT_NAME", h.withDefaults.Root) ∈ envPairs h r envs := by
      simp [envPairs, basePairs]
    exact mem_constructEnv_of_pair hp
  · intro hin
    exact entriesOf_fixed h r envs _ _ (by simp [basePairs])
      (fixed_nodup h.withDefaults r) (by decide) (by decide) hin
  · intro hin
    exact entriesOf_fixed h r envs _ _ (by simp [basePairs])
      (fixed_nodup h.withDefaults r) (by decide) (by decide) hin

/-- C7 (amended) at the root `/cgi` and the path `/cgi/x`: `PATH_INFO` is `/x`. -/
theorem C7_path_info_witness :
    pathInfo (str "/cgi") (str "/cgi/x") = str "/x" ∧
    entriesOf (str "PATH_INFO")
      (subprocessEnv { sampleHandler with Root := str "/cgi" }
        { sampleRequest [] with URLPath := str "/cgi/x" } []) = [str "PATH_INFO=/x"] :=
  ⟨(C7_path_info { sampleHandler with Root := str "/cgi" }
      { sampleRequest [] with URLPath := str "/cgi/x" } []).2.1 (str "/x") (by decide) (by decide),
   (C7_path_info { sampleHandler with Root := str "/cgi" }
      { sampleRequest [] with URLPath := str "/cgi/x" } []).2.2.2.2.2.1 (by simp [sampleHandler])⟩

/-! ### Reading the pipe through the buffer -/

theorem Pipe.Read_eq_none {n : Nat} {rd : Pipe} : Pipe.Read n rd = none ↔ rd.flatten = [] := by
  induction rd with
  | nil => simp [Pipe.Read]
  | cons c cs ih =>
    by_cases hc : c = []
    · simp [Pipe.Read, hc, ih]
    · simp [Pipe.Read, hc]

theorem Pipe.Read_eq_some {n : Nat} {rd rd' : Pipe} {data : List Nat} (hn : 0 < n)
    (h : Pipe.Read n rd = some (data, rd')) :
    data ≠ [] ∧ data.length ≤ n ∧ data ++ rd'.flatten = rd.flatten := by
  induction rd with
  | nil => simp [Pipe.Read] at h
  | cons c cs ih =>
    by_cases hc : c = []
    · simp only [Pipe.Read, hc, if_true] at h
      simpa [hc] using ih h
    · simp only [Pipe.Read, hc, if_false, Option.some.injEq, Prod.mk.injEq] at h
      obtain ⟨rfl, rfl⟩ := h
      refine ⟨?_, ?_, ?_⟩
      · cases c with
        | nil => exact absurd rfl hc
        | cons x xs =>
          cases n with
          | zero => omega
          | succ m => simp
      · simp [List.length_take]
      · by_cases hd : c.drop n = []
        · simp only [hd, if_true]
          conv_rhs => rw [List.flatten_cons, ← List.take_append_drop n c, hd]
          simp
        · simp only [hd, if_false, List.flatten_cons]
          rw [← List.append_assoc, List.take_append_drop]

theorem Reader.WriteTo_eq (b : Reader) : b.WriteTo = b.buffered ++ b.rd.flatten := rfl

theorem Reader.buffered_length {b : Reader} (h : b.WF) : b.buffered.length = b.w - b.r := by
  obtain ⟨h1, h2, _⟩ := h
  simp only [Reader.buffered, List.length_drop, List.length_take]
  omega

/-- The effect of `fill` on a reader whose buffer is not full: the stream is unchanged, and
either at least one more byte is buffered or the end of the stream is recorded. -/
theorem Reader.fill_spec {b : Reader} (h : b.WF) (hfull : b.w - b.r < b.buf.length) :
    b.fill.WF ∧ b.fill.buf.length = b.buf.length ∧ b.fill.WriteTo = b.WriteTo ∧ b.fill.r = 0 ∧
      (b.rd.flatten ≠ [] → b.w - b.r < b.fill.w ∧ b.fill.err = b.err) ∧
      (b.rd.flatten = [] → b.fill.err = true ∧ b.fill.w = b.w - b.r ∧
        b.fill.buffered = b.buffered) := by
  obtain ⟨h1, h2, h3⟩ := h
  -- the reader after the slide
  obtain ⟨c, hc⟩ : ∃ c : Reader, c = (if b.r > 0 then
      { b with buf := (b.buf.take b.w).drop b.r ++ b.buf.drop (b.w - b.r), w := b.w - b.r, r := 0 }
    else b) := ⟨_, rfl⟩
  have hcl : c.buf.length = b.buf.length := by
    rw [hc]
    split_ifs
    · simp only [List.length_append, List.length_drop, List.length_take]
      omega
    · rfl
  have hcr : c.r = 0 := by
    rw [hc]
    split_ifs with hr
    · rfl
    · omega
  have hcw : c.w = b.w - b.r := by
    rw [hc]
    split_ifs with hr
    · rfl
    · have : b.r = 0 := by omega
      simp [this]
  have hcrd : c.rd = b.rd := by
    rw [hc]
    split_ifs <;> rfl
  have hcerr : c.err = b.err := by
    rw [hc]
    split_ifs <;> rfl
  have hcb : c.buf.take c.w = b.buffered := by
    rw [hcw, hc]
    split_ifs with hr
    · have hlen : ((b.buf.take b.w).drop b.r).length = b.w - b.r := by
        simp only [List.length_drop, List.length_take]
        omega
      simp only [Reader.buffered]
      rw [List.take_append_of_le_length (by omega), List.take_of_length_le (by omega)]
    · have : b.r = 0 := by omega
      simp [Reader.buffered, this]
  have hfill : b.fill = (match Pipe.Read (c.buf.length - c.w) c.rd with
      | none => { c with err := true }
      | some (data, rd) =>
        { c with buf := c.buf.take c.w ++ data ++ c.buf.drop (c.w + data.length),
                 w := c.w + data.length, rd := rd }) := by
    rw [hc]
    rfl
  have hblen : b.buffered.length = b.w - b.r := Reader.buffered_length ⟨h1, h2, h3⟩
  cases hread : Pipe.Read (c.buf.length - c.w) c.rd with
  | none =>
    have hnil : b.rd.flatten = [] := by
      rw [← hcrd]
      exact Pipe.Read_eq_none.1 hread
    rw [hread] at hfill
    simp only at hfill
    have hbuf : b.fill.buffered = b.buffered := by
      rw [hfill]
      simp only [Reader.buffered, hcr, List.drop_zero]
      exact hcb
    refine ⟨?_, ?_, ?_, ?_, ?_, ?_⟩
    · rw [hfill]
      refine ⟨?_, ?_, ?_⟩
      · simp [hcr]
      · show c.w ≤ c.buf.length
        omega
      · intro _
        show c.rd.flatten = []
        rw [hcrd]
        exact hnil
    · rw [hfill]
      exact hcl
    · rw [Reader.WriteTo_eq, Reader.WriteTo_eq, hbuf]
      rw [hfill]
      simp [hcrd]
    · rw [hfill]
      exact hcr
    · intro hne
      exact absurd hnil hne
    · intro _
      refine ⟨?_, ?_, hbuf⟩
      · rw [hfill]
      · rw [hfill]
        exact hcw
  | some p =>
    obtain ⟨data, rd'⟩ := p
    obtain ⟨hd1, hd2, hd3⟩ := Pipe.Read_eq_some (by omega) hread
    rw [hread] at hfill
    simp only at hfill
    have hdl : 0 < data.length := List.length_pos.2 hd1
    have htake : (c.buf.take c.w ++ data ++ c.buf.drop (c.w + data.length)).take
        (c.w + data.length) = c.buf.take c.w ++ data := by
      have hl : (c.buf.take c.w ++ data).length = c.w + data.length := by
        simp only [List.length_append, List.length_take]
        omega
      rw [List.take_append_of_le_length (by omega), List.take_of_length_le (by omega)]
    refine ⟨?_, ?_, ?_, ?_, ?_, ?_⟩
    · rw [hfill]
      refine ⟨?_, ?_, ?_⟩
      · simp [hcr]
      · simp only [List.length_append, List.length_take, List.length_drop]
        omega
      · intro he
        have he' : b.err = true := by
          rw [← hcerr]
          exact he
        have := h3 he'
        rw [← hcrd, ← hd3] at this
        simp at this
        exact absurd this.1 hd1
    · rw [hfill]
      simp only [List.length_append, List.length_take, List.length_drop]
      omega
    · rw [Reader.WriteTo_eq, Reader.WriteTo_eq, ← hcrd, ← hd3, ← hcb]
      rw [hfill]
      simp only [Reader.buffered, hcr, List.drop_zero]
      rw [htake, List.append_assoc]
    · rw [hfill]
      exact hcr
    · intro _
      refine ⟨?_, ?_⟩
      · rw [hfill]
        show b.w - b.r < c.w + data.length
        omega
      · rw [hfill]
        exact hcerr
    · intro hnil
      rw [← hcrd, ← hd3] at hnil
      simp at hnil
      exact absurd hnil.1 hd1

theorem Reader.buffered_eq (b : Reader) : b.buffered = (b.buf.drop b.r).take (b.w - b.r) :=
  List.drop_take b.w b.r b.buf

/-- `ReadSlice` when the delimiter is already buffered: the slice runs up to the first
delimiter of the stream and the stream continues after it. -/
theorem Reader.readSliceLoop_hit {delim : Nat} {x rest : List Nat} (hx : delim ∉ x)
    (fuel : Nat) {s : Nat} {b : Reader} (hwf : b.WF) (hstream : b.WriteTo = x ++ delim :: rest)
    (hs : s ≤ x.length) (hbuf : x.length + 1 ≤ b.w - b.r) :
    ∃ b', Reader.readSliceLoop delim (fuel + 1) s b = some (⟨x ++ [delim], b.r⟩, none, b') ∧
      b'.WF ∧ b'.WriteTo = rest ∧ b'.buf.length = b.buf.length := by
  have hbl := Reader.buffered_length hwf
  rw [Reader.WriteTo_eq] at hstream
  have F1 : b.buffered.take (x.length + 1) = x ++ [delim] := by
    have h1 : (b.buffered ++ b.rd.flatten).take (x.length + 1) = b.buffered.take (x.length + 1) :=
      List.take_append_of_le_length (by omega)
    rw [← h1, hstream]
    have h2 : x ++ delim :: rest = (x ++ [delim]) ++ rest := by simp
    rw [h2]
    exact List.take_left' (by simp)
  have F2 : b.buffered.drop (x.length + 1) ++ b.rd.flatten = rest := by
    have h1 : (b.buffered ++ b.rd.flatten).drop (x.length + 1)
        = b.buffered.drop (x.length + 1) ++ b.rd.flatten :=
      List.drop_append_of_le_length (by omega)
    rw [← h1, hstream]
    have h2 : x ++ delim :: rest = (x ++ [delim]) ++ rest := by simp
    rw [h2]
    exact List.drop_left' (by simp)
  have hsplit : b.buffered = x ++ delim :: b.buffered.drop (x.length + 1) := by
    conv_lhs => rw [← List.take_append_drop (x.length + 1) b.buffered, F1]
    simp
  have hregion : (b.buf.take b.w).drop (b.r + s) = x.drop s ++ delim :: b.buffered.drop (x.length + 1) := by
    have : (b.buf.take b.w).drop (b.r + s) = b.buffered.drop s := by
      rw [Reader.buffered, List.drop_drop]
    rw [this]
    conv_lhs => rw [hsplit]
    exact List.drop_append_of_le_length hs
  have hidx : IndexByte ((b.buf.take b.w).drop (b.r + s)) delim = some (x.length - s) := by
    rw [hregion]
    have := IndexByte_append_cons (k := x.drop s) (v := b.buffered.drop (x.length + 1))
      (c := delim) (fun hm => hx (List.mem_of_mem_drop hm))
    simpa using this
  have hline : (b.buf.drop b.r).take (x.length - s + s + 1) = x ++ [delim] := by
    have e : x.length - s + s + 1 = x.length + 1 := by omega
    rw [e, ← F1, Reader.buffered_eq, List.take_take]
    congr 1
    omega
  refine ⟨{ b with r := b.r + (x.length - s + s) + 1 }, ?_, ?_, ?_, rfl⟩
  · simp only [Reader.readSliceLoop, hidx, hline]
  · obtain ⟨h1, h2, h3⟩ := hwf
    exact ⟨by show b.r + (x.length - s + s) + 1 ≤ b.w; omega, h2, h3⟩
  · rw [← F2]
    show (b.buf.take b.w).drop (b.r + (x.length - s + s) + 1) ++ b.rd.flatten = _
    congr 1
    rw [Reader.buffered, List.drop_drop]
    congr 1
    omega

/-- `ReadSlice` on a stream whose first delimiter lies within the size of the buffer: the
slice runs up to that delimiter, whatever the chunks the pipe delivers. -/
theorem Reader.readSliceLoop_found {delim : Nat} {x rest : List Nat} (hx : delim ∉ x) :
    ∀ (n fuel s : Nat) (b : Reader), b.WF → b.WriteTo = x ++ delim :: rest →
      x.length + 1 ≤ b.buf.length → s ≤ b.w - b.r → s ≤ x.length →
      (x.length + 1) - (b.w - b.r) ≤ n → n + 1 ≤ fuel →
      ∃ off b', Reader.readSliceLoop delim fuel s b = some (⟨x ++ [delim], off⟩, none, b') ∧
        b'.WF ∧ b'.WriteTo = rest ∧ b'.buf.length = b.buf.length := by
  intro n
  induction n with
  | zero =>
    intro fuel s b hwf hstream _ _ hs hn hfuel
    obtain ⟨f, rfl⟩ : ∃ f, fuel = f + 1 := ⟨fuel - 1, by omega⟩
    obtain ⟨b', h1, h2⟩ := Reader.readSliceLoop_hit hx f hwf hstream hs (by omega)
    exact ⟨b.r, b', h1, h2⟩
  | succ n ih =>
    intro fuel s b hwf hstream hsize hsw hs hn hfuel
    obtain ⟨f, rfl⟩ : ∃ f, fuel = f + 1 := ⟨fuel - 1, by omega⟩
    by_cases hbuf : x.length + 1 ≤ b.w - b.r
    · obtain ⟨b', h1, h2⟩ := Reader.readSliceLoop_hit hx f hwf hstream hs hbuf
      exact ⟨b.r, b', h1, h2⟩
    · have hbl := Reader.buffered_length hwf
      have hstream' := hstream
      rw [Reader.WriteTo_eq] at hstream'
      -- the buffered bytes are a prefix of `x`
      have hpre : b.buffered = x.take (b.w - b.r) := by
        have h1 : (b.buffered ++ b.rd.flatten).take (b.w - b.r) = b.buffered :=
          List.take_left' hbl
        rw [← h1, hstream']
        exact List.take_append_of_le_length (by omega)
      have hflat : b.rd.flatten ≠ [] := by
        intro hnil
        have : (b.buffered ++ b.rd.flatten).length = (x ++ delim :: rest).length := by
          rw [hstream']
        simp [hnil, hbl] at this
        omega
      have herr : b.err = false := by
        cases he : b.err with
        | false => rfl
        | true => exact absurd (hwf.2.2 he) hflat
      have hidx : IndexByte ((b.buf.take b.w).drop (b.r + s)) delim = none := by
        rw [IndexByte_eq_none]
        intro hm
        have : (b.buf.take b.w).drop (b.r + s) = b.buffered.drop s := by
          rw [Reader.buffered, List.drop_drop]
        rw [this, hpre] at hm
        exact hx (List.mem_of_mem_take (List.mem_of_mem_drop hm))
      obtain ⟨g1, g2, g3, g4, g5, _⟩ := Reader.fill_spec hwf (by omega)
      obtain ⟨g6, _⟩ := g5 hflat
      have hstep : Reader.readSliceLoop delim (f + 1) s b
          = Reader.readSliceLoop delim f (b.w - b.r) b.fill := by
        have hnf : ¬ (b.w - b.r ≥ b.buf.length) := by omega
        simp only [Reader.readSliceLoop, hidx, herr, hnf]
        simp
      rw [hstep]
      obtain ⟨off, b', k1, k2, k3, k4⟩ := ih f (b.w - b.r) b.fill g1 (g3.trans hstream)
        (by omega) (by omega) (by omega) (by omega) (by omega)
      exact ⟨off, b', k1, k2, k3, by omega⟩

/-- `ReadLine` on a stream that starts with a line that fits the buffer: the line without
its end-of-line marker is returned, and the stream continues after the marker. -/
theorem Reader.ReadLine_line {text rest : List Nat} {crlf : Bool} {b : Reader}
    (hwf : b.WF) (htext : 10 ∉ text)
    (hcr : crlf = false → text.getLast? ≠ some 13)
    (hstream : b.WriteTo = text ++ (if crlf then [13, 10] else [10]) ++ rest)
    (hsize : text.length + (if crlf then 2 else 1) ≤ b.buf.length) :
    ∃ off b', b.ReadLine = some (⟨⟨text, off⟩, false, false⟩, b') ∧
      b'.WF ∧ b'.WriteTo = rest ∧ b'.buf.length = b.buf.length := by
  cases crlf with
  | false =>
    simp only [Bool.false_eq_true, if_false] at hstream hsize
    have hstream' : b.WriteTo = text ++ 10 :: rest := by simpa using hstream
    obtain ⟨off, b', k1, k2, k3, k4⟩ := Reader.readSliceLoop_found htext
      (text.length + 1) (b.buf.length + 2) 0 b hwf hstream' hsize (by omega) (by omega)
      (by omega) (by omega)
    refine ⟨off, b', ?_, k2, k3, k4⟩
    have hne : text.getLast? ≠ some 13 := hcr rfl
    simp only [Reader.ReadLine, Reader.ReadSlice, k1]
    simp [List.getLast?_concat, List.dropLast_concat, hne]
  | true =>
    simp only [if_true] at hstream hsize
    have hstream' : b.WriteTo = (text ++ [13]) ++ 10 :: rest := by simpa using hstream
    have hx : 10 ∉ text ++ [13] := by simp [htext]
    obtain ⟨off, b', k1, k2, k3, k4⟩ := Reader.readSliceLoop_found hx
      ((text ++ [13]).length + 1) (b.buf.length + 2) 0 b hwf hstream'
      (by simp only [List.length_append, List.length_singleton]; omega) (by omega) (by omega)
      (by omega) (by simp only [List.length_append, List.length_singleton]; omega)
    refine ⟨off, b', ?_, k2, k3, k4⟩
    simp only [Reader.ReadLine, Reader.ReadSlice, k1]
    simp [List.getLast?_concat, List.dropLast_concat]

/-! ### The pending end of the stream -/

/-- The loop of `ReadSlice` returns with no `io.EOF` pending, when none is pending at the
start or the search starts after the buffered bytes. -/
theorem Reader.readSliceLoop_err (delim : Nat) :
    ∀ (fuel s : Nat) (b : Reader) (line : BufSlice) (err : Option ReadErr) (b' : Reader),
      b.WF → (b.err = false ∨ b.w - b.r ≤ s) →
      Reader.readSliceLoop delim fuel s b = some (line, err, b') → b'.err = false := by
  intro fuel
  induction fuel with
  | zero =>
    intro s b line err b' _ _ h
    simp [Reader.readSliceLoop] at h
  | succ f ih =>
    intro s b line err b' hwf hs h
    obtain ⟨h1, h2, h3⟩ := hwf
    rw [Reader.readSliceLoop] at h
    cases hidx : IndexByte ((b.buf.take b.w).drop (b.r + s)) delim with
    | some i =>
      have hi := IndexByte_lt_length hidx
      simp only [List.length_drop, List.length_take] at hi
      rw [hidx] at h
      simp only [Option.some.injEq, Prod.mk.injEq] at h
      obtain ⟨_, _, rfl⟩ := h
      rcases hs with hs | hs
      · exact hs
      · omega
    | none =>
      rw [hidx] at h
      dsimp only at h
      by_cases herr : b.err = true
      · rw [if_pos herr] at h
        simp only [Option.some.injEq, Prod.mk.injEq] at h
        obtain ⟨_, _, rfl⟩ := h
        rfl
      · have herr' : b.err = false := by
          cases he : b.err with
          | false => rfl
          | true => exact absurd he herr
        rw [if_neg herr] at h
        by_cases hfull : b.w - b.r ≥ b.buf.length
        · rw [if_pos hfull] at h
          simp only [Option.some.injEq, Prod.mk.injEq] at h
          obtain ⟨_, _, rfl⟩ := h
          exact herr'
        · rw [if_neg hfull] at h
          obtain ⟨g1, g2, g3, g4, g5, g6⟩ := Reader.fill_spec ⟨h1, h2, h3⟩ (by omega)
          apply ih (b.w - b.r) b.fill line err b' g1 ?_ h
          by_cases hflat : b.rd.flatten = []
          · right
            obtain ⟨_, k2, _⟩ := g6 hflat
            rw [k2, g4]
            omega
          · left
            rw [(g5 hflat).2]
            exact herr'

/-- A call of `ReadLine` with no `io.EOF` pending leaves none pending. -/
theorem Reader.ReadLine_err {b b' : Reader} {res : Line} (hwf : b.WF) (herr : b.err = false)
    (h : b.ReadLine = some (res, b')) : b'.err = false := by
  unfold Reader.ReadLine Reader.ReadSlice at h
  cases hrs : Reader.readSliceLoop 10 (b.buf.length + 2) 0 b with
  | none =>
    rw [hrs] at h
    exact Option.noConfusion h
  | some p =>
    obtain ⟨line, err, b1⟩ := p
    have hb1 := Reader.readSliceLoop_err 10 _ 0 b line err b1 hwf (Or.inl herr) hrs
    rw [hrs] at h
    dsimp only at h
    split_ifs at h
    all_goals
      simp only [Option.some.injEq, Prod.mk.injEq] at h
      obtain ⟨_, rfl⟩ := h
      exact hb1

/-! ### A line longer than the buffer -/

/-- `ReadSlice` on a stream whose first `len(buf)` bytes hold no delimiter: the buffer is
filled with these bytes, whatever the chunks the pipe delivers, and `ErrBufferFull` is
returned with the whole buffer. -/
theorem Reader.readSliceLoop_full {delim : Nat} {X rest : List Nat} (hX : delim ∉ X) :
    ∀ (n fuel s : Nat) (b : Reader), b.WF → b.err = false → b.WriteTo = X ++ rest →
      X.length = b.buf.length → s ≤ b.w - b.r →
      X.length - (b.w - b.r) ≤ n → n + 1 ≤ fuel →
      ∃ b', Reader.readSliceLoop delim fuel s b
          = some (⟨X, 0⟩, some ReadErr.ErrBufferFull, b') ∧
        b'.buf = X ∧ b'.r = X.length ∧ b'.w = X.length ∧ b'.rd.flatten = rest ∧
        b'.err = false := by
  intro n
  induction n with
  | zero =>
    intro fuel s b hwf herr hstream hlen hs hn hfuel
    obtain ⟨f, rfl⟩ : ∃ f, fuel = f + 1 := ⟨fuel - 1, by omega⟩
    obtain ⟨h1, h2, h3⟩ := hwf
    have hr0 : b.r = 0 := by omega
    have hw : b.w = b.buf.length := by omega
    have hbuf : (b.buf.take b.w).drop b.r = b.buf := by
      rw [hr0, hw, List.drop_zero, List.take_length]
    have hsplit : b.buf ++ b.rd.flatten = X ++ rest := by
      rw [← hstream, Reader.WriteTo, hbuf]
    obtain ⟨e1, e2⟩ := List.append_inj hsplit hlen.symm
    have hidx : IndexByte ((b.buf.take b.w).drop (b.r + s)) delim = none := by
      rw [IndexByte_eq_none]
      intro hm
      have : (b.buf.take b.w).drop (b.r + s) = X.drop s := by
        rw [← e1, ← List.drop_drop, hbuf]
      rw [this] at hm
      exact hX (List.mem_of_mem_drop hm)
    have hfull : b.w - b.r ≥ b.buf.length := by omega
    refine ⟨{ b with r := b.w }, ?_, e1, ?_, ?_, e2, herr⟩
    · simp only [Reader.readSliceLoop, hidx, herr, hfull]
      simp [e1]
    · show b.w = X.length
      omega
    · show b.w = X.length
      omega
  | succ n ih =>
    intro fuel s b hwf herr hstream hlen hs hn hfuel
    obtain ⟨f, rfl⟩ : ∃ f, fuel = f + 1 := ⟨fuel - 1, by omega⟩
    by_cases hfull : X.length ≤ b.w - b.r
    · obtain ⟨h1, h2, h3⟩ := hwf
      have hr0 : b.r = 0 := by omega
      have hw : b.w = b.buf.length := by omega
      have hbuf : (b.buf.take b.w).drop b.r = b.buf := by
        rw [hr0, hw, List.drop_zero, List.take_length]
      have hsplit : b.buf ++ b.rd.flatten = X ++ rest := by
        rw [← hstream, Reader.WriteTo, hbuf]
      obtain ⟨e1, e2⟩ := List.append_inj hsplit hlen.symm
      have hidx : IndexByte ((b.buf.take b.w).drop (b.r + s)) delim = none := by
        rw [IndexByte_eq_none]
        intro hm
        have : (b.buf.take b.w).drop (b.r + s) = X.drop s := by
          rw [← e1, ← List.drop_drop, hbuf]
        rw [this] at hm
        exact hX (List.mem_of_mem_drop hm)
      have hfull' : b.w - b.r ≥ b.buf.length := by omega
      refine ⟨{ b with r := b.w }, ?_, e1, ?_, ?_, e2, herr⟩
      · simp only [Reader.readSliceLoop, hidx, herr, hfull']
        simp [e1]
      · show b.w = X.length
        omega
      · show b.w = X.length
        omega
    · have hbl := Reader.buffered_length hwf
      have hstream' := hstream
      rw [Reader.WriteTo_eq] at hstream'
      have hpre : b.buffered = X.take (b.w - b.r) := by
        have h1 : (b.buffered ++ b.rd.flatten).take (b.w - b.r) = b.buffered :=
          List.take_left' hbl
        rw [← h1, hstream']
        exact List.take_append_of_le_length (by omega)
      have hflat : b.rd.flatten ≠ [] := by
        intro hnil
        have : (b.buffered ++ b.rd.flatten).length = (X ++ rest).length := by
          rw [hstream']
        simp [hnil, hbl] at this
        omega
      have hidx : IndexByte ((b.buf.take b.w).drop (b.r + s)) delim = none := by
        rw [IndexByte_eq_none]
        intro hm
        have : (b.buf.take b.w).drop (b.r + s) = b.buffered.drop s := by
          rw [Reader.buffered, List.drop_drop]
        rw [this, hpre] at hm
        exact hX (List.mem_of_mem_take (List.mem_of_mem_drop hm))
      obtain ⟨g1, g2, g3, g4, g5, _⟩ := Reader.fill_spec hwf (by omega)
      obtain ⟨g6, g7⟩ := g5 hflat
      have hstep : Reader.readSliceLoop delim (f + 1) s b
          = Reader.readSliceLoop delim f (b.w - b.r) b.fill := by
        have hnf : ¬ (b.w - b.r ≥ b.buf.length) := by omega
        simp only [Reader.readSliceLoop, hidx, herr, hnf]
        simp
      rw [hstep]
      exact ih f (b.w - b.r) b.fill g1 (g7.trans herr) (g3.trans hstream) (by omega)
        (by omega) (by omega) (by omega)

/-- `ReadLine` on a stream whose first 1024 bytes hold no line feed: the line returned is a
prefix (`isPrefix`), made of these bytes, or of the first 1023 of them when the last one is
`\r`, and the stream continues after the bytes returned. -/
theorem Reader.ReadLine_long {X rest : List Nat} {b : Reader} (hwf : b.WF)
    (herr : b.err = false) (hlen : b.buf.length = 1024) (hX : X.length = 1024)
    (hnl : 10 ∉ X) (hstream : b.WriteTo = X ++ rest) :
    ∃ off b', b.ReadLine
        = some (⟨⟨if X.getLast? = some 13 then X.dropLast else X, off⟩, true, false⟩,
            b') ∧
      b'.WriteTo = (if X.getLast? = some 13 then [13] else []) ++ rest := by
  obtain ⟨b1, k1, k2, k3, k4, k5, _⟩ := Reader.readSliceLoop_full hnl 1024 (b.buf.length + 2)
    0 b hwf herr hstream (hX.trans hlen.symm) (Nat.zero_le _) (by omega) (by omega)
  have hne : X ≠ [] := by
    intro h
    rw [h] at hX
    exact absurd hX (by decide)
  have hdrop : (b1.buf.take b1.w).drop b1.r = [] := by
    apply List.drop_eq_nil_of_le
    simp only [List.length_take]
    omega
  unfold Reader.ReadLine Reader.ReadSlice
  rw [k1]
  dsimp only
  rw [if_pos rfl]
  by_cases hcr : X.getLast? = some 13
  · rw [if_pos hcr, if_pos hcr, if_pos hcr]
    refine ⟨0, _, rfl, ?_⟩
    show (b1.buf.take b1.w).drop (b1.r - 1) ++ b1.rd.flatten = [13] ++ rest
    rw [k5, k2, k3, k4, List.take_length]
    congr 1
    obtain ⟨Y, hY⟩ : ∃ Y, X = Y ++ [13] := by
      have := List.dropLast_append_getLast? 13 (by simpa using hcr)
      exact ⟨X.dropLast, this.symm⟩
    rw [hY]
    simp
  · rw [if_neg hcr, if_neg hcr, if_neg hcr]
    refine ⟨0, _, rfl, ?_⟩
    show (b1.buf.take b1.w).drop b1.r ++ b1.rd.flatten = [] ++ rest
    rw [hdrop, k5]

/-! ### The scanning loop of `EZOutputHandlerReplacer` on header lines -/

theorem EZOutputHandlerReplacer.scan_headers (blank : Bool) (B : List Nat) :
    ∀ (lines : List HeaderLine) (fuel : Nat) (s : Scan),
      (∀ l ∈ lines, l.fits 1024 ∧ TrimSpace l.key ≠ str "Status") →
      s.linebody.WF → s.linebody.buf.length = 1024 →
      s.linebody.WriteTo = lines.flatMap HeaderLine.bytes ++ endOfLine blank ++ B →
      lines.length + 1 ≤ fuel →
      ∃ lb, EZOutputHandlerReplacer.scan fuel s
          = some (ScanExit.brk { s with header := setAll s.header lines, linebody := lb }) ∧
        lb.WriteTo = B := by
  intro lines
  induction lines with
  | nil =>
    intro fuel s _ hwf hlen hstream hfuel
    obtain ⟨f, rfl⟩ : ∃ f, fuel = f + 1 := ⟨fuel - 1, by omega⟩
    have hstream' : s.linebody.WriteTo = [] ++ (if blank then [13, 10] else [10]) ++ B := by
      simpa [endOfLine] using hstream
    obtain ⟨off, b', k1, _, k3, _⟩ := @Reader.ReadLine_line [] B blank s.linebody hwf (by simp)
      (by simp) hstream' (by rw [hlen]; cases blank <;> simp)
    refine ⟨b', ?_, k3⟩
    simp [EZOutputHandlerReplacer.scan, k1, setAll]
  | cons l ls ih =>
    intro fuel s hl hwf hlen hstream hfuel
    obtain ⟨f, rfl⟩ : ∃ f, fuel = f + 1 := ⟨fuel - 1, by simp at hfuel; omega⟩
    obtain ⟨⟨hkey, htext, hsize, hcr⟩, hstatus⟩ := hl l (List.mem_cons_self _ _)
    have hstream' : s.linebody.WriteTo = l.text ++ (if l.crlf then [13, 10] else [10]) ++
        (ls.flatMap HeaderLine.bytes ++ endOfLine blank ++ B) := by
      rw [hstream]
      simp [HeaderLine.bytes, endOfLine, List.flatMap_cons]
    have hsz : l.text.length + (if l.crlf then 2 else 1) ≤ s.linebody.buf.length := by
      rw [hlen]
      cases hc : l.crlf <;> simp [hc] at hsize ⊢ <;> omega
    obtain ⟨off, b', k1, k2, k3, k4⟩ := Reader.ReadLine_line hwf htext hcr hstream' hsz
    have hidx : IndexByte (l.key ++ 58 :: l.value) 58 = some l.key.length :=
      IndexByte_append_cons hkey
    have hne : (l.key ++ 58 :: l.value).length ≠ 0 := by simp
    obtain ⟨lb, h1, h2⟩ := ih f
      { s with linebody := b', header := Header.Set s.header (TrimSpace l.key) (TrimSpace l.value) }
      (fun l' hl' => hl l' (List.mem_cons_of_mem _ hl')) k2 (by rw [k4, hlen]) k3
      (by simp at hfuel; omega)
    refine ⟨lb, ?_, h2⟩
    rw [EZOutputHandlerReplacer.scan, k1]
    simp only [HeaderLine.text, hidx, Bool.false_eq_true, or_self, if_false, hne]
    have htake : (l.key ++ 58 :: l.value).take l.key.length = l.key := List.take_left' rfl
    have hdrop : (l.key ++ 58 :: l.value).drop (l.key.length + 1) = l.value := by
      have e : l.key ++ 58 :: l.value = (l.key ++ [58]) ++ l.value := by simp
      rw [e]
      exact List.drop_left' (by simp)
    simp only [htake, hdrop, hstatus, if_false]
    rw [h1]
    simp [setAll]

/-! ### Header maps -/

theorem Header.index_assign (h : Header) (k key : GoString) (vs : List GoString) :
    Header.index (Header.assign h k vs) key = if key = k then vs else Header.index h key := by
  induction h with
  | nil =>
    by_cases hk : key = k
    · simp [Header.assign, Header.index, hk]
    · simp [Header.assign, Header.index, hk, Ne.symm hk]
  | cons p rest ih =>
    by_cases hp : p.1 = k
    · by_cases hk : key = k
      · simp [Header.assign, Header.index, hp, hk]
      · have : ¬ p.1 = key := fun h' => hk (h' ▸ hp)
        simp [Header.assign, Header.index, hp, hk, Ne.symm hk, this]
    · by_cases hpk : p.1 = key
      · have hk : ¬ key = k := fun h' => hp (hpk.trans h')
        simp [Header.assign, Header.index, hp, hpk, hk]
      · simp only [Header.assign, hp, if_false]
        simp only [Header.index, List.find?_cons, hpk, decide_False] at ih ⊢
        exact ih

theorem Header.index_Set (h : Header) (k v key : GoString) :
    Header.index (Header.Set h k v) key
      = if key = CanonicalMIMEHeaderKey k then [v] else Header.index h key :=
  Header.index_assign h _ key [v]

theorem Header.index_eq_nil {h : Header} {key : GoString} (hk : key ∉ h.map Prod.fst) :
    Header.index h key = [] := by
  induction h with
  | nil => rfl
  | cons p rest ih =>
    simp only [List.map_cons, List.mem_cons, not_or] at hk
    simp only [Header.index, List.find?_cons, Ne.symm hk.1, decide_False]
    exact ih hk.2

/-- The values under `key` after the header lines were applied: the value of the last line
whose canonical key is `key`, or the former values. -/
theorem Header.index_setAll (lines : List HeaderLine) (hdr : Header) (key : GoString) :
    Header.index (setAll hdr lines) key =
      match lines.reverse.find? (fun l => CanonicalMIMEHeaderKey (TrimSpace l.key) = key) with
      | some l => [TrimSpace l.value]
      | none => Header.index hdr key := by
  induction lines generalizing hdr with
  | nil => rfl
  | cons l ls ih =>
    have hstep : setAll hdr (l :: ls)
        = setAll (Header.Set hdr (TrimSpace l.key) (TrimSpace l.value)) ls := rfl
    rw [hstep, ih, List.reverse_cons, List.find?_append]
    cases hf : ls.reverse.find? (fun l => CanonicalMIMEHeaderKey (TrimSpace l.key) = key) with
    | some l' => rfl
    | none =>
      simp only [Option.none_or, List.find?_cons, List.find?_nil]
      rw [Header.index_Set]
      by_cases hk : CanonicalMIMEHeaderKey (TrimSpace l.key) = key
      · simp [hk]
      · simp [hk, Ne.symm hk]

theorem canonicalLoop_valid (u : Bool) (s : GoString) (h : s.all validHeaderFieldByte = true) :
    (canonicalLoop u s).all validHeaderFieldByte = true := by
  induction s generalizing u with
  | nil => rfl
  | cons c rest ih =>
    simp only [List.all_cons, Bool.and_eq_true] at h
    simp only [canonicalLoop, List.all_cons, Bool.and_eq_true]
    refine ⟨?_, ih _ h.2⟩
    have hc := h.1
    simp only [validHeaderFieldByte, List.mem_cons, List.mem_singleton, List.not_mem_nil,
      or_false, decide_eq_true_eq] at hc ⊢
    split_ifs <;> omega

theorem canonicalLoop_idem (u : Bool) (s : GoString) :
    canonicalLoop u (canonicalLoop u s) = canonicalLoop u s := by
  induction s generalizing u with
  | nil => rfl
  | cons c rest ih =>
    simp only [canonicalLoop]
    have hstep : (if u = true ∧ 97 ≤ (if u = true ∧ 97 ≤ c ∧ c ≤ 122 then c - 32
          else if ¬ u = true ∧ 65 ≤ c ∧ c ≤ 90 then c + 32 else c) ∧
          (if u = true ∧ 97 ≤ c ∧ c ≤ 122 then c - 32
          else if ¬ u = true ∧ 65 ≤ c ∧ c ≤ 90 then c + 32 else c) ≤ 122
        then (if u = true ∧ 97 ≤ c ∧ c ≤ 122 then c - 32
          else if ¬ u = true ∧ 65 ≤ c ∧ c ≤ 90 then c + 32 else c) - 32
        else if ¬ u = true ∧ 65 ≤ (if u = true ∧ 97 ≤ c ∧ c ≤ 122 then c - 32
          else if ¬ u = true ∧ 65 ≤ c ∧ c ≤ 90 then c + 32 else c) ∧
          (if u = true ∧ 97 ≤ c ∧ c ≤ 122 then c - 32
          else if ¬ u = true ∧ 65 ≤ c ∧ c ≤ 90 then c + 32 else c) ≤ 90
        then (if u = true ∧ 97 ≤ c ∧ c ≤ 122 then c - 32
          else if ¬ u = true ∧ 65 ≤ c ∧ c ≤ 90 then c + 32 else c) + 32
        else (if u = true ∧ 97 ≤ c ∧ c ≤ 122 then c - 32
          else if ¬ u = true ∧ 65 ≤ c ∧ c ≤ 90 then c + 32 else c)) =
        (if u = true ∧ 97 ≤ c ∧ c ≤ 122 then c - 32
          else if ¬ u = true ∧ 65 ≤ c ∧ c ≤ 90 then c + 32 else c) := by
      cases u <;> simp <;> split_ifs <;> omega
    rw [hstep, ih]

/-- Go's canonical form of a header name is a fixed point of canonicalisation. -/
theorem CanonicalMIMEHeaderKey_idem (s : GoString) :
    CanonicalMIMEHeaderKey (CanonicalMIMEHeaderKey s) = CanonicalMIMEHeaderKey s := by
  unfold CanonicalMIMEHeaderKey
  by_cases h : s.all validHeaderFieldByte = true
  · simp only [h, if_true, canonicalLoop_valid true s h, canonicalLoop_idem]
  · rw [if_neg h, if_neg h]

theorem Header.keys_assign (h : Header) (k : GoString) (vs : List GoString) :
    (Header.assign h k vs).map Prod.fst
      = if k ∈ h.map Prod.fst then h.map Prod.fst else h.map Prod.fst ++ [k] := by
  induction h with
  | nil => simp [Header.assign]
  | cons p rest ih =>
    by_cases hp : p.1 = k
    · simp [Header.assign, hp]
    · have hk : ¬ k = p.1 := fun h' => hp h'.symm
      simp only [Header.assign, hp, if_false, List.map_cons, ih, List.mem_cons, hk, false_or]
      split_ifs <;> simp

/-- A header map whose keys are distinct and in canonical form, as Go's `http.Header`
documents them. -/
theorem Header.keys_Set {h : Header} (k v : GoString)
    (hcan : ∀ p ∈ h, CanonicalMIMEHeaderKey p.1 = p.1) (hnd : (h.map Prod.fst).Nodup) :
    (∀ p ∈ Header.Set h k v, CanonicalMIMEHeaderKey p.1 = p.1) ∧
      ((Header.Set h k v).map Prod.fst).Nodup := by
  have hkeys := Header.keys_assign h (CanonicalMIMEHeaderKey k) [v]
  have hcan' : ∀ key ∈ h.map Prod.fst, CanonicalMIMEHeaderKey key = key := by
    intro key hkey
    obtain ⟨p, hp, rfl⟩ := List.mem_map.1 hkey
    exact hcan p hp
  constructor
  · intro p hp
    have hmem : p.1 ∈ (Header.Set h k v).map Prod.fst := List.mem_map_of_mem _ hp
    rw [Header.Set, hkeys] at hmem
    split_ifs at hmem with hin
    · exact hcan' _ hmem
    · rcases List.mem_append.1 hmem with hm | hm
      · exact hcan' _ hm
      · rw [List.mem_singleton.1 hm]
        exact CanonicalMIMEHeaderKey_idem k
  · rw [Header.Set, hkeys]
    split_ifs with hin
    · exact hnd
    · exact List.Nodup.append hnd (List.nodup_singleton _) (by simpa using hin)

theorem setAll_keys (lines : List HeaderLine) (hdr : Header)
    (hcan : ∀ p ∈ hdr, CanonicalMIMEHeaderKey p.1 = p.1) (hnd : (hdr.map Prod.fst).Nodup) :
    (∀ p ∈ setAll hdr lines, CanonicalMIMEHeaderKey p.1 = p.1) ∧
      ((setAll hdr lines).map Prod.fst).Nodup := by
  induction lines generalizing hdr with
  | nil => exact ⟨hcan, hnd⟩
  | cons l ls ih =>
    obtain ⟨h1, h2⟩ := Header.keys_Set (TrimSpace l.key) (TrimSpace l.value) hcan hnd
    exact ih _ h1 h2

/-! ### Writing the header map to the response -/

theorem addValues_spec (k : GoString) (vv : List GoString) (w : ResponseWriter) :
    (vv.foldl (fun w v => { w with header := Header.Add w.header k v }) w).status = w.status ∧
    (vv.foldl (fun w v => { w with header := Header.Add w.header k v }) w).body = w.body ∧
    ∀ key, Header.index
        (vv.foldl (fun w v => { w with header := Header.Add w.header k v }) w).header key
      = if key = CanonicalMIMEHeaderKey k then Header.index w.header key ++ vv
        else Header.index w.header key := by
  induction vv generalizing w with
  | nil => simp
  | cons v vs ih =>
    obtain ⟨h1, h2, h3⟩ := ih { w with header := Header.Add w.header k v }
    simp only [List.foldl_cons]
    refine ⟨h1, h2, ?_⟩
    intro key
    rw [h3 key]
    simp only [Header.Add, Header.index_assign]
    by_cases hk : key = CanonicalMIMEHeaderKey k
    · simp [hk]
    · simp [hk]

theorem ResponseWriter.addAll_spec (hdr : Header) (w : ResponseWriter)
    (hcan : ∀ p ∈ hdr, CanonicalMIMEHeaderKey p.1 = p.1) (hnd : (hdr.map Prod.fst).Nodup) :
    (w.addAll hdr).status = w.status ∧ (w.addAll hdr).body = w.body ∧
    ∀ key, Header.index (w.addAll hdr).header key
      = Header.index w.header key ++ Header.index hdr key := by
  induction hdr generalizing w with
  | nil => simp [ResponseWriter.addAll, Header.index]
  | cons p rest ih =>
    obtain ⟨a1, a2, a3⟩ := addValues_spec p.1 p.2 w
    simp only [List.map_cons, List.nodup_cons] at hnd
    obtain ⟨b1, b2, b3⟩ := ih
      (p.2.foldl (fun w v => { w with header := Header.Add w.header p.1 v }) w)
      (fun q hq => hcan q (List.mem_cons_of_mem _ hq)) hnd.2
    have hstep : w.addAll (p :: rest)
        = (p.2.foldl (fun w v => { w with header := Header.Add w.header p.1 v }) w).addAll rest :=
      rfl
    rw [hstep]
    refine ⟨b1.trans a1, b2.trans a2, ?_⟩
    intro key
    rw [b3 key, a3 key, hcan p (List.mem_cons_self _ _)]
    by_cases hk : key = p.1
    · subst hk
      have hnil := Header.index_eq_nil hnd.1
      simp only [Header.index] at hnil
      simp [Header.index, hnil]
    · have hk' : ¬ p.1 = key := fun h' => hk h'.symm
      simp [Header.index, hk, hk']


/-! ### `EZOutputHandlerReplacer` on header lines, a blank line and a body -/

theorem HeaderLine.length_le_flatMap (lines : List HeaderLine) :
    lines.length ≤ (lines.flatMap HeaderLine.bytes).length := by
  induction lines with
  | nil => simp
  | cons l ls ih =>
    have : 1 ≤ l.bytes.length := by
      simp only [HeaderLine.bytes, HeaderLine.text, List.length_append, List.length_cons]
      omega
    simp only [List.flatMap_cons, List.length_cons, List.length_append]
    omega

theorem NewReaderSize_spec (rd : Pipe) :
    (NewReaderSize rd 1024).WF ∧ (NewReaderSize rd 1024).buf.length = 1024 ∧
      (NewReaderSize rd 1024).WriteTo = rd.flatten := by
  have hlen : (NewReaderSize rd 1024).buf.length = 1024 := by
    show (List.replicate (if 1024 < 16 then 16 else 1024) 0).length = 1024
    rw [List.length_replicate]
    rfl
  refine ⟨⟨Nat.le_refl _, ?_, ?_⟩, hlen, ?_⟩
  · rw [hlen]
    exact Nat.zero_le _
  · intro h
    exact absurd h (by show ¬ (false = true); decide)
  · show ((NewReaderSize rd 1024).buf.take 0).drop 0 ++ rd.flatten = rd.flatten
    rw [List.take_zero]
    rfl

set_option maxRecDepth 100000 in
/-- C8 does not hold as stated.  With the default header map `content-type: text/plain`,
whose key is not in canonical form, and the output `Content-Type: text/html\n\nB`, the line
does not overwrite the default: `Header.Set` writes the key `Content-Type` next to the key
`content-type`, and `Add` puts both under `Content-Type` in the response, which has the two
values `text/plain` and `text/html` (in the order of the `range` over the map). -/
theorem C8_counterexample :
    (EZOutputHandlerReplacer [(str "content-type", [str "text/plain"])] ResponseWriter.fresh
      [str "Content-Type: text/html\n\nB"]).map
      (fun o => (o.response.status, o.response.body,
        (Header.index o.response.header (str "Content-Type")).length,
        decide (str "text/plain" ∈ Header.index o.response.header (str "Content-Type")),
        decide (str "text/html" ∈ Header.index o.response.header (str "Content-Type"))))
      = some (some 200, str "B", 2, true, true) := by
  decide

/-- C8, amended: for every default header map `D` whose keys are in canonical form (and
distinct, as the keys of a map are) and every subprocess output, in whatever chunks the pipe
delivers it, made of header lines with a colon (each with fewer than 1024 bytes before its
line feed, ended by `\n` or `\r\n`, its trimmed key other than `Status`), then a blank line,
then the bytes `B`: `EZOutputHandlerReplacer` returns, the status is 200, the body is exactly
`B`, and the values of each header in the response are the single trimmed value of the last
line that names the header if there is one, and the values in `D` otherwise. -/
theorem C8_replacer_round_trip (D : Header) (lines : List HeaderLine) (blank : Bool)
    (B : List Nat) (stdoutRead : Pipe)
    (hcan : ∀ p ∈ D, CanonicalMIMEHeaderKey p.1 = p.1) (hnd : (D.map Prod.fst).Nodup)
    (hlines : ∀ l ∈ lines, l.fits 1024 ∧ TrimSpace l.key ≠ str "Status")
    (hout : stdoutRead.flatten = lines.flatMap HeaderLine.bytes ++ endOfLine blank ++ B) :
    ∃ w, EZOutputHandlerReplacer D ResponseWriter.fresh stdoutRead
        = some (Outcome.returned (setAll D lines) w) ∧
      w.status = some 200 ∧ w.body = B ∧
      ∀ key, Header.index w.header key =
        match lines.reverse.find? (fun l => CanonicalMIMEHeaderKey (TrimSpace l.key) = key) with
        | some l => [TrimSpace l.value]
        | none => Header.index D key := by
  obtain ⟨n1, n2, n3⟩ := NewReaderSize_spec stdoutRead
  have hfuel : lines.length + 1 ≤ stdoutRead.flatten.length + 1 := by
    have := HeaderLine.length_le_flatMap lines
    rw [hout]
    simp only [List.length_append]
    omega
  obtain ⟨lb, hscan, hlb⟩ := EZOutputHandlerReplacer.scan_headers blank B lines
    (stdoutRead.flatten.length + 1)
    { header := D, statusCode := 0, readBytes := none, linebody := NewReaderSize stdoutRead 1024 }
    hlines n1 n2 (n3.trans hout) hfuel
  obtain ⟨k1, k2⟩ := setAll_keys lines D hcan hnd
  obtain ⟨a1, a2, a3⟩ := ResponseWriter.addAll_spec (setAll D lines) ResponseWriter.fresh k1 k2
  refine ⟨{ (ResponseWriter.fresh.addAll (setAll D lines)) with
      status := some 200, body := B }, ?_, rfl, rfl, ?_⟩
  · have hst : (ResponseWriter.fresh.addAll (setAll D lines)).status = none := a1
    have hbody : (ResponseWriter.fresh.addAll (setAll D lines)).body = [] := a2
    have hwh : (ResponseWriter.fresh.addAll (setAll D lines)).WriteHeader 200
        = some { (ResponseWriter.fresh.addAll (setAll D lines)) with status := some 200 } := by
      unfold ResponseWriter.WriteHeader
      rw [hst]
      rfl
    unfold EZOutputHandlerReplacer
    dsimp only
    rw [hscan]
    dsimp only
    rw [if_pos rfl, hwh]
    dsimp only
    rw [ResponseWriter.Write, hlb]
    dsimp only
    rw [hbody]
    rfl
  · intro key
    show Header.index (ResponseWriter.fresh.addAll (setAll D lines)).header key = _
    have hnil : Header.index ResponseWriter.fresh.header key = [] := rfl
    rw [a3 key, hnil, List.nil_append]
    exact Header.index_setAll lines D key

/-- C8, amended, at the output `Content-Type: text/html\r\nX-Test: PASS\r\n\r\nBODY`, in two
chunks, with the default header `Content-Type: text/plain`. -/
theorem C8_replacer_round_trip_witness :
    ∃ w, EZOutputHandlerReplacer [(str "Content-Type", [str "text/plain"])] ResponseWriter.fresh
        [str "Content-Type: text/html\r\nX-Te", str "st: PASS\r\n\r\nBODY"]
        = some (Outcome.returned
            [(str "Content-Type", [str "text/html"]), (str "X-Test", [str "PASS"])] w) ∧
      w.status = some 200 ∧ w.body = str "BODY" ∧
      Header.index w.header (str "Content-Type") = [str "text/html"] ∧
      Header.index w.header (str "X-Test") = [str "PASS"] := by
  obtain ⟨w, h1, h2, h3, h4⟩ := C8_replacer_round_trip [(str "Content-Type", [str "text/plain"])]
    [⟨str "Content-Type", str " text/html", true⟩, ⟨str "X-Test", str " PASS", true⟩] true
    (str "BODY") [str "Content-Type: text/html\r\nX-Te", str "st: PASS\r\n\r\nBODY"]
    (by decide) (by decide) (by decide) (by decide)
  have hs : setAll [(str "Content-Type", [str "text/plain"])]
      [⟨str "Content-Type", str " text/html", true⟩, ⟨str "X-Test", str " PASS", true⟩]
      = [(str "Content-Type", [str "text/html"]), (str "X-Test", [str "PASS"])] := by decide
  rw [hs] at h1
  exact ⟨w, h1, h2, h3, (h4 _).trans (by decide), (h4 _).trans (by decide)⟩


/-! ### Lines without a colon, and the handler's header map -/

set_option maxRecDepth 100000 in
/-- C9 does not hold of the code.  For the output `hello\n` (no header line, one line
without a colon) the body sent is `hello\n\r`, not the output, while the status is 200 and
the headers are the defaults; for `hello\nworld\n` read in one chunk the body is
`hello\n\r\rorld\n`, the byte after the line being overwritten in the buffer; and after a
header line, for `X-Test: PASS\nhello\n`, the body is again `hello\n\r`. -/
theorem C9_body_not_preserved :
    (EZOutputHandlerReplacer [(str "Content-Type", [str "text/plain"])] ResponseWriter.fresh
      [str "hello\n"]).map (fun o => o.response.body) = some (str "hello\n\r") ∧
    (EZOutputHandlerReplacer [(str "Content-Type", [str "text/plain"])] ResponseWriter.fresh
      [str "hello\n"]).map (fun o => o.response.status) = some (some 200) ∧
    (EZOutputHandlerReplacer [(str "Content-Type", [str "text/plain"])] ResponseWriter.fresh
      [str "hello\n"]).map (fun o => o.response.header)
      = some [(str "Content-Type", [str "text/plain"])] ∧
    (EZOutputHandlerReplacer [(str "Content-Type", [str "text/plain"])] ResponseWriter.fresh
      [str "hello\nworld\n"]).map (fun o => o.response.body)
      = some (str "hello\n\r\rorld\n") ∧
    (EZOutputHandlerReplacer [(str "Content-Type", [str "text/plain"])] ResponseWriter.fresh
      [str "X-Test: PASS\nhello\n"]).map (fun o => o.response.body)
      = some (str "hello\n\r") :=
  ⟨by decide, by decide, by decide, by decide, by decide⟩

set_option maxRecDepth 100000 in
/-- C10 does not hold of the code.  With the default header `Content-Type: text/plain`
and the output `X-Test: PASS\n\nBODY`, the handler's header map after the run also holds
`X-Test: PASS`; a second run on that map with the output `\nBODY`, which sets no header, is
answered with `X-Test: PASS`. -/
theorem C10_default_header_mutated :
    (EZOutputHandlerReplacer [(str "Content-Type", [str "text/plain"])] ResponseWriter.fresh
      [str "X-Test: PASS\n\nBODY"]).map Outcome.header
      = some [(str "Content-Type", [str "text/plain"]), (str "X-Test", [str "PASS"])] ∧
    (EZOutputHandlerReplacer
      [(str "Content-Type", [str "text/plain"]), (str "X-Test", [str "PASS"])]
      ResponseWriter.fresh [str "\nBODY"]).map
        (fun o => Header.index o.response.header (str "X-Test"))
      = some [str "PASS"] :=
  ⟨by decide, by decide⟩


/-! ### The scanning loop of `DefaultOutputHandler` on a header block -/

theorem TextLine.length_le_bytes (lines : List TextLine) (h : ∀ l ∈ lines, l.fits 1024) :
    lines.length ≤ (lines.flatMap TextLine.bytes).length := by
  induction lines with
  | nil => simp
  | cons l ls ih =>
    have h1 : 1 ≤ l.bytes.length := by
      have := (h l (List.mem_cons_self _ _)).1
      have : 0 < l.text.length := List.length_pos.2 this
      simp only [TextLine.bytes, List.length_append]
      omega
    have := ih (fun l' hl' => h l' (List.mem_cons_of_mem _ hl'))
    simp only [List.flatMap_cons, List.length_cons, List.length_append]
    omega

/-- One pass of `ReadLine` over the first line of a block. -/
theorem Reader.ReadLine_textLine {l : TextLine} {rest : List Nat} {b : Reader}
    (hwf : b.WF) (hlen : b.buf.length = 1024) (hfit : l.fits 1024)
    (hstream : b.WriteTo = l.bytes ++ rest) :
    ∃ off b', b.ReadLine = some (⟨⟨l.text, off⟩, false, false⟩, b') ∧
      b'.WF ∧ b'.WriteTo = rest ∧ b'.buf.length = 1024 := by
  obtain ⟨_, htext, hsize, hcr⟩ := hfit
  have hsz : l.text.length + (if l.crlf then 2 else 1) ≤ b.buf.length := by
    rw [hlen]
    cases hc : l.crlf <;> simp [hc] at hsize ⊢ <;> omega
  obtain ⟨off, b', k1, k2, k3, k4⟩ := Reader.ReadLine_line hwf htext hcr
    (by rw [hstream]; rfl) hsz
  exact ⟨off, b', k1, k2, k3, k4.trans hlen⟩

/-- One pass of `ReadLine` over a blank line. -/
theorem Reader.ReadLine_blank {blank : Bool} {rest : List Nat} {b : Reader}
    (hwf : b.WF) (hlen : b.buf.length = 1024)
    (hstream : b.WriteTo = endOfLine blank ++ rest) :
    ∃ off b', b.ReadLine = some (⟨⟨[], off⟩, false, false⟩, b') ∧
      b'.WF ∧ b'.WriteTo = rest ∧ b'.buf.length = 1024 := by
  have hstream' : b.WriteTo = [] ++ (if blank then [13, 10] else [10]) ++ rest := by
    simpa [endOfLine] using hstream
  obtain ⟨off, b', k1, k2, k3, k4⟩ := @Reader.ReadLine_line [] rest blank b hwf (by simp)
    (by simp) hstream' (by rw [hlen]; cases blank <;> simp)
  exact ⟨off, b', k1, k2, k3, k4.trans hlen⟩

/-- The loop of `DefaultOutputHandler` over a header block without a bogus status: it is
left by `break` after the blank line, with the headers of the lines, the code of the last
`Status` line, and the count of the lines. -/
theorem DefaultOutputHandler.scan_block (blank : Bool) (B : List Nat) :
    ∀ (lines : List TextLine) (fuel : Nat) (s : DefaultScan),
      (∀ l ∈ lines, l.fits 1024 ∧ ¬ l.isBogusStatus) →
      s.linebody.WF → s.linebody.buf.length = 1024 →
      s.linebody.WriteTo = blockBytes lines blank B →
      lines.length + 1 ≤ fuel →
      ∃ lb, DefaultOutputHandler.scan fuel s
          = some (DefaultScanExit.brk
              { headers := addLines s.headers lines,
                statusCode := lastStatus s.statusCode lines,
                headerLines := s.headerLines + lines.length,
                sawBlankLine := true, linebody := lb }) ∧
        lb.WriteTo = B := by
  intro lines
  induction lines with
  | nil =>
    intro fuel s _ hwf hlen hstream hfuel
    obtain ⟨f, rfl⟩ : ∃ f, fuel = f + 1 := ⟨fuel - 1, by omega⟩
    obtain ⟨off, b', k1, _, k3, _⟩ := Reader.ReadLine_blank hwf hlen
      (by simpa [blockBytes] using hstream)
    refine ⟨b', ?_, k3⟩
    simp [DefaultOutputHandler.scan, k1, addLines, lastStatus]
  | cons l ls ih =>
    intro fuel s hl hwf hlen hstream hfuel
    obtain ⟨f, rfl⟩ : ∃ f, fuel = f + 1 := ⟨fuel - 1, by simp at hfuel; omega⟩
    obtain ⟨hfit, hbogus⟩ := hl l (List.mem_cons_self _ _)
    obtain ⟨off, b', k1, k2, k3, k4⟩ := @Reader.ReadLine_textLine l
      (blockBytes ls blank B) s.linebody hwf hlen hfit
      (by rw [hstream]; simp [blockBytes, List.flatMap_cons])
    have hne : l.text.length ≠ 0 := by
      have := List.length_pos.2 hfit.1
      omega
    have hrest : ∀ l' ∈ ls, l'.fits 1024 ∧ ¬ l'.isBogusStatus :=
      fun l' hl' => hl l' (List.mem_cons_of_mem _ hl')
    have hf : ls.length + 1 ≤ f := by simp at hfuel; omega
    rw [DefaultOutputHandler.scan, k1]
    simp only [Bool.false_eq_true, if_false, hne]
    cases hidx : IndexByte l.text 58 with
    | none =>
      have hkey : l.key = none := by simp [TextLine.key, hidx]
      have hns : ¬ l.isStatus := by simp [TextLine.isStatus, hkey]
      obtain ⟨lb, h1, h2⟩ := ih f
        { s with linebody := b', headerLines := s.headerLines + 1 } hrest k2 k4 k3 hf
      refine ⟨lb, ?_, h2⟩
      simp only []
      rw [h1]
      simp [addLines, lastStatus, hkey, hns, Nat.add_assoc, Nat.add_comm 1]
    | some i =>
      have hkey : l.key = some (TrimSpace (l.text.take i)) := by simp [TextLine.key, hidx]
      have hval : l.value = TrimSpace (l.text.drop (i + 1)) := by simp [TextLine.value, hidx]
      simp only []
      by_cases hst : TrimSpace (l.text.take i) = str "Status"
      · have hs : l.isStatus := by simp [TextLine.isStatus, hkey, hst]
        have hcode : l.statusCode ≠ none := fun hc => hbogus ⟨hs, hc⟩
        have hlen3 : ¬ (TrimSpace (l.text.drop (i + 1))).length < 3 := by
          intro hlt
          apply hcode
          simp [TextLine.statusCode, hval, hlt]
        obtain ⟨code, hatoi⟩ :
            ∃ code, Atoi ((TrimSpace (l.text.drop (i + 1))).take 3) = some code := by
          cases ha : Atoi ((TrimSpace (l.text.drop (i + 1))).take 3) with
          | none =>
            exfalso
            apply hcode
            simp [TextLine.statusCode, hval, hlen3, ha]
          | some code => exact ⟨code, rfl⟩
        have hsc : l.statusCode = some code := by
          simp [TextLine.statusCode, hval, hlen3, hatoi]
        obtain ⟨lb, h1, h2⟩ := ih f
          { s with linebody := b', headerLines := s.headerLines + 1, statusCode := code }
          hrest k2 k4 k3 hf
        refine ⟨lb, ?_, h2⟩
        simp only [hst, if_true, hlen3, if_false, hatoi]
        rw [h1]
        simp [addLines, lastStatus, hkey, hst, hs, hsc, Nat.add_assoc, Nat.add_comm 1]
      · have hs : ¬ l.isStatus := by simp [TextLine.isStatus, hkey, hst]
        obtain ⟨lb, h1, h2⟩ := ih f
          { s with linebody := b', headerLines := s.headerLines + 1,
                   headers := Header.Add s.headers (TrimSpace (l.text.take i))
                     (TrimSpace (l.text.drop (i + 1))) }
          hrest k2 k4 k3 hf
        refine ⟨lb, ?_, h2⟩
        simp only [hst, if_false]
        rw [h1]
        simp [addLines, lastStatus, hkey, hval, hst, hs, Nat.add_assoc, Nat.add_comm 1]

/-- `DefaultOutputHandler` on a header block without a bogus status, in whatever chunks the
pipe delivers it: the response is the one computed after the loop from the headers of the
lines, the code of the last `Status` line and the number of lines. -/
theorem DefaultOutputHandler.block (hdr : Header) (w : ResponseWriter) (lines : List TextLine)
    (blank : Bool) (B : List Nat) (stdoutRead : Pipe)
    (hlines : ∀ l ∈ lines, l.fits 1024 ∧ ¬ l.isBogusStatus)
    (hout : stdoutRead.flatten = blockBytes lines blank B) :
    ∃ lb, lb.WriteTo = B ∧
      DefaultOutputHandler hdr w stdoutRead = some (DefaultOutputHandler.respond hdr w
        { headers := addLines [] lines, statusCode := lastStatus 0 lines,
          headerLines := lines.length, sawBlankLine := true, linebody := lb }) := by
  obtain ⟨n1, n2, n3⟩ := NewReaderSize_spec stdoutRead
  have hfuel : lines.length + 1 ≤ stdoutRead.flatten.length + 1 := by
    have := TextLine.length_le_bytes lines (fun l hl => (hlines l hl).1)
    rw [hout]
    simp only [blockBytes, List.length_append]
    omega
  obtain ⟨lb, hscan, hlb⟩ := DefaultOutputHandler.scan_block blank B lines
    (stdoutRead.flatten.length + 1)
    { headers := [], statusCode := 0, headerLines := 0, sawBlankLine := false,
      linebody := NewReaderSize stdoutRead 1024 }
    hlines n1 n2 (n3.trans hout) hfuel
  refine ⟨lb, hlb, ?_⟩
  unfold DefaultOutputHandler
  dsimp only
  rw [hscan]
  simp

/-! ### Header maps built by `Add` -/

theorem Header.index_Add (h : Header) (k v key : GoString) :
    Header.index (Header.Add h k v) key
      = if key = CanonicalMIMEHeaderKey k then Header.index h key ++ [v]
        else Header.index h key := by
  rw [Header.Add, Header.index_assign]
  by_cases hk : key = CanonicalMIMEHeaderKey k
  · simp [hk]
  · simp [hk]

theorem Header.keys_Add {h : Header} (k v : GoString)
    (hcan : ∀ p ∈ h, CanonicalMIMEHeaderKey p.1 = p.1) (hnd : (h.map Prod.fst).Nodup) :
    (∀ p ∈ Header.Add h k v, CanonicalMIMEHeaderKey p.1 = p.1) ∧
      ((Header.Add h k v).map Prod.fst).Nodup := by
  have hkeys := Header.keys_assign h (CanonicalMIMEHeaderKey k)
    (Header.index h (CanonicalMIMEHeaderKey k) ++ [v])
  have hcan' : ∀ key ∈ h.map Prod.fst, CanonicalMIMEHeaderKey key = key := by
    intro key hkey
    obtain ⟨p, hp, rfl⟩ := List.mem_map.1 hkey
    exact hcan p hp
  constructor
  · intro p hp
    have hmem : p.1 ∈ (Header.Add h k v).map Prod.fst := List.mem_map_of_mem _ hp
    rw [Header.Add, hkeys] at hmem
    split_ifs at hmem with hin
    · exact hcan' _ hmem
    · rcases List.mem_append.1 hmem with hm | hm
      · exact hcan' _ hm
      · rw [List.mem_singleton.1 hm]
        exact CanonicalMIMEHeaderKey_idem k
  · rw [Header.Add, hkeys]
    split_ifs with hin
    · exact hnd
    · exact List.Nodup.append hnd (List.nodup_singleton _) (by simpa using hin)

theorem addLines_cons (hdr : Header) (l : TextLine) (ls : List TextLine) :
    addLines hdr (l :: ls) = addLines (addLines hdr [l]) ls := rfl

theorem addLines_append (hdr : Header) (a b : List TextLine) :
    addLines hdr (a ++ b) = addLines (addLines hdr a) b := by
  simp [addLines, List.foldl_append]

theorem addLines_keys (lines : List TextLine) (hdr : Header)
    (hcan : ∀ p ∈ hdr, CanonicalMIMEHeaderKey p.1 = p.1) (hnd : (hdr.map Prod.fst).Nodup) :
    (∀ p ∈ addLines hdr lines, CanonicalMIMEHeaderKey p.1 = p.1) ∧
      ((addLines hdr lines).map Prod.fst).Nodup := by
  induction lines generalizing hdr with
  | nil => exact ⟨hcan, hnd⟩
  | cons l ls ih =>
    rw [addLines_cons]
    apply ih
    · cases hk : l.key with
      | none => simpa [addLines, hk] using hcan
      | some k =>
        by_cases hs : k = str "Status"
        · simpa [addLines, hk, hs] using hcan
        · simpa [addLines, hk, hs] using (Header.keys_Add k l.value hcan hnd).1
    · cases hk : l.key with
      | none => simpa [addLines, hk] using hnd
      | some k =>
        by_cases hs : k = str "Status"
        · simpa [addLines, hk, hs] using hnd
        · simpa [addLines, hk, hs] using (Header.keys_Add k l.value hcan hnd).2

/-- The values under `K` after the lines were scanned: the former values, then the value of
each header line named `K`, in order. -/
theorem Header.index_addLines (lines : List TextLine) (hdr : Header) (K : GoString) :
    Header.index (addLines hdr lines) K
      = Header.index hdr K ++ (lines.filter (fun l => l.isHeader K)).map TextLine.value := by
  induction lines generalizing hdr with
  | nil => simp [addLines]
  | cons l ls ih =>
    rw [addLines_cons, ih]
    cases hk : l.key with
    | none =>
      have hnh : ¬ l.isHeader K := by simp [TextLine.isHeader, hk]
      simp [addLines, hk, List.filter_cons, hnh]
    | some k =>
      by_cases hs : k = str "Status"
      · have hnh : ¬ l.isHeader K := by simp [TextLine.isHeader, TextLine.isStatus, hk, hs]
        simp [addLines, hk, hs, List.filter_cons, hnh]
      · by_cases hK : CanonicalMIMEHeaderKey k = K
        · have hh : l.isHeader K := by simp [TextLine.isHeader, TextLine.isStatus, hk, hs, hK]
          simp [addLines, hk, hs, List.filter_cons, hh, Header.index_Add, hK]
        · have hnh : ¬ l.isHeader K := by
            simp [TextLine.isHeader, TextLine.isStatus, hk, hs, hK]
          have hK' : ¬ K = CanonicalMIMEHeaderKey k := fun h => hK h.symm
          simp [addLines, hk, hs, List.filter_cons, hnh, Header.index_Add, hK']

theorem Header.Get_eq (h : Header) (K : GoString) :
    Header.Get h K = ((Header.index h (CanonicalMIMEHeaderKey K)).head?).getD [] := by
  unfold Header.Get
  cases Header.index h (CanonicalMIMEHeaderKey K) with
  | nil => rfl
  | cons v vs => rfl

/-- The value `headers.Get(K)` after a block was scanned, when some header line is named `K`:
the value of the first such line. -/
theorem Header.Get_addLines_first (pre post : List TextLine) (l : TextLine) (K : GoString)
    (hK : CanonicalMIMEHeaderKey K = K) (hpre : ∀ l' ∈ pre, ¬ l'.isHeader K)
    (hl : l.isHeader K) :
    Header.Get (addLines [] (pre ++ l :: post)) K = l.value := by
  have hfil : (pre ++ l :: post).filter (fun l => l.isHeader K)
      = l :: post.filter (fun l => l.isHeader K) := by
    rw [List.filter_append]
    have : pre.filter (fun l => l.isHeader K) = [] := by
      simp only [List.filter_eq_nil_iff, decide_eq_true_eq]
      exact hpre
    simp [this, List.filter_cons, hl]
  rw [Header.Get_eq, hK, Header.index_addLines, hfil]
  simp [Header.index]

/-- The value `headers.Get(K)` after a block was scanned, when every header line named `K`
has an empty value: empty. -/
theorem Header.Get_addLines_empty (lines : List TextLine) (K : GoString)
    (hK : CanonicalMIMEHeaderKey K = K) (hl : ∀ l ∈ lines, l.isHeader K → l.value = []) :
    Header.Get (addLines [] lines) K = [] := by
  rw [Header.Get_eq, hK, Header.index_addLines]
  have hnil : Header.index [] K = [] := rfl
  rw [hnil, List.nil_append]
  cases hf : lines.filter (fun l => l.isHeader K) with
  | nil => rfl
  | cons x xs =>
    have hx : x ∈ lines.filter (fun l => l.isHeader K) := by rw [hf]; exact List.mem_cons_self _ _
    rw [List.mem_filter] at hx
    have := hl x hx.1 (by simpa using hx.2)
    simp [this]

/-! ### The response of `DefaultOutputHandler` after the loop -/

theorem respond500_fresh (hdr : Header) :
    respond500 hdr ResponseWriter.fresh
      = Outcome.returned hdr { header := [], status := some 500, body := [] } := rfl

/-- After a block with at least one line, when the Content-Type test passes,
`DefaultOutputHandler` writes the headers of the block, the status code, and the rest of the
stream. -/
theorem DefaultOutputHandler.respond_ok (hdr : Header) (s : DefaultScan) (code : Int)
    (hlines : s.headerLines ≠ 0) (hblank : s.sawBlankLine = true)
    (hcan : ∀ p ∈ s.headers, CanonicalMIMEHeaderKey p.1 = p.1)
    (hnd : (s.headers.map Prod.fst).Nodup)
    (hcode : (if (if Header.Get s.headers (str "Location") ≠ [] then
        (if s.statusCode = 0 then 302 else s.statusCode) else s.statusCode) = 0 then 200
      else (if Header.Get s.headers (str "Location") ≠ [] then
        (if s.statusCode = 0 then 302 else s.statusCode) else s.statusCode)) = code)
    (hct : ¬ ((if Header.Get s.headers (str "Location") ≠ [] then
        (if s.statusCode = 0 then 302 else s.statusCode) else s.statusCode) = 0 ∧
      Header.Get s.headers (str "Content-Type") = []))
    (hvalid : 100 ≤ code ∧ code ≤ 999) :
    ∃ w, DefaultOutputHandler.respond hdr ResponseWriter.fresh s = Outcome.returned hdr w ∧
      w.status = some code ∧ w.body = s.linebody.WriteTo ∧
      ∀ key, Header.index w.header key = Header.index s.headers key := by
  obtain ⟨a1, a2, a3⟩ := ResponseWriter.addAll_spec s.headers ResponseWriter.fresh hcan hnd
  have hst : (ResponseWriter.fresh.addAll s.headers).status = none := a1
  have hbody : (ResponseWriter.fresh.addAll s.headers).body = [] := a2
  have hwh : (ResponseWriter.fresh.addAll s.headers).WriteHeader code
      = some { (ResponseWriter.fresh.addAll s.headers) with status := some code } := by
    unfold ResponseWriter.WriteHeader
    rw [hst]
    have : ¬ (code < 100 ∨ code > 999) := by omega
    simp [this]
  refine ⟨{ (ResponseWriter.fresh.addAll s.headers) with
      status := some code, body := s.linebody.WriteTo }, ?_, rfl, rfl, ?_⟩
  · unfold DefaultOutputHandler.respond
    have h1 : ¬ (s.headerLines = 0 ∨ s.sawBlankLine = false) := by simp [hlines, hblank]
    rw [if_neg h1]
    dsimp only
    rw [if_neg hct, hcode, hwh]
    dsimp only
    rw [ResponseWriter.Write]
    dsimp only
    rw [hbody]
    rfl
  · intro key
    have hnil : Header.index ResponseWriter.fresh.header key = [] := rfl
    show Header.index (ResponseWriter.fresh.addAll s.headers).header key = _
    rw [a3 key, hnil, List.nil_append]

/-- After a block with at least one line, when no status code is set and `Content-Type` is
empty, `DefaultOutputHandler` answers 500 and writes nothing else. -/
theorem DefaultOutputHandler.respond_missing (hdr : Header) (s : DefaultScan)
    (hcode : s.statusCode = 0) (hloc : Header.Get s.headers (str "Location") = [])
    (hct : Header.Get s.headers (str "Content-Type") = []) :
    DefaultOutputHandler.respond hdr ResponseWriter.fresh s
      = Outcome.returned hdr { header := [], status := some 500, body := [] } := by
  unfold DefaultOutputHandler.respond
  by_cases h1 : s.headerLines = 0 ∨ s.sawBlankLine = false
  · rw [if_pos h1, respond500_fresh]
  · rw [if_neg h1]
    dsimp only
    simp [hcode, hloc, hct, respond500_fresh]


/-! ### Bogus status lines -/

set_option maxRecDepth 100000 in
/-- C13 does not hold of the code.  For the outputs `Status: ab\n\nbody` (a status value
shorter than three bytes) and `Status: abc def\n\nbody` (three bytes that are no integer) both
`EZOutputHandlerReplacer` and `DefaultOutputHandler` return without a call of `WriteHeader`:
the response writer is left as it was, with no status written, so the server answers 200 with
an empty body and not 500.  The other error exit of `DefaultOutputHandler`, here for
`X-Test: PASS\nbody` without a blank line, does write the status 500. -/
theorem C13_bogus_status_no_500 :
    (EZOutputHandlerReplacer [] ResponseWriter.fresh [str "Status: ab\n\nbody"]).map
      (fun o => (o.response.status, o.response.body, o.response.statusCode))
      = some (none, [], 200) ∧
    (DefaultOutputHandler [] ResponseWriter.fresh [str "Status: ab\n\nbody"]).map
      (fun o => (o.response.status, o.response.body, o.response.statusCode))
      = some (none, [], 200) ∧
    (EZOutputHandlerReplacer [] ResponseWriter.fresh [str "Status: abc def\n\nbody"]).map
      (fun o => (o.response.status, o.response.body, o.response.statusCode))
      = some (none, [], 200) ∧
    (DefaultOutputHandler [] ResponseWriter.fresh [str "Status: abc def\n\nbody"]).map
      (fun o => (o.response.status, o.response.body, o.response.statusCode))
      = some (none, [], 200) ∧
    (DefaultOutputHandler [] ResponseWriter.fresh [str "X-Test: PASS\nbody"]).map
      (fun o => (o.response.status, o.response.body, o.response.statusCode))
      = some (some 500, [], 500) :=
  ⟨by decide, by decide, by decide, by decide, by decide⟩

set_option maxRecDepth 100000 in
/-- C11 does not hold of the code, by the defect of C13.  The outputs `Status: ab\n` and
`X-Test: PASS\nStatus: ab\n` end without a blank line, and `DefaultOutputHandler` returns at
the bogus status line without a call of `WriteHeader`: no status is written and the server
answers 200.  Without a bogus status line the claim holds at the outputs tried: `\nbody`
(no header line before the blank line), the empty output, `X-Test: PASS\n` and `X-Test: PASS`
(no blank line) are answered 500, with no header and no body. -/
theorem C11_no_headers_bogus_status :
    (DefaultOutputHandler [] ResponseWriter.fresh [str "Status: ab\n"]).map
      (fun o => (o.response.header, o.response.status, o.response.body, o.response.statusCode))
      = some ([], none, [], 200) ∧
    (DefaultOutputHandler [] ResponseWriter.fresh [str "X-Test: PASS\nStatus: ab\n"]).map
      (fun o => (o.response.header, o.response.status, o.response.body, o.response.statusCode))
      = some ([], none, [], 200) ∧
    (DefaultOutputHandler [] ResponseWriter.fresh [str "\nbody"]).map
      (fun o => (o.response.header, o.response.status, o.response.body))
      = some ([], some 500, []) ∧
    (DefaultOutputHandler [] ResponseWriter.fresh []).map
      (fun o => (o.response.header, o.response.status, o.response.body))
      = some ([], some 500, []) ∧
    (DefaultOutputHandler [] ResponseWriter.fresh [str "X-Test: PASS\n"]).map
      (fun o => (o.response.header, o.response.status, o.response.body))
      = some ([], some 500, []) ∧
    (DefaultOutputHandler [] ResponseWriter.fresh [str "X-Test: PASS"]).map
      (fun o => (o.response.header, o.response.status, o.response.body))
      = some ([], some 500, []) :=
  ⟨by decide, by decide, by decide, by decide, by decide, by decide⟩

/-! ### `EZOutputHandler` -/

theorem ResponseWriter.addAll_frame (hdr : Header) (w : ResponseWriter) :
    (w.addAll hdr).status = w.status ∧ (w.addAll hdr).body = w.body := by
  induction hdr generalizing w with
  | nil => exact ⟨rfl, rfl⟩
  | cons p rest ih =>
    obtain ⟨a1, a2, _⟩ := addValues_spec p.1 p.2 w
    obtain ⟨b1, b2⟩ := ih
      (p.2.foldl (fun w v => { w with header := Header.Add w.header p.1 v }) w)
    have hstep : w.addAll (p :: rest)
        = (p.2.foldl (fun w v => { w with header := Header.Add w.header p.1 v }) w).addAll rest :=
      rfl
    rw [hstep]
    exact ⟨b1.trans a1, b2.trans a2⟩

/-- C17: for every default header map `D` and every subprocess output, in whatever chunks
the pipe delivers it, `EZOutputHandler` returns with the status 200 and with a body equal,
byte for byte, to the output, and leaves the handler's header map as it was; when the keys of
`D` are distinct and in canonical form, the values of each header in the response are its
values in `D`. -/
theorem C17_ez_handler (D : Header) (stdoutRead : Pipe) :
    ∃ w, EZOutputHandler D ResponseWriter.fresh stdoutRead = some (Outcome.returned D w) ∧
      w.status = some 200 ∧ w.body = stdoutRead.flatten ∧
      ((∀ p ∈ D, CanonicalMIMEHeaderKey p.1 = p.1) → (D.map Prod.fst).Nodup →
        ∀ key, Header.index w.header key = Header.index D key) := by
  obtain ⟨_, _, n3⟩ := NewReaderSize_spec stdoutRead
  obtain ⟨a1, a2⟩ := ResponseWriter.addAll_frame D ResponseWriter.fresh
  have hst : (ResponseWriter.fresh.addAll D).status = none := a1
  have hbody : (ResponseWriter.fresh.addAll D).body = [] := a2
  have hwh : (ResponseWriter.fresh.addAll D).WriteHeader 200
      = some { (ResponseWriter.fresh.addAll D) with status := some 200 } := by
    unfold ResponseWriter.WriteHeader
    rw [hst]
    rfl
  refine ⟨{ (ResponseWriter.fresh.addAll D) with
      status := some 200, body := stdoutRead.flatten }, ?_, rfl, rfl, ?_⟩
  · unfold EZOutputHandler
    dsimp only
    rw [hwh]
    dsimp only
    rw [ResponseWriter.Write, n3]
    dsimp only
    rw [hbody]
    rfl
  · intro hcan hnd key
    obtain ⟨_, _, a3⟩ := ResponseWriter.addAll_spec D ResponseWriter.fresh hcan hnd
    show Header.index (ResponseWriter.fresh.addAll D).header key = _
    have hnil : Header.index ResponseWriter.fresh.header key = [] := rfl
    rw [a3 key, hnil, List.nil_append]

set_option maxRecDepth 100000 in
/-- C17 at the default header `Content-Type: text/plain` and the output
`Status: 404\nX-Test: PASS\n\nBODY`, which looks like CGI headers, delivered in two chunks. -/
theorem C17_ez_handler_witness :
    ∃ w, EZOutputHandler [(str "Content-Type", [str "text/plain"])] ResponseWriter.fresh
        [str "Status: 404\nX-Te", str "st: PASS\n\nBODY"]
        = some (Outcome.returned [(str "Content-Type", [str "text/plain"])] w) ∧
      w.status = some 200 ∧ w.body = str "Status: 404\nX-Test: PASS\n\nBODY" ∧
      Header.index w.header (str "Content-Type") = [str "text/plain"] ∧
      Header.index w.header (str "X-Test") = [] := by
  obtain ⟨w, h1, h2, h3, h4⟩ := C17_ez_handler [(str "Content-Type", [str "text/plain"])]
    [str "Status: 404\nX-Te", str "st: PASS\n\nBODY"]
  exact ⟨w, h1, h2, h3.trans (by decide), (h4 (by decide) (by decide) _).trans (by decide),
    (h4 (by decide) (by decide) _).trans (by decide)⟩

/-! ### Chunked requests -/

/-- C19: for every handler, every request whose first transfer encoding is `chunked`, every
process environment and every answer of the operating system, `ServeHTTP` (on a response
writer on which nothing was written) responds with the status 400 and the body
`Chunked request bodies are not supported by CGI.`, sets no header, and makes no call on a
subprocess: the result does not depend on the environment or on the operating system. -/
theorem C19_chunked_rejected (h : Handler) (r : Request) (envs : List GoString)
    (os : Cmd → Spawn) (hchunked : r.TransferEncoding.head? = some (str "chunked")) :
    ServeHTTP h ResponseWriter.fresh r envs os
      = some { h := h.withDefaults,
               w := { header := [], status := some 400,
                      body := str "Chunked request bodies are not supported by CGI." },
               events := [], panicked := false } := by
  unfold ServeHTTP
  dsimp only
  rw [if_pos hchunked]
  rfl

/-- C19 at a `POST`-like request with the transfer encoding `chunked`, for an operating
system that would start a subprocess with the output `X: y\n\nBODY`. -/
theorem C19_chunked_rejected_witness :
    ({ sampleRequest [] with TransferEncoding := [str "chunked"] } : Request).TransferEncoding.head?
        = some (str "chunked") ∧
      ServeHTTP sampleHandler ResponseWriter.fresh
        { sampleRequest [] with TransferEncoding := [str "chunked"] } []
        (fun _ => Spawn.started [str "X: y\n\nBODY"])
      = some { h := sampleHandler.withDefaults,
               w := { header := [], status := some 400,
                      body := str "Chunked request bodies are not supported by CGI." },
               events := [], panicked := false } :=
  ⟨rfl, C19_chunked_rejected sampleHandler
    { sampleRequest [] with TransferEncoding := [str "chunked"] } []
    (fun _ => Spawn.started [str "X: y\n\nBODY"]) rfl⟩

/-! ### The content length -/

/-- C20: for every handler whose inherit list does not name `CONTENT_LENGTH`, every request
and every process environment, the entries with key `CONTENT_LENGTH` of the subprocess
environment are the single entry `CONTENT_LENGTH=<n>`, with `n` the content length of the
request in decimal, when `n` is strictly positive, and there is none otherwise (so none for
0 and for the unknown length -1). -/
theorem C20_content_length (h : Handler) (r : Request) (envs : List GoString)
    (hin : str "CONTENT_LENGTH" ∉ h.InheritEnv) :
    entriesOf (str "CONTENT_LENGTH") (subprocessEnv h r envs)
      = if r.ContentLength > 0 then [str "CONTENT_LENGTH=" ++ formatInt r.ContentLength]
        else [] := by
  have hhdr : pairsOf (str "CONTENT_LENGTH") (headerPairs r.Header) = [] :=
    pairsOf_headerPairs_nil _ (fun k _ heq => http_key_ne (by decide) heq.symm)
  have htail : pairsOf (str "CONTENT_LENGTH") (tailPairs r envs)
      = if r.ContentLength > 0 then [(str "CONTENT_LENGTH", formatInt r.ContentLength)]
        else [] := by
    have h1 : ¬ (str "CONTENT_TYPE" = str "CONTENT_LENGTH") := by decide
    have h2 : ¬ (str "PATH" = str "CONTENT_LENGTH") := by decide
    simp only [tailPairs, pairsOf, List.filter_append]
    split_ifs <;> simp [List.filter_cons, h1, h2]
  rw [entriesOf_subprocessEnv]
  simp only [envPairs]
  rw [pairsOf_append, pairsOf_append, pairsOf_append, pairsOf_append, pairsOf_append,
    pairsOf_basePairs_nil _ _ (by decide), pairsOf_remotePairs_nil _ (by decide),
    pairsOf_https_nil _ (by decide), hhdr, htail, pairsOf_inheritPairs_nil envs _ hin]
  split_ifs
  · rfl
  · rfl

set_option maxRecDepth 100000 in
/-- C20 at a request with the content length 42, and at requests with the content lengths 0
and -1. -/
theorem C20_content_length_witness :
    str "CONTENT_LENGTH" ∉ sampleHandler.InheritEnv ∧
    entriesOf (str "CONTENT_LENGTH")
      (subprocessEnv sampleHandler { sampleRequest [] with ContentLength := 42 } [])
      = [str "CONTENT_LENGTH=42"] ∧
    entriesOf (str "CONTENT_LENGTH")
      (subprocessEnv sampleHandler { sampleRequest [] with ContentLength := 0 } []) = [] ∧
    entriesOf (str "CONTENT_LENGTH")
      (subprocessEnv sampleHandler { sampleRequest [] with ContentLength := -1 } []) = [] :=
  ⟨by decide,
   (C20_content_length sampleHandler { sampleRequest [] with ContentLength := 42 } []
      (by decide)).trans (by decide),
   by decide, by decide⟩


/-! ### The headers and the status code of a block -/

theorem Header.Get_addLines (lines : List TextLine) (K : GoString)
    (hK : CanonicalMIMEHeaderKey K = K) :
    Header.Get (addLines [] lines) K = firstValue lines K := by
  rw [Header.Get_eq, hK, Header.index_addLines]
  rfl

theorem lastStatus_append (c : Int) (a b : List TextLine) :
    lastStatus c (a ++ b) = lastStatus (lastStatus c a) b := by
  simp [lastStatus, List.foldl_append]

theorem lastStatus_of_no_status (lines : List TextLine) (c : Int)
    (h : ∀ l ∈ lines, ¬ l.isStatus) : lastStatus c lines = c := by
  induction lines generalizing c with
  | nil => rfl
  | cons l ls ih =>
    have hl : ¬ l.isStatus := h l (List.mem_cons_self _ _)
    have := ih c (fun l' hl' => h l' (List.mem_cons_of_mem _ hl'))
    simp only [lastStatus, List.foldl_cons, if_neg hl] at this ⊢
    exact this

/-- The status code after a block whose last `Status` line has the code `n`. -/
theorem lastStatus_last (pre post : List TextLine) (l : TextLine) (c n : Int)
    (hl : l.isStatus) (hn : l.statusCode = some n) (hpost : ∀ l' ∈ post, ¬ l'.isStatus) :
    lastStatus c (pre ++ l :: post) = n := by
  rw [lastStatus_append]
  have hstep : lastStatus (lastStatus c pre) (l :: post) = lastStatus n post := by
    simp [lastStatus, List.foldl_cons, hl, hn]
  rw [hstep, lastStatus_of_no_status post n hpost]

theorem addLines_filter_hasColon (lines : List TextLine) (hdr : Header) :
    addLines hdr (lines.filter TextLine.hasColon) = addLines hdr lines := by
  induction lines generalizing hdr with
  | nil => rfl
  | cons l ls ih =>
    cases hk : l.key with
    | none =>
      have hc : l.hasColon = false := by simp [TextLine.hasColon, hk]
      rw [List.filter_cons_of_neg (by simp [hc]), ih, addLines_cons]
      simp [addLines, hk]
    | some k =>
      have hc : l.hasColon = true := by simp [TextLine.hasColon, hk]
      rw [List.filter_cons_of_pos hc, addLines_cons hdr l (ls.filter TextLine.hasColon), ih,
        ← addLines_cons]

theorem lastStatus_filter_hasColon (lines : List TextLine) (c : Int) :
    lastStatus c (lines.filter TextLine.hasColon) = lastStatus c lines := by
  induction lines generalizing c with
  | nil => rfl
  | cons l ls ih =>
    cases hk : l.key with
    | none =>
      have hc : l.hasColon = false := by simp [TextLine.hasColon, hk]
      have hs : ¬ l.isStatus := by simp [TextLine.isStatus, hk]
      rw [List.filter_cons_of_neg (by simp [hc]), ih]
      simp [lastStatus, List.foldl_cons, hs]
    | some k =>
      have hc : l.hasColon = true := by simp [TextLine.hasColon, hk]
      rw [List.filter_cons_of_pos hc]
      have h1 : ∀ (x : TextLine) (xs : List TextLine), lastStatus c (x :: xs)
          = lastStatus (if x.isStatus then x.statusCode.getD c else c) xs := fun _ _ => rfl
      rw [h1, h1, ih]

/-- The response of `DefaultOutputHandler` after the loop depends on the reader only through
the bytes left in the stream, and on the number of header lines only through whether it is
zero; with no header in `headers` and no status code the response is 500 in either case. -/
theorem DefaultOutputHandler.respond_congr (hdr : Header) (w : ResponseWriter)
    (s t : DefaultScan) (hh : s.headers = t.headers) (hc : s.statusCode = t.statusCode)
    (hb : s.sawBlankLine = t.sawBlankLine) (hw : s.linebody.WriteTo = t.linebody.WriteTo)
    (hn : (s.headerLines = 0 ↔ t.headerLines = 0) ∨ (s.headers = [] ∧ s.statusCode = 0)) :
    DefaultOutputHandler.respond hdr w s = DefaultOutputHandler.respond hdr w t := by
  unfold DefaultOutputHandler.respond
  rw [← hh, ← hc, ← hb, ← hw]
  rcases hn with hn | ⟨h1, h2⟩
  · by_cases h0 : s.headerLines = 0
    · have h0' : t.headerLines = 0 := hn.1 h0
      simp [h0, h0']
    · have h0' : ¬ t.headerLines = 0 := fun h => h0 (hn.2 h)
      simp [h0, h0']
  · have hg : ∀ K, Header.Get s.headers K = [] := by
      intro K
      rw [h1]
      rfl
    simp [hg, h2]

/-! ### The required headers of `DefaultOutputHandler` -/

theorem DefaultOutputHandler.block_ok (hdr : Header) (lines : List TextLine) (blank : Bool)
    (B : List Nat) (stdoutRead : Pipe) (code : Int)
    (hlines : ∀ l ∈ lines, l.fits 1024 ∧ ¬ l.isBogusStatus) (hne : lines ≠ [])
    (hout : stdoutRead.flatten = blockBytes lines blank B)
    (hcode : code = if lastStatus 0 lines ≠ 0 then lastStatus 0 lines
      else if firstValue lines (str "Location") ≠ [] then 302 else 200)
    (hsome : lastStatus 0 lines ≠ 0 ∨ firstValue lines (str "Content-Type") ≠ [] ∨
      firstValue lines (str "Location") ≠ [])
    (hvalid : 100 ≤ code ∧ code ≤ 999) :
    ∃ w, DefaultOutputHandler hdr ResponseWriter.fresh stdoutRead
        = some (Outcome.returned hdr w) ∧
      w.status = some code ∧ w.body = B ∧
      ∀ key, Header.index w.header key = Header.index (addLines [] lines) key := by
  obtain ⟨lb, hlb, hrun⟩ := DefaultOutputHandler.block hdr ResponseWriter.fresh lines blank B
    stdoutRead hlines hout
  obtain ⟨k1, k2⟩ := addLines_keys lines [] (fun p hp => absurd hp (List.not_mem_nil p))
    List.nodup_nil
  have hL := Header.Get_addLines lines (str "Location") (by decide)
  have hC := Header.Get_addLines lines (str "Content-Type") (by decide)
  have hlen : lines.length ≠ 0 := fun h => hne (List.length_eq_zero.1 h)
  obtain ⟨w, h1, h2, h3, h4⟩ := DefaultOutputHandler.respond_ok hdr
    { headers := addLines [] lines, statusCode := lastStatus 0 lines,
      headerLines := lines.length, sawBlankLine := true, linebody := lb } code hlen rfl k1 k2
    (by
      dsimp only
      rw [hL, hcode]
      split_ifs <;> first | rfl | omega)
    (by
      dsimp only
      rw [hL, hC]
      intro hboth
      obtain ⟨hz, hct⟩ := hboth
      by_cases hloc : firstValue lines (str "Location") = []
      · rw [if_neg (not_not.2 hloc)] at hz
        rcases hsome with h | h | h
        · exact h hz
        · exact h hct
        · exact h hloc
      · rw [if_pos hloc] at hz
        by_cases hst : lastStatus 0 lines = 0
        · rw [if_pos hst] at hz
          omega
        · rw [if_neg hst] at hz
          exact hst hz)
    hvalid
  exact ⟨w, hrun.trans (congrArg some h1), h2, h3.trans hlb, h4⟩

theorem DefaultOutputHandler.block_missing (hdr : Header) (lines : List TextLine)
    (blank : Bool) (B : List Nat) (stdoutRead : Pipe)
    (hlines : ∀ l ∈ lines, l.fits 1024 ∧ ¬ l.isBogusStatus)
    (hout : stdoutRead.flatten = blockBytes lines blank B)
    (hst : lastStatus 0 lines = 0) (hct : firstValue lines (str "Content-Type") = [])
    (hloc : firstValue lines (str "Location") = []) :
    DefaultOutputHandler hdr ResponseWriter.fresh stdoutRead
      = some (Outcome.returned hdr { header := [], status := some 500, body := [] }) := by
  obtain ⟨lb, _, hrun⟩ := DefaultOutputHandler.block hdr ResponseWriter.fresh lines blank B
    stdoutRead hlines hout
  rw [hrun, DefaultOutputHandler.respond_missing hdr _ hst
    ((Header.Get_addLines lines (str "Location") (by decide)).trans hloc)
    ((Header.Get_addLines lines (str "Content-Type") (by decide)).trans hct)]

set_option maxRecDepth 100000 in
/-- C12 does not hold as stated: its second half fails.  The output `Status: 000\n\nbody`
has a `Status` line whose value has three bytes that parse as the integer 0, and the output
`Content-Type:\nContent-Type: text/html\n\nbody` has a non-empty `Content-Type` header after
an empty one; `DefaultOutputHandler` answers both with 500 and no body, by the test for a
missing `Content-Type`. -/
theorem C12_counterexample :
    (DefaultOutputHandler [] ResponseWriter.fresh [str "Status: 000\n\nbody"]).map
      (fun o => (o.response.header, o.response.status, o.response.body))
      = some ([], some 500, []) ∧
    (DefaultOutputHandler [] ResponseWriter.fresh
      [str "Content-Type:\nContent-Type: text/html\n\nbody"]).map
      (fun o => (o.response.header, o.response.status, o.response.body))
      = some ([], some 500, []) :=
  ⟨by decide, by decide⟩

/-- C12, amended: for every subprocess output, in whatever chunks the pipe delivers it, made
of at least one non-blank line (each with fewer than 1024 bytes before its line feed, none a
`Status` line with a bogus status), then a blank line, then the bytes `B`, with `st` the
code of the last `Status` line (0 when there is no `Status` line), `ct` the value of the first
`Content-Type` header line and `loc` the value of the first `Location` header line (empty when
there is none): when `st` is 0 and `ct` and `loc` are empty, `DefaultOutputHandler` responds
with the status 500, no header and no body; otherwise it passes the test, and when the code
it computes (`st` if that is not 0, else 302 if `loc` is not empty, else 200) is between 200
and 999 it responds with that code and the body `B`. -/
theorem C12_required_headers (hdr : Header) (lines : List TextLine) (blank : Bool)
    (B : List Nat) (stdoutRead : Pipe)
    (hlines : ∀ l ∈ lines, l.fits 1024 ∧ ¬ l.isBogusStatus) (hne : lines ≠ [])
    (hout : stdoutRead.flatten = blockBytes lines blank B) :
    ((∀ l ∈ lines, ¬ l.isStatus) → lastStatus 0 lines = 0) ∧
    (lastStatus 0 lines = 0 → firstValue lines (str "Content-Type") = [] →
      firstValue lines (str "Location") = [] →
      DefaultOutputHandler hdr ResponseWriter.fresh stdoutRead
        = some (Outcome.returned hdr { header := [], status := some 500, body := [] })) ∧
    (∀ code : Int,
      (lastStatus 0 lines ≠ 0 ∨ firstValue lines (str "Content-Type") ≠ [] ∨
        firstValue lines (str "Location") ≠ []) →
      (code = if lastStatus 0 lines ≠ 0 then lastStatus 0 lines
        else if firstValue lines (str "Location") ≠ [] then 302 else 200) →
      200 ≤ code → code ≤ 999 →
      ∃ w, DefaultOutputHandler hdr ResponseWriter.fresh stdoutRead
          = some (Outcome.returned hdr w) ∧
        w.status = some code ∧ w.body = B) := by
  refine ⟨lastStatus_of_no_status lines 0, ?_, ?_⟩
  · intro hst hct hloc
    exact DefaultOutputHandler.block_missing hdr lines blank B stdoutRead hlines hout hst hct hloc
  · intro code hsome hcode h200 h999
    obtain ⟨w, h1, h2, h3, _⟩ := DefaultOutputHandler.block_ok hdr lines blank B stdoutRead
      code hlines hne hout hcode hsome ⟨by omega, h999⟩
    exact ⟨w, h1, h2, h3⟩

set_option maxRecDepth 100000 in
/-- C12, amended, at the output `X-Test: PASS\n\nbody`, answered 500, and at the output
`Content-Type: text/html\n\nbody`, answered 200 with the body `body`. -/
theorem C12_required_headers_witness :
    DefaultOutputHandler [] ResponseWriter.fresh [str "X-Test: PASS\n\nbody"]
      = some (Outcome.returned [] { header := [], status := some 500, body := [] }) ∧
    ∃ w, DefaultOutputHandler [] ResponseWriter.fresh [str "Content-Type: text/html\n\nbody"]
        = some (Outcome.returned [] w) ∧
      w.status = some 200 ∧ w.body = str "body" :=
  ⟨(C12_required_headers [] [⟨str "X-Test: PASS", false⟩] false (str "body")
      [str "X-Test: PASS\n\nbody"] (by decide) (List.cons_ne_nil _ _) (by decide)).2.1
      (by decide) (by decide) (by decide),
   (C12_required_headers [] [⟨str "Content-Type: text/html", false⟩] false (str "body")
      [str "Content-Type: text/html\n\nbody"] (by decide) (List.cons_ne_nil _ _)
      (by decide)).2.2 200
      (by decide) (by decide) (by decide) (by decide)⟩

/-! ### The `Location` header -/

set_option maxRecDepth 100000 in
/-- C15 does not hold as stated.  The header block of `Location:\nLocation: /next\n\nmoved`
has a non-empty `Location` header and no `Status` line, but `headers.Get("Location")` is the
value of the first `Location` line, which is empty: `DefaultOutputHandler` answers 500 with no
header and no body. -/
theorem C15_counterexample :
    (DefaultOutputHandler [] ResponseWriter.fresh [str "Location:\nLocation: /next\n\nmoved"]).map
      (fun o => (o.response.header, o.response.status, o.response.body))
      = some ([], some 500, []) := by
  decide

/-- C15, amended: for every subprocess output, in whatever chunks the pipe delivers it, made of
non-blank lines (each with fewer than 1024 bytes before its line feed), none of them a
`Status` line, then a blank line, then the bytes `B`: when the first `Location` header
line has a non-empty value, `DefaultOutputHandler` responds with the status 302, sends that
value as the `Location` header, and sends the body `B`.  Nothing is asked of a
`Content-Type` header. -/
theorem C15_location_redirect (hdr : Header) (lines : List TextLine) (blank : Bool)
    (B : List Nat) (stdoutRead : Pipe)
    (hlines : ∀ l ∈ lines, l.fits 1024) (hns : ∀ l ∈ lines, ¬ l.isStatus)
    (hloc : firstValue lines (str "Location") ≠ [])
    (hout : stdoutRead.flatten = blockBytes lines blank B) :
    ∃ w, DefaultOutputHandler hdr ResponseWriter.fresh stdoutRead
        = some (Outcome.returned hdr w) ∧
      w.status = some 302 ∧
      Header.Get w.header (str "Location") = firstValue lines (str "Location") ∧
      w.body = B := by
  have hst : lastStatus 0 lines = 0 := lastStatus_of_no_status lines 0 hns
  have hne : lines ≠ [] := by
    intro h
    rw [h] at hloc
    exact hloc rfl
  obtain ⟨w, h1, h2, h3, h4⟩ := DefaultOutputHandler.block_ok hdr lines blank B stdoutRead
    302 (fun l hl => ⟨hlines l hl, fun hb => hns l hl hb.1⟩) hne hout
    (by rw [if_neg (not_not.2 hst), if_pos hloc]) (Or.inr (Or.inr hloc))
    ⟨by decide, by decide⟩
  refine ⟨w, h1, h2, ?_, h3⟩
  rw [Header.Get_eq, h4, ← Header.Get_eq, Header.Get_addLines lines _ (by decide)]

set_option maxRecDepth 100000 in
/-- C15, amended, at the output `Location: /next\r\nX-Test: PASS\r\n\r\nmoved`, which has no
`Content-Type` header, delivered in two chunks. -/
theorem C15_location_redirect_witness :
    ∃ w, DefaultOutputHandler [] ResponseWriter.fresh
        [str "Location: /next\r\nX-Te", str "st: PASS\r\n\r\nmoved"]
        = some (Outcome.returned [] w) ∧
      w.status = some 302 ∧ Header.Get w.header (str "Location") = str "/next" ∧
      w.body = str "moved" := by
  obtain ⟨w, h1, h2, h3, h4⟩ := C15_location_redirect []
    [⟨str "Location: /next", true⟩, ⟨str "X-Test: PASS", true⟩] true (str "moved")
    [str "Location: /next\r\nX-Te", str "st: PASS\r\n\r\nmoved"]
    (by decide) (by decide) (by decide) (by decide)
  exact ⟨w, h1, h2, h3.trans (by decide), h4⟩

/-! ### Lines without a colon in `DefaultOutputHandler` -/

set_option maxRecDepth 100000 in
/-- C16 does not hold as stated.  The output `garbage\nContent-Type: text/html\n\nbody` has
a non-empty line without a colon in its header block; `DefaultOutputHandler` answers it with
the status 200, the header `Content-Type: text/html` and the body `body`. -/
theorem C16_counterexample :
    (DefaultOutputHandler [] ResponseWriter.fresh
      [str "garbage\nContent-Type: text/html\n\nbody"]).map
      (fun o => (o.response.header, o.response.status, o.response.body))
      = some ([(str "Content-Type", [str "text/html"])], some 200, str "body") := by
  decide

/-- C16, amended: `DefaultOutputHandler` skips a non-empty line without a colon.  For every
subprocess output made of non-blank lines (each with fewer than 1024 bytes before its line
feed, none a `Status` line with a bogus status), then a blank line, then the bytes `B`, the
run of `DefaultOutputHandler` ends as its run on the output without the lines that have no
colon: same status, same headers, same body. -/
theorem C16_malformed_skipped (hdr : Header) (w : ResponseWriter) (lines : List TextLine)
    (blank : Bool) (B : List Nat) (stdoutRead stdoutRead' : Pipe)
    (hlines : ∀ l ∈ lines, l.fits 1024 ∧ ¬ l.isBogusStatus)
    (hout : stdoutRead.flatten = blockBytes lines blank B)
    (hout' : stdoutRead'.flatten = blockBytes (lines.filter TextLine.hasColon) blank B) :
    DefaultOutputHandler hdr w stdoutRead = DefaultOutputHandler hdr w stdoutRead' := by
  obtain ⟨lb, hlb, hrun⟩ := DefaultOutputHandler.block hdr w lines blank B stdoutRead hlines
    hout
  obtain ⟨lb', hlb', hrun'⟩ := DefaultOutputHandler.block hdr w (lines.filter TextLine.hasColon)
    blank B stdoutRead' (fun l hl => hlines l (List.mem_filter.1 hl).1) hout'
  rw [hrun, hrun']
  refine congrArg some (DefaultOutputHandler.respond_congr hdr w _ _ ?_ ?_ ?_ ?_ ?_)
  · exact (addLines_filter_hasColon lines []).symm
  · exact (lastStatus_filter_hasColon lines 0).symm
  · rfl
  · exact hlb.trans hlb'.symm
  · by_cases hf : lines.filter TextLine.hasColon = []
    · right
      constructor
      · show addLines [] lines = []
        rw [← addLines_filter_hasColon, hf]
        rfl
      · show lastStatus 0 lines = 0
        rw [← lastStatus_filter_hasColon, hf]
        rfl
    · left
      have hl : lines ≠ [] := by
        intro h
        rw [h] at hf
        exact hf rfl
      show lines.length = 0 ↔ (lines.filter TextLine.hasColon).length = 0
      rw [List.length_eq_zero, List.length_eq_zero]
      exact ⟨fun h => absurd h hl, fun h => absurd h hf⟩

set_option maxRecDepth 100000 in
/-- C16, amended, at the output `garbage\nContent-Type: text/html\n\nbody`: the run ends as
the run on `Content-Type: text/html\n\nbody`, with the status 200 and the body `body`. -/
theorem C16_malformed_skipped_witness :
    DefaultOutputHandler [] ResponseWriter.fresh [str "garbage\nContent-Type: text/html\n\nbody"]
      = DefaultOutputHandler [] ResponseWriter.fresh [str "Content-Type: text/html\n\nbody"] ∧
    (DefaultOutputHandler [] ResponseWriter.fresh [str "Content-Type: text/html\n\nbody"]).map
      (fun o => (o.response.status, o.response.body)) = some (some 200, str "body") :=
  ⟨C16_malformed_skipped [] ResponseWriter.fresh
      [⟨str "garbage", false⟩, ⟨str "Content-Type: text/html", false⟩] false (str "body")
      [str "garbage\nContent-Type: text/html\n\nbody"] [str "Content-Type: text/html\n\nbody"]
      (by decide) (by decide) (by decide),
   by decide⟩


/-! ### The scanning loop of `EZOutputHandlerReplacer` on a header block -/

theorem setLines_cons (hdr : Header) (l : TextLine) (ls : List TextLine) :
    setLines hdr (l :: ls) = setLines (setLines hdr [l]) ls := rfl

/-- The loop of `EZOutputHandlerReplacer` over lines with a colon and without a bogus
status: it goes on after them with the headers of the lines set and the code of the last
`Status` line. -/
theorem EZOutputHandlerReplacer.scan_lines (rest : List Nat) :
    ∀ (lines : List TextLine) (fuel : Nat) (s : Scan),
      (∀ l ∈ lines, l.fits 1024 ∧ l.hasColon = true ∧ ¬ l.isBogusStatus) →
      s.linebody.WF → s.linebody.buf.length = 1024 →
      s.linebody.WriteTo = lines.flatMap TextLine.bytes ++ rest →
      ∃ lb, lb.WF ∧ lb.buf.length = 1024 ∧ lb.WriteTo = rest ∧
        EZOutputHandlerReplacer.scan (lines.length + fuel) s
          = EZOutputHandlerReplacer.scan fuel
              { header := setLines s.header lines, statusCode := lastStatus s.statusCode lines,
                readBytes := s.readBytes, linebody := lb } ∧
        (s.linebody.err = false → lb.err = false) := by
  intro lines
  induction lines with
  | nil =>
    intro fuel s _ hwf hlen hstream
    refine ⟨s.linebody, hwf, hlen, by simpa using hstream, ?_, fun h => h⟩
    simp [setLines, lastStatus]
  | cons l ls ih =>
    intro fuel s hl hwf hlen hstream
    obtain ⟨hfit, hcolon, hbogus⟩ := hl l (List.mem_cons_self _ _)
    obtain ⟨off, b', k1, k2, k3, k4⟩ := @Reader.ReadLine_textLine l
      (ls.flatMap TextLine.bytes ++ rest) s.linebody hwf hlen hfit
      (by rw [hstream]; simp [List.flatMap_cons])
    have hne : l.text.length ≠ 0 := by
      have := List.length_pos.2 hfit.1
      omega
    have hrest : ∀ l' ∈ ls, l'.fits 1024 ∧ l'.hasColon = true ∧ ¬ l'.isBogusStatus :=
      fun l' hl' => hl l' (List.mem_cons_of_mem _ hl')
    have hfuel : (l :: ls).length + fuel = (ls.length + fuel) + 1 := by
      simp only [List.length_cons]
      omega
    rw [hfuel, EZOutputHandlerReplacer.scan, k1]
    simp only [Bool.false_eq_true, or_self, if_false, hne]
    cases hidx : IndexByte l.text 58 with
    | none =>
      exfalso
      simp [TextLine.hasColon, TextLine.key, hidx] at hcolon
    | some i =>
      have hkey : l.key = some (TrimSpace (l.text.take i)) := by simp [TextLine.key, hidx]
      have hval : l.value = TrimSpace (l.text.drop (i + 1)) := by simp [TextLine.value, hidx]
      simp only []
      by_cases hst : TrimSpace (l.text.take i) = str "Status"
      · have hs : l.isStatus := by simp [TextLine.isStatus, hkey, hst]
        have hcode : l.statusCode ≠ none := fun hc => hbogus ⟨hs, hc⟩
        have hlen3 : ¬ (TrimSpace (l.text.drop (i + 1))).length < 3 := by
          intro hlt
          apply hcode
          simp [TextLine.statusCode, hval, hlt]
        obtain ⟨code, hatoi⟩ :
            ∃ code, Atoi ((TrimSpace (l.text.drop (i + 1))).take 3) = some code := by
          cases ha : Atoi ((TrimSpace (l.text.drop (i + 1))).take 3) with
          | none =>
            exfalso
            apply hcode
            simp [TextLine.statusCode, hval, hlen3, ha]
          | some code => exact ⟨code, rfl⟩
        have hsc : l.statusCode = some code := by
          simp [TextLine.statusCode, hval, hlen3, hatoi]
        obtain ⟨lb, h1, h2, h3, h4, h5⟩ := ih fuel
          { s with linebody := b', statusCode := code } hrest k2 k4 k3
        refine ⟨lb, h1, h2, h3, ?_, fun he => h5 (Reader.ReadLine_err hwf he k1)⟩
        simp only [hst, if_true, hlen3, if_false, hatoi]
        rw [h4]
        simp [setLines, lastStatus, hkey, hst, hs, hsc]
      · have hs : ¬ l.isStatus := by simp [TextLine.isStatus, hkey, hst]
        obtain ⟨lb, h1, h2, h3, h4, h5⟩ := ih fuel
          { s with linebody := b',
                   header := Header.Set s.header (TrimSpace (l.text.take i))
                     (TrimSpace (l.text.drop (i + 1))) }
          hrest k2 k4 k3
        refine ⟨lb, h1, h2, h3, ?_, fun he => h5 (Reader.ReadLine_err hwf he k1)⟩
        simp only [hst, if_false]
        rw [h4]
        simp [setLines, lastStatus, hkey, hst, hs, hval]

/-- The loop of `EZOutputHandlerReplacer` at a blank line: it is left by `break`. -/
theorem EZOutputHandlerReplacer.scan_blank (blank : Bool) (B : List Nat) (fuel : Nat)
    (s : Scan) (hwf : s.linebody.WF) (hlen : s.linebody.buf.length = 1024)
    (hstream : s.linebody.WriteTo = endOfLine blank ++ B) :
    ∃ lb, lb.WriteTo = B ∧
      EZOutputHandlerReplacer.scan (fuel + 1) s
        = some (ScanExit.brk { s with linebody := lb }) := by
  obtain ⟨off, b', k1, _, k3, _⟩ := Reader.ReadLine_blank hwf hlen hstream
  refine ⟨b', k3, ?_⟩
  simp [EZOutputHandlerReplacer.scan, k1]

/-- The loop of `EZOutputHandlerReplacer` at a non-empty line without a colon: it is left by
`break`, with the line, `\n` and `\r` in `readBytes`. -/
theorem EZOutputHandlerReplacer.scan_nocolon (m : TextLine) (rest : List Nat) (fuel : Nat)
    (s : Scan) (hwf : s.linebody.WF) (hlen : s.linebody.buf.length = 1024)
    (hfit : m.fits 1024) (hcolon : m.hasColon = false)
    (hstream : s.linebody.WriteTo = m.bytes ++ rest) :
    ∃ lb, EZOutputHandlerReplacer.scan (fuel + 1) s
      = some (ScanExit.brk { s with readBytes := some (m.text ++ [10, 13]), linebody := lb }) := by
  obtain ⟨off, b', k1, _, _, _⟩ := @Reader.ReadLine_textLine m rest s.linebody hwf hlen hfit
    hstream
  have hne : m.text.length ≠ 0 := by
    have := List.length_pos.2 hfit.1
    omega
  have hidx : IndexByte m.text 58 = none := by
    cases h : IndexByte m.text 58 with
    | none => rfl
    | some i => simp [TextLine.hasColon, TextLine.key, h] at hcolon
  refine ⟨b'.appendInPlace ⟨m.text, off⟩ [10, 13], ?_⟩
  rw [EZOutputHandlerReplacer.scan, k1]
  simp [hne, hidx]

/-- The response of `EZOutputHandlerReplacer` once its loop was left by `break`. -/
theorem EZOutputHandlerReplacer.of_scan (hdr : Header) (stdoutRead : Pipe) (s : Scan)
    (code : Int)
    (hscan : EZOutputHandlerReplacer.scan (stdoutRead.flatten.length + 1)
      { header := hdr, statusCode := 0, readBytes := none,
        linebody := NewReaderSize stdoutRead 1024 } = some (ScanExit.brk s))
    (hcode : (if s.statusCode = 0 then 200 else s.statusCode) = code)
    (hvalid : 100 ≤ code ∧ code ≤ 999) :
    ∃ w, EZOutputHandlerReplacer hdr ResponseWriter.fresh stdoutRead
        = some (Outcome.returned s.header w) ∧
      w.status = some code ∧ w.body = s.readBytes.getD [] ++ s.linebody.WriteTo ∧
      w.header = (ResponseWriter.fresh.addAll s.header).header := by
  obtain ⟨a1, a2⟩ := ResponseWriter.addAll_frame s.header ResponseWriter.fresh
  have hst : (ResponseWriter.fresh.addAll s.header).status = none := a1
  have hbody : (ResponseWriter.fresh.addAll s.header).body = [] := a2
  have hwh : (ResponseWriter.fresh.addAll s.header).WriteHeader code
      = some { (ResponseWriter.fresh.addAll s.header) with status := some code } := by
    unfold ResponseWriter.WriteHeader
    rw [hst]
    have : ¬ (code < 100 ∨ code > 999) := by omega
    simp [this]
  refine ⟨{ (ResponseWriter.fresh.addAll s.header) with
      status := some code, body := s.readBytes.getD [] ++ s.linebody.WriteTo }, ?_, rfl, rfl, rfl⟩
  unfold EZOutputHandlerReplacer
  dsimp only
  rw [hscan]
  dsimp only
  rw [hcode, hwh]
  dsimp only
  cases hrb : s.readBytes with
  | none =>
    dsimp only
    rw [ResponseWriter.Write]
    dsimp only
    rw [hbody]
    rfl
  | some rb =>
    dsimp only
    rw [ResponseWriter.Write, ResponseWriter.Write]
    dsimp only
    rw [hbody]
    rfl

theorem setLines_keys (lines : List TextLine) (hdr : Header)
    (hcan : ∀ p ∈ hdr, CanonicalMIMEHeaderKey p.1 = p.1) (hnd : (hdr.map Prod.fst).Nodup) :
    (∀ p ∈ setLines hdr lines, CanonicalMIMEHeaderKey p.1 = p.1) ∧
      ((setLines hdr lines).map Prod.fst).Nodup := by
  induction lines generalizing hdr with
  | nil => exact ⟨hcan, hnd⟩
  | cons l ls ih =>
    rw [setLines_cons]
    apply ih
    · cases hk : l.key with
      | none => simpa [setLines, hk] using hcan
      | some k =>
        by_cases hs : k = str "Status"
        · simpa [setLines, hk, hs] using hcan
        · simpa [setLines, hk, hs] using (Header.keys_Set k l.value hcan hnd).1
    · cases hk : l.key with
      | none => simpa [setLines, hk] using hnd
      | some k =>
        by_cases hs : k = str "Status"
        · simpa [setLines, hk, hs] using hnd
        · simpa [setLines, hk, hs] using (Header.keys_Set k l.value hcan hnd).2

/-- The values under `K` after the lines were applied by `Set`: the value of the last header
line named `K`, or the former values. -/
theorem Header.index_setLines (lines : List TextLine) (hdr : Header) (K : GoString) :
    Header.index (setLines hdr lines) K =
      match lines.reverse.find? (fun l => l.isHeader K) with
      | some l => [l.value]
      | none => Header.index hdr K := by
  induction lines generalizing hdr with
  | nil => rfl
  | cons l ls ih =>
    rw [setLines_cons, ih, List.reverse_cons, List.find?_append]
    cases hf : ls.reverse.find? (fun l => l.isHeader K) with
    | some l' => rfl
    | none =>
      simp only [Option.none_or, List.find?_cons, List.find?_nil]
      cases hk : l.key with
      | none =>
        have hnh : ¬ l.isHeader K := by simp [TextLine.isHeader, hk]
        simp [setLines, hk, hnh]
      | some k =>
        by_cases hs : k = str "Status"
        · have hnh : ¬ l.isHeader K := by simp [TextLine.isHeader, TextLine.isStatus, hk, hs]
          simp [setLines, hk, hs, hnh]
        · by_cases hK : CanonicalMIMEHeaderKey k = K
          · have hh : l.isHeader K := by simp [TextLine.isHeader, TextLine.isStatus, hk, hs, hK]
            simp [setLines, hk, hs, hh, Header.index_Set, hK]
          · have hnh : ¬ l.isHeader K := by
              simp [TextLine.isHeader, TextLine.isStatus, hk, hs, hK]
            have hK' : ¬ K = CanonicalMIMEHeaderKey k := fun h => hK h.symm
            simp [setLines, hk, hs, hnh, Header.index_Set, hK']

/-! ### `EZOutputHandlerReplacer` on a header block -/

/-- `EZOutputHandlerReplacer` on lines with a colon and without a bogus status, then a blank
line, then the bytes `B`. -/
theorem EZOutputHandlerReplacer.replacer_block (hdr : Header) (lines : List TextLine)
    (blank : Bool)
    (B : List Nat) (stdoutRead : Pipe) (code : Int)
    (hlines : ∀ l ∈ lines, l.fits 1024 ∧ l.hasColon = true ∧ ¬ l.isBogusStatus)
    (hout : stdoutRead.flatten = blockBytes lines blank B)
    (hcode : (if lastStatus 0 lines = 0 then 200 else lastStatus 0 lines) = code)
    (hvalid : 100 ≤ code ∧ code ≤ 999) :
    ∃ w, EZOutputHandlerReplacer hdr ResponseWriter.fresh stdoutRead
        = some (Outcome.returned (setLines hdr lines) w) ∧
      w.status = some code ∧ w.body = B ∧
      w.header = (ResponseWriter.fresh.addAll (setLines hdr lines)).header := by
  obtain ⟨n1, n2, n3⟩ := NewReaderSize_spec stdoutRead
  have hle : lines.length ≤ stdoutRead.flatten.length := by
    have := TextLine.length_le_bytes lines (fun l hl => (hlines l hl).1)
    rw [hout]
    simp only [blockBytes, List.length_append]
    omega
  have hfuel : stdoutRead.flatten.length + 1
      = lines.length + ((stdoutRead.flatten.length - lines.length) + 1) := by omega
  obtain ⟨lb, k1, k2, k3, k4, _⟩ := EZOutputHandlerReplacer.scan_lines (endOfLine blank ++ B)
    lines
    ((stdoutRead.flatten.length - lines.length) + 1)
    { header := hdr, statusCode := 0, readBytes := none,
      linebody := NewReaderSize stdoutRead 1024 }
    hlines n1 n2 (by rw [n3, hout, blockBytes, List.append_assoc])
  obtain ⟨lb', j1, j2⟩ := EZOutputHandlerReplacer.scan_blank blank B
    (stdoutRead.flatten.length - lines.length)
    { header := setLines hdr lines, statusCode := lastStatus 0 lines, readBytes := none,
      linebody := lb } k1 k2 k3
  obtain ⟨w, h1, h2, h3, h4⟩ := EZOutputHandlerReplacer.of_scan hdr stdoutRead
    { header := setLines hdr lines, statusCode := lastStatus 0 lines, readBytes := none,
      linebody := lb' } code (by rw [hfuel, k4, j2]) hcode hvalid
  exact ⟨w, h1, h2, by rw [h3]; exact j1, h4⟩

/-- `EZOutputHandlerReplacer` on lines with a colon and without a bogus status, then a
non-empty line without a colon: the scan stops there, and the body starts with that line,
`\n` and `\r`. -/
theorem EZOutputHandlerReplacer.block_nocolon (hdr : Header) (lines : List TextLine)
    (m : TextLine) (rest : List Nat) (stdoutRead : Pipe) (code : Int)
    (hlines : ∀ l ∈ lines, l.fits 1024 ∧ l.hasColon = true ∧ ¬ l.isBogusStatus)
    (hfit : m.fits 1024) (hcolon : m.hasColon = false)
    (hout : stdoutRead.flatten = lines.flatMap TextLine.bytes ++ (m.bytes ++ rest))
    (hcode : (if lastStatus 0 lines = 0 then 200 else lastStatus 0 lines) = code)
    (hvalid : 100 ≤ code ∧ code ≤ 999) :
    ∃ w, EZOutputHandlerReplacer hdr ResponseWriter.fresh stdoutRead
        = some (Outcome.returned (setLines hdr lines) w) ∧
      w.status = some code ∧ (m.text ++ [10, 13]) <+: w.body ∧
      w.header = (ResponseWriter.fresh.addAll (setLines hdr lines)).header := by
  obtain ⟨n1, n2, n3⟩ := NewReaderSize_spec stdoutRead
  have hle : lines.length ≤ stdoutRead.flatten.length := by
    have := TextLine.length_le_bytes lines (fun l hl => (hlines l hl).1)
    rw [hout]
    simp only [List.length_append]
    omega
  have hfuel : stdoutRead.flatten.length + 1
      = lines.length + ((stdoutRead.flatten.length - lines.length) + 1) := by omega
  obtain ⟨lb, k1, k2, k3, k4, _⟩ := EZOutputHandlerReplacer.scan_lines (m.bytes ++ rest) lines
    ((stdoutRead.flatten.length - lines.length) + 1)
    { header := hdr, statusCode := 0, readBytes := none,
      linebody := NewReaderSize stdoutRead 1024 }
    hlines n1 n2 (by rw [n3, hout])
  obtain ⟨lb', j1⟩ := EZOutputHandlerReplacer.scan_nocolon m rest
    (stdoutRead.flatten.length - lines.length)
    { header := setLines hdr lines, statusCode := lastStatus 0 lines, readBytes := none,
      linebody := lb } k1 k2 hfit hcolon k3
  obtain ⟨w, h1, h2, h3, h4⟩ := EZOutputHandlerReplacer.of_scan hdr stdoutRead
    { header := setLines hdr lines, statusCode := lastStatus 0 lines,
      readBytes := some (m.text ++ [10, 13]), linebody := lb' } code
    (by rw [hfuel, k4, j1]) hcode hvalid
  refine ⟨w, h1, h2, ?_, h4⟩
  rw [h3]
  exact List.prefix_append _ _

theorem EZOutputHandlerReplacer.header_index (D : Header) (lines : List TextLine)
    (w : ResponseWriter)
    (hcan : ∀ p ∈ D, CanonicalMIMEHeaderKey p.1 = p.1) (hnd : (D.map Prod.fst).Nodup)
    (hw : w.header = (ResponseWriter.fresh.addAll (setLines D lines)).header)
    (key : GoString) :
    Header.index w.header key =
      match lines.reverse.find? (fun l => l.isHeader key) with
      | some l => [l.value]
      | none => Header.index D key := by
  obtain ⟨k1, k2⟩ := setLines_keys lines D hcan hnd
  obtain ⟨_, _, a3⟩ := ResponseWriter.addAll_spec (setLines D lines) ResponseWriter.fresh k1 k2
  have hnil : Header.index ResponseWriter.fresh.header key = [] := rfl
  rw [hw, a3 key, hnil, List.nil_append]
  exact Header.index_setLines lines D key

/-! ### The status line -/

set_option maxRecDepth 100000 in
/-- C14 does not hold as stated.  The value of the line `Status: 000` has three bytes that
parse as the integer 0, and for the output `Status: 000\n\nbody` the status written is not 0:
`EZOutputHandlerReplacer` writes 200 and `DefaultOutputHandler` writes 500; and of the two
`Status` lines of `Status: 404\nStatus: 503\n\nbody` only the last one gives the status. -/
theorem C14_counterexample :
    (EZOutputHandlerReplacer [] ResponseWriter.fresh [str "Status: 000\n\nbody"]).map
      (fun o => (o.response.status, o.response.body)) = some (some 200, str "body") ∧
    (DefaultOutputHandler [] ResponseWriter.fresh [str "Status: 000\n\nbody"]).map
      (fun o => (o.response.status, o.response.body)) = some (some 500, []) ∧
    (EZOutputHandlerReplacer [] ResponseWriter.fresh
      [str "Status: 404\nStatus: 503\n\nbody"]).map
      (fun o => (o.response.status, o.response.body)) = some (some 503, str "body") ∧
    (DefaultOutputHandler [] ResponseWriter.fresh
      [str "Status: 404\nStatus: 503\n\nbody"]).map
      (fun o => (o.response.status, o.response.body)) = some (some 503, str "body") :=
  ⟨by decide, by decide, by decide, by decide⟩

/-- C14, amended: for every subprocess output, in whatever chunks the pipe delivers it, made
of non-blank lines (each with fewer than 1024 bytes before its line feed), then a blank line,
then the bytes `B`, in which the last `Status` line has a trimmed value of at least three
bytes whose first three bytes parse as the integer `n` (whatever follows them), with `n`
between 200 and 999, and no `Status` line before it is bogus: `DefaultOutputHandler` writes
the status `n` and the body `B`, and so does `EZOutputHandlerReplacer` when every line has a
colon. -/
theorem C14_status_line (hdr : Header) (pre post : List TextLine) (l : TextLine) (n : Int)
    (blank : Bool) (B : List Nat) (stdoutRead : Pipe)
    (hpre : ∀ l' ∈ pre, l'.fits 1024 ∧ ¬ l'.isBogusStatus) (hl : l.fits 1024)
    (hs : l.isStatus) (hn : l.statusCode = some n)
    (hpost : ∀ l' ∈ post, l'.fits 1024 ∧ ¬ l'.isStatus)
    (hvalid : 200 ≤ n ∧ n ≤ 999)
    (hout : stdoutRead.flatten = blockBytes (pre ++ l :: post) blank B) :
    (∃ w, DefaultOutputHandler hdr ResponseWriter.fresh stdoutRead
        = some (Outcome.returned hdr w) ∧
      w.status = some n ∧ w.body = B) ∧
    ((∀ l' ∈ pre ++ post, l'.hasColon = true) →
      ∃ w, EZOutputHandlerReplacer hdr ResponseWriter.fresh stdoutRead
          = some (Outcome.returned (setLines hdr (pre ++ l :: post)) w) ∧
        w.status = some n ∧ w.body = B) := by
  have hlast : lastStatus 0 (pre ++ l :: post) = n :=
    lastStatus_last pre post l 0 n hs hn (fun l' hl' => (hpost l' hl').2)
  have hn0 : n ≠ 0 := by omega
  have hlb : ¬ l.isBogusStatus := by
    intro hb
    rw [hb.2] at hn
    exact Option.noConfusion hn
  have hall : ∀ l' ∈ pre ++ l :: post, l'.fits 1024 ∧ ¬ l'.isBogusStatus := by
    intro l' hl'
    rcases List.mem_append.1 hl' with h | h
    · exact hpre l' h
    · rcases List.mem_cons.1 h with h | h
      · rw [h]
        exact ⟨hl, hlb⟩
      · exact ⟨(hpost l' h).1, fun hb => (hpost l' h).2 hb.1⟩
  constructor
  · obtain ⟨w, h1, h2, h3, _⟩ := DefaultOutputHandler.block_ok hdr (pre ++ l :: post) blank B
      stdoutRead n hall (by simp) hout (by rw [hlast, if_pos hn0])
      (Or.inl (by rw [hlast]; exact hn0))
      ⟨by omega, hvalid.2⟩
    exact ⟨w, h1, h2, h3⟩
  · intro hcolon
    have hall' : ∀ l' ∈ pre ++ l :: post,
        l'.fits 1024 ∧ l'.hasColon = true ∧ ¬ l'.isBogusStatus := by
      intro l' hl'
      refine ⟨(hall l' hl').1, ?_, (hall l' hl').2⟩
      rcases List.mem_append.1 hl' with h | h
      · exact hcolon l' (List.mem_append_left _ h)
      · rcases List.mem_cons.1 h with h | h
        · rw [h]
          have hk : l.key = some (str "Status") := hs
          simp [TextLine.hasColon, hk]
        · exact hcolon l' (List.mem_append_right _ h)
    obtain ⟨w, h1, h2, h3, _⟩ := EZOutputHandlerReplacer.replacer_block hdr (pre ++ l :: post)
      blank B stdoutRead n hall' hout (by rw [hlast, if_neg hn0]) ⟨by omega, hvalid.2⟩
    exact ⟨w, h1, h2, h3⟩

set_option maxRecDepth 100000 in
/-- C14, amended, at the output `Status: 404 Not Found\n\nbody`, whose only header line is
the `Status` line. -/
theorem C14_status_line_witness :
    (∃ w, DefaultOutputHandler [] ResponseWriter.fresh [str "Status: 404 Not Found\n\nbody"]
        = some (Outcome.returned [] w) ∧
      w.status = some 404 ∧ w.body = str "body") ∧
    (∃ w, EZOutputHandlerReplacer [] ResponseWriter.fresh [str "Status: 404 Not Found\n\nbody"]
        = some (Outcome.returned [] w) ∧
      w.status = some 404 ∧ w.body = str "body") :=
  ⟨(C14_status_line [] [] [] ⟨str "Status: 404 Not Found", false⟩ 404 false (str "body")
      [str "Status: 404 Not Found\n\nbody"] (by decide) (by decide) (by decide) (by decide)
      (by decide) (by decide) (by decide)).1,
   (C14_status_line [] [] [] ⟨str "Status: 404 Not Found", false⟩ 404 false (str "body")
      [str "Status: 404 Not Found\n\nbody"] (by decide) (by decide) (by decide) (by decide)
      (by decide) (by decide) (by decide)).2 (by decide)⟩

/-! ### Header lines of `EZOutputHandlerReplacer` with an empty part -/

set_option maxRecDepth 100000 in
/-- C18 does not hold as stated.  For the output `foo:\n: bar\n\nbody` the scan of
`EZOutputHandlerReplacer` does not stop at `foo:` or at `: bar`: both lines are applied to the
header set (`Foo` with the empty value, the empty name with the value `bar`), neither is in
the body, and the body is `body`. -/
theorem C18_counterexample :
    (EZOutputHandlerReplacer [] ResponseWriter.fresh [str "foo:\n: bar\n\nbody"]).map
      (fun o => (o.header, o.response.status, o.response.body))
      = some ([(str "Foo", [[]]), ([], [str "bar"])], some 200, str "body") := by
  decide

/-- C18, amended: `EZOutputHandlerReplacer` treats a line as a header exactly when it has a
colon; the trimmed parts before and after the first colon may be empty.  For every default
header map `D` and every subprocess output that starts with lines with a colon (each with
fewer than 1024 bytes before its line feed, none a `Status` line): when a blank line and the
bytes `B` follow, the handler's header map is `D` with `Set` applied for each line, the
status is 200 and the body is `B`, so no such line stops the scan or reaches the body; when a
non-empty line without a colon follows, the scan stops at that line, the handler's header map
and the status are the same, and the body starts with the text of that line.  In both cases,
when the keys of `D` are distinct and in canonical form, the values of each header in the
response are the single value of the last line that names it, or its values in `D`. -/
theorem C18_header_iff_colon (D : Header) (lines : List TextLine) (B : List Nat)
    (stdoutRead : Pipe)
    (hlines : ∀ l ∈ lines, l.fits 1024 ∧ l.hasColon = true ∧ ¬ l.isStatus) :
    (∀ blank, stdoutRead.flatten = blockBytes lines blank B →
      ∃ w, EZOutputHandlerReplacer D ResponseWriter.fresh stdoutRead
          = some (Outcome.returned (setLines D lines) w) ∧
        w.status = some 200 ∧ w.body = B ∧
        ((∀ p ∈ D, CanonicalMIMEHeaderKey p.1 = p.1) → (D.map Prod.fst).Nodup →
          ∀ key, Header.index w.header key =
            match lines.reverse.find? (fun l => l.isHeader key) with
            | some l => [l.value]
            | none => Header.index D key)) ∧
    (∀ m : TextLine, m.fits 1024 → m.hasColon = false →
      stdoutRead.flatten = lines.flatMap TextLine.bytes ++ (m.bytes ++ B) →
      ∃ w, EZOutputHandlerReplacer D ResponseWriter.fresh stdoutRead
          = some (Outcome.returned (setLines D lines) w) ∧
        w.status = some 200 ∧ m.text <+: w.body ∧
        ((∀ p ∈ D, CanonicalMIMEHeaderKey p.1 = p.1) → (D.map Prod.fst).Nodup →
          ∀ key, Header.index w.header key =
            match lines.reverse.find? (fun l => l.isHeader key) with
            | some l => [l.value]
            | none => Header.index D key)) := by
  have hall : ∀ l ∈ lines, l.fits 1024 ∧ l.hasColon = true ∧ ¬ l.isBogusStatus :=
    fun l hl => ⟨(hlines l hl).1, (hlines l hl).2.1, fun hb => (hlines l hl).2.2 hb.1⟩
  have hst : lastStatus 0 lines = 0 :=
    lastStatus_of_no_status lines 0 (fun l hl => (hlines l hl).2.2)
  constructor
  · intro blank hout
    obtain ⟨w, h1, h2, h3, h4⟩ := EZOutputHandlerReplacer.replacer_block D lines blank B
      stdoutRead 200 hall hout (by rw [if_pos hst]) ⟨by decide, by decide⟩
    exact ⟨w, h1, h2, h3,
      fun hcan hnd => EZOutputHandlerReplacer.header_index D lines w hcan hnd h4⟩
  · intro m hfit hcolon hout
    obtain ⟨w, h1, h2, h3, h4⟩ := EZOutputHandlerReplacer.block_nocolon D lines m B stdoutRead
      200 hall hfit hcolon hout (by rw [if_pos hst]) ⟨by decide, by decide⟩
    exact ⟨w, h1, h2, (List.prefix_append m.text [10, 13]).trans h3,
      fun hcan hnd => EZOutputHandlerReplacer.header_index D lines w hcan hnd h4⟩

set_option maxRecDepth 100000 in
/-- C18, amended, with the default header `Content-Type: text/plain`: at the output
`foo:\n: bar\n\nbody` both lines are applied and the body is `body`; at the output
`foo:\nhello\nworld` the line `foo:` is applied, the scan stops at `hello`, and the body
starts with `hello`. -/
theorem C18_header_iff_colon_witness :
    (∃ w, EZOutputHandlerReplacer [(str "Content-Type", [str "text/plain"])]
        ResponseWriter.fresh [str "foo:\n: bar\n\nbody"]
        = some (Outcome.returned
            [(str "Content-Type", [str "text/plain"]), (str "Foo", [[]]), ([], [str "bar"])] w) ∧
      w.status = some 200 ∧ w.body = str "body" ∧
      Header.index w.header (str "Foo") = [[]] ∧ Header.index w.header [] = [str "bar"]) ∧
    (∃ w, EZOutputHandlerReplacer [(str "Content-Type", [str "text/plain"])]
        ResponseWriter.fresh [str "foo:\nhello\nworld"]
        = some (Outcome.returned
            [(str "Content-Type", [str "text/plain"]), (str "Foo", [[]])] w) ∧
      w.status = some 200 ∧ str "hello" <+: w.body) := by
  constructor
  · obtain ⟨w, h1, h2, h3, h4⟩ := (C18_header_iff_colon
      [(str "Content-Type", [str "text/plain"])]
      [⟨str "foo:", false⟩, ⟨str ": bar", false⟩] (str "body") [str "foo:\n: bar\n\nbody"]
      (by decide)).1 false (by decide)
    have hs : setLines [(str "Content-Type", [str "text/plain"])]
        [⟨str "foo:", false⟩, ⟨str ": bar", false⟩]
        = [(str "Content-Type", [str "text/plain"]), (str "Foo", [[]]), ([], [str "bar"])] := by
      decide
    rw [hs] at h1
    exact ⟨w, h1, h2, h3, (h4 (by decide) (by decide) _).trans (by decide),
      (h4 (by decide) (by decide) _).trans (by decide)⟩
  · obtain ⟨w, h1, h2, h3, _⟩ := (C18_header_iff_colon
      [(str "Content-Type", [str "text/plain"])]
      [⟨str "foo:", false⟩] (str "world") [str "foo:\nhello\nworld"]
      (by decide)).2 ⟨str "hello", false⟩ (by decide) (by decide) (by decide)
    have hs : setLines [(str "Content-Type", [str "text/plain"])] [⟨str "foo:", false⟩]
        = [(str "Content-Type", [str "text/plain"]), (str "Foo", [[]])] := by
      decide
    rw [hs] at h1
    exact ⟨w, h1, h2, h3⟩


/-! ### `removeLeadingDuplicates` as a function on lists -/

theorem removeLeadingDuplicates_cons (e : GoString) (rest : List GoString) :
    removeLeadingDuplicates (e :: rest)
      = if (match IndexByte e 61 with
            | some eq => rest.any (fun e2 => HasPrefix e2 (e.take (eq + 1)))
            | none => false) = true
        then removeLeadingDuplicates rest else e :: removeLeadingDuplicates rest := rfl

theorem removeLeadingDuplicates_sublist (env : List GoString) :
    (removeLeadingDuplicates env).Sublist env := by
  induction env with
  | nil => exact List.Sublist.slnil
  | cons e rest ih =>
    rw [removeLeadingDuplicates_cons]
    split_ifs
    · exact List.Sublist.cons e ih
    · exact List.Sublist.cons₂ e ih

theorem any_eq_false_of_sublist {α : Type} {p : α → Bool} {a b : List α} (h : a.Sublist b)
    (hb : b.any p = false) : a.any p = false := by
  rw [List.any_eq_false] at hb ⊢
  exact fun x hx => hb x (h.subset hx)

/-- C23: for every environment list `env`, `removeLeadingDuplicates env` is a subsequence of
`env` in the same order, its entries without `=` are exactly the entries of `env` without
`=` (in order, each as often), and applying the function again changes nothing. -/
theorem C23_dedup_subsequence_idempotent (env : List GoString) :
    (removeLeadingDuplicates env).Sublist env ∧
    (removeLeadingDuplicates env).filter (fun e => decide (61 ∉ e))
      = env.filter (fun e => decide (61 ∉ e)) ∧
    removeLeadingDuplicates (removeLeadingDuplicates env) = removeLeadingDuplicates env := by
  refine ⟨removeLeadingDuplicates_sublist env, ?_, ?_⟩
  · induction env with
    | nil => rfl
    | cons e rest ih =>
      rw [removeLeadingDuplicates_cons]
      cases hidx : IndexByte e 61 with
      | none =>
        have he : 61 ∉ e := IndexByte_eq_none.1 hidx
        simpa [List.filter_cons, he] using ih
      | some eq =>
        have he : ¬ 61 ∉ e := by
          intro hn
          rw [IndexByte_eq_none.2 hn] at hidx
          exact Option.noConfusion hidx
        simp only []
        split_ifs
        · simpa [List.filter_cons, he] using ih
        · simpa [List.filter_cons, he] using ih
  · induction env with
    | nil => rfl
    | cons e rest ih =>
      rw [removeLeadingDuplicates_cons]
      split_ifs with hfound
      · exact ih
      · rw [removeLeadingDuplicates_cons, ih]
        have hnf : ¬ ((match IndexByte e 61 with
            | some eq => (removeLeadingDuplicates rest).any
                (fun e2 => HasPrefix e2 (e.take (eq + 1)))
            | none => false) = true) := by
          cases hidx : IndexByte e 61 with
          | none => simp
          | some eq =>
            rw [hidx] at hfound
            simp only [Bool.not_eq_true] at hfound ⊢
            exact any_eq_false_of_sublist (removeLeadingDuplicates_sublist rest) hfound
        rw [if_neg hnf]


/-! ### Request header names and the keys of the environment -/

theorem envKey_headerEntry {k : GoString} {v : List GoString} {e : GoString}
    (h : headerEntry k v = some e) :
    envKey e = some (str "HTTP_" ++ stringsMap upperCaseAndUnderscore k) := by
  have hno : 61 ∉ str "HTTP_" ++ stringsMap upperCaseAndUnderscore k := by
    intro hm
    rcases List.mem_append.1 hm with hm | hm
    · exact absurd hm (by decide)
    · exact stringsMap_no_eq k hm
  have heq : str "=" = [61] := by decide
  have key : ∀ j : GoString,
      envKey (str "HTTP_" ++ stringsMap upperCaseAndUnderscore k ++ str "=" ++ j)
        = some (str "HTTP_" ++ stringsMap upperCaseAndUnderscore k) := by
    intro j
    exact envKey_eq_some.2 ⟨hno, j, by rw [heq]; simp⟩
  unfold headerEntry at h
  dsimp only at h
  split_ifs at h with hp
  all_goals
    simp only [Option.some.injEq] at h
    rw [← h]
    exact key _

theorem pairsOf_tailPairs_header (K : GoString) (r : Request) (envs : List GoString)
    (hdr : Header) (hK : K ≠ str "CONTENT_TYPE") :
    pairsOf K (tailPairs { r with Header := hdr } envs) = pairsOf K (tailPairs r envs) := by
  have hK' : ¬ (str "CONTENT_TYPE" = K) := fun h => hK h.symm
  simp only [tailPairs, pairsOf, List.filter_append]
  congr 1
  congr 1
  split_ifs <;> simp [List.filter_cons, hK']

set_option maxRecDepth 100000 in
/-- C22 does not hold as stated: its last part fails.  The request header
`Content-Type: text/plain` creates the environment variable `CONTENT_TYPE`, whose name does
not start with `HTTP_` (next to `HTTP_CONTENT_TYPE`); without the header there is none. -/
theorem C22_counterexample :
    entriesOf (str "CONTENT_TYPE") (subprocessEnv sampleHandler
      (sampleRequest [(str "Content-Type", [str "text/plain"])]) [])
      = [str "CONTENT_TYPE=text/plain"] ∧
    entriesOf (str "CONTENT_TYPE") (subprocessEnv sampleHandler (sampleRequest []) []) = [] :=
  ⟨by decide, by decide⟩

/-- C22, amended: for every request header name, the name mapped by
`strings.Map(upperCaseAndUnderscore, name)` has no `=` and no ASCII lower-case letter; the key
of the environment entry the header loop builds from it is `HTTP_` followed by the mapped
name; and for every key `K` that does not start with `HTTP_` and is not `CONTENT_TYPE`, the
entries with key `K` of the subprocess environment do not depend on the request headers.
(`CONTENT_TYPE` is built from the request header `Content-Type`.) -/
theorem C22_header_keys (h : Handler) (r : Request) (envs : List GoString) :
    (∀ name b, b ∈ stringsMap upperCaseAndUnderscore name →
      b ≠ 61 ∧ ¬ (97 ≤ b ∧ b ≤ 122)) ∧
    (∀ k v e, headerEntry k v = some e →
      envKey e = some (str "HTTP_" ++ stringsMap upperCaseAndUnderscore k)) ∧
    (∀ K hdr, K.take 5 ≠ str "HTTP_" → K ≠ str "CONTENT_TYPE" →
      entriesOf K (subprocessEnv h { r with Header := hdr } envs)
        = entriesOf K (subprocessEnv h r envs)) := by
  refine ⟨fun name b hb => stringsMapLoop_mapped 0 name hb,
    fun k v e he => envKey_headerEntry he, ?_⟩
  intro K hdr hK hct
  have h1 : pairsOf K (headerPairs hdr) = [] :=
    pairsOf_headerPairs_nil _ (fun k _ heq => http_key_ne hK heq.symm)
  have h2 : pairsOf K (headerPairs r.Header) = [] :=
    pairsOf_headerPairs_nil _ (fun k _ heq => http_key_ne hK heq.symm)
  rw [entriesOf_subprocessEnv, entriesOf_subprocessEnv]
  simp only [envPairs]
  rw [pairsOf_append, pairsOf_append, pairsOf_append, pairsOf_append, pairsOf_append,
    pairsOf_append, pairsOf_append, pairsOf_append, pairsOf_append, pairsOf_append,
    h1, h2, pairsOf_tailPairs_header K r envs hdr hct]
  rfl

set_option maxRecDepth 100000 in
/-- C22, amended, at the header name `x-Evil=PATH`, mapped to `X_EVIL_PATH`, and at the key
`PATH` for the request headers `Path: /evil` and `x-Evil=PATH: 1`. -/
theorem C22_header_keys_witness :
    stringsMap upperCaseAndUnderscore (str "x-Evil=PATH") = str "X_EVIL_PATH" ∧
    envKey (str "HTTP_X_EVIL_PATH=1") = some (str "HTTP_X_EVIL_PATH") ∧
    entriesOf (str "PATH") (subprocessEnv sampleHandler
      (sampleRequest [(str "Path", [str "/evil"]), (str "x-Evil=PATH", [str "1"])]) [])
      = [str "PATH=/bin:/usr/bin:/usr/ucb:/usr/bsd:/usr/local/bin"] :=
  ⟨by decide,
   (C22_header_keys sampleHandler (sampleRequest []) []).2.1 (str "x-Evil=PATH") [str "1"]
      (str "HTTP_X_EVIL_PATH=1") (by decide) |>.trans (by decide),
   ((C22_header_keys sampleHandler (sampleRequest []) []).2.2 (str "PATH")
      [(str "Path", [str "/evil"]), (str "x-Evil=PATH", [str "1"])] (by decide)
      (by decide)).trans (by decide)⟩


/-! ### Every call of `ReadSlice` and `ReadLine` returns -/

/-- The loop of `ReadSlice` returns within `len(buf) + 2` passes, whatever the chunks the pipe
delivers: the reader stays well formed with the same buffer size, and the stream is the slice
returned followed by the stream that is left. -/
theorem Reader.readSliceLoop_spec (delim : Nat) :
    ∀ (fuel s : Nat) (b : Reader), b.WF → s ≤ b.w - b.r →
      (b.buf.length - (b.w - b.r)) + (if b.err then 0 else 1) + 1 ≤ fuel →
      ∃ line err b', Reader.readSliceLoop delim fuel s b = some (line, err, b') ∧
        b'.WF ∧ b'.buf.length = b.buf.length ∧ b.WriteTo = line.bytes ++ b'.WriteTo := by
  intro fuel
  induction fuel with
  | zero =>
    intro s b _ _ hfuel
    omega
  | succ f ih =>
    intro s b hwf hs hfuel
    obtain ⟨h1, h2, h3⟩ := hwf
    have hbl : b.buffered.length = b.w - b.r := Reader.buffered_length ⟨h1, h2, h3⟩
    cases hidx : IndexByte ((b.buf.take b.w).drop (b.r + s)) delim with
    | some i =>
      have hi := IndexByte_lt_length hidx
      simp only [List.length_drop, List.length_take] at hi
      have hiw : b.r + (i + s) + 1 ≤ b.w := by omega
      refine ⟨⟨(b.buf.drop b.r).take (i + s + 1), b.r⟩, none,
        { b with r := b.r + (i + s) + 1 }, ?_, ⟨hiw, h2, h3⟩, rfl, ?_⟩
      · simp only [Reader.readSliceLoop, hidx]
      · show (b.buf.take b.w).drop b.r ++ b.rd.flatten
          = (b.buf.drop b.r).take (i + s + 1)
            ++ ((b.buf.take b.w).drop (b.r + (i + s) + 1) ++ b.rd.flatten)
        rw [← List.append_assoc]
        congr 1
        have e1 : (b.buf.drop b.r).take (i + s + 1) = b.buffered.take (i + s + 1) := by
          rw [Reader.buffered_eq, List.take_take]
          congr 1
          omega
        have e2 : (b.buf.take b.w).drop (b.r + (i + s) + 1) = b.buffered.drop (i + s + 1) := by
          rw [Reader.buffered, List.drop_drop]
          congr 1
        rw [e1, e2, List.take_append_drop]
        rfl
    | none =>
      by_cases herr : b.err = true
      · refine ⟨⟨(b.buf.take b.w).drop b.r, b.r⟩, some ReadErr.EOF,
          { b with r := b.w, err := false }, ?_, ⟨Nat.le_refl _, h2, ?_⟩, rfl, ?_⟩
        · simp only [Reader.readSliceLoop, hidx, herr, if_true]
        · intro hf
          exact absurd hf (by show ¬ (false = true); decide)
        · show (b.buf.take b.w).drop b.r ++ b.rd.flatten
            = (b.buf.take b.w).drop b.r ++ ((b.buf.take b.w).drop b.w ++ b.rd.flatten)
          have : (b.buf.take b.w).drop b.w = [] := by
            apply List.drop_eq_nil_of_le
            simp only [List.length_take]
            omega
          rw [this, List.nil_append]
      · have herr' : b.err = false := by
          cases he : b.err with
          | false => rfl
          | true => exact absurd he herr
        by_cases hfull : b.w - b.r ≥ b.buf.length
        · have hr0 : b.r = 0 := by omega
          have hw : b.w = b.buf.length := by omega
          refine ⟨⟨b.buf, 0⟩, some ReadErr.ErrBufferFull, { b with r := b.w }, ?_,
            ⟨Nat.le_refl _, h2, h3⟩, rfl, ?_⟩
          · simp only [Reader.readSliceLoop, hidx, herr', hfull]
            simp
          · show (b.buf.take b.w).drop b.r ++ b.rd.flatten
              = b.buf ++ ((b.buf.take b.w).drop b.w ++ b.rd.flatten)
            have e1 : (b.buf.take b.w).drop b.w = [] := by
              apply List.drop_eq_nil_of_le
              simp only [List.length_take]
              omega
            have e2 : (b.buf.take b.w).drop b.r = b.buf := by
              rw [hr0, hw, List.drop_zero, List.take_length]
            rw [e1, e2, List.nil_append]
        · have hnf : b.w - b.r < b.buf.length := by omega
          obtain ⟨g1, g2, g3, g4, g5, g6⟩ := Reader.fill_spec ⟨h1, h2, h3⟩ hnf
          have hstep : Reader.readSliceLoop delim (f + 1) s b
              = Reader.readSliceLoop delim f (b.w - b.r) b.fill := by
            simp only [Reader.readSliceLoop, hidx, herr', hfull]
            simp
          rw [hstep]
          have hm : (b.fill.buf.length - (b.fill.w - b.fill.r))
              + (if b.fill.err then 0 else 1) + 1 ≤ f ∧ b.w - b.r ≤ b.fill.w - b.fill.r := by
            rw [g2, g4]
            rw [herr'] at hfuel
            simp only [Bool.false_eq_true, if_false] at hfuel
            by_cases hflat : b.rd.flatten = []
            · obtain ⟨k1, k2, _⟩ := g6 hflat
              rw [k1, k2]
              simp only [if_true]
              omega
            · obtain ⟨k1, k2⟩ := g5 hflat
              have hle : b.fill.w ≤ b.buf.length := by
                have := g1.2.1
                rw [g2] at this
                exact this
              rw [k2, herr']
              simp only [Bool.false_eq_true, if_false]
              omega
          obtain ⟨line, err, b', k1, k2, k3, k4⟩ := ih (b.w - b.r) b.fill g1 hm.2 hm.1
          exact ⟨line, err, b', k1, k2, k3.trans g2, g3.symm.trans k4⟩

/-- Every call of `ReadLine` returns.  When the line returned is not a prefix of a longer
line the reader stays well formed with the same buffer size, and a non-empty line leaves a
shorter stream. -/
theorem Reader.ReadLine_spec (b : Reader) (hwf : b.WF) :
    ∃ res b', b.ReadLine = some (res, b') ∧
      (res.isPrefix = false → b'.WF ∧ b'.buf.length = b.buf.length ∧
        (res.line.bytes.length ≠ 0 → b'.WriteTo.length < b.WriteTo.length)) := by
  obtain ⟨line, err, b', k1, k2, k3, k4⟩ := Reader.readSliceLoop_spec 10 (b.buf.length + 2) 0 b
    hwf (Nat.zero_le _) (by split_ifs <;> omega)
  have hlen : b.WriteTo.length = line.bytes.length + b'.WriteTo.length := by
    rw [k4, List.length_append]
  unfold Reader.ReadLine Reader.ReadSlice
  rw [k1]
  dsimp only
  by_cases hfull : err = some ReadErr.ErrBufferFull
  · rw [if_pos hfull]
    split_ifs
    · exact ⟨_, _, rfl, fun h => Bool.noConfusion h⟩
    · exact ⟨_, _, rfl, fun h => Bool.noConfusion h⟩
  · rw [if_neg hfull]
    by_cases h0 : line.bytes.length = 0
    · rw [if_pos h0]
      exact ⟨_, _, rfl, fun _ => ⟨k2, k3, fun hne => absurd h0 hne⟩⟩
    · rw [if_neg h0]
      by_cases hnl : line.bytes.getLast? = some 10
      · rw [if_pos hnl]
        exact ⟨_, _, rfl, fun _ => ⟨k2, k3, fun _ => by omega⟩⟩
      · rw [if_neg hnl]
        exact ⟨_, _, rfl, fun _ => ⟨k2, k3, fun _ => by omega⟩⟩

/-! ### The output handlers return -/

/-- The loop of `DefaultOutputHandler` is left within one pass more than the stream has
bytes. -/
theorem DefaultOutputHandler.scan_total :
    ∀ (fuel : Nat) (s : DefaultScan), s.linebody.WF → s.linebody.WriteTo.length + 1 ≤ fuel →
      ∃ e, DefaultOutputHandler.scan fuel s = some e := by
  intro fuel
  induction fuel with
  | zero =>
    intro s _ hfuel
    omega
  | succ f ih =>
    intro s hwf hfuel
    obtain ⟨res, lb, k1, k2⟩ := Reader.ReadLine_spec s.linebody hwf
    rw [DefaultOutputHandler.scan, k1]
    dsimp only
    by_cases hp : res.isPrefix = true
    · rw [if_pos hp]
      exact ⟨_, rfl⟩
    · rw [if_neg hp]
      by_cases he : res.eof = true
      · rw [if_pos he]
        exact ⟨_, rfl⟩
      · rw [if_neg he]
        by_cases h0 : res.line.bytes.length = 0
        · rw [if_pos h0]
          exact ⟨_, rfl⟩
        · rw [if_neg h0]
          have hp' : res.isPrefix = false := by
            cases h : res.isPrefix with
            | false => rfl
            | true => exact absurd h hp
          obtain ⟨j1, _, j3⟩ := k2 hp'
          have hlt := j3 h0
          have hf : lb.WriteTo.length + 1 ≤ f := by omega
          cases IndexByte res.line.bytes 58 with
          | none => exact ih _ j1 hf
          | some i =>
            dsimp only
            split_ifs
            · exact ⟨_, rfl⟩
            · cases Atoi ((TrimSpace (res.line.bytes.drop (i + 1))).take 3) with
              | none => exact ⟨_, rfl⟩
              | some code => exact ih _ j1 hf
            · exact ih _ j1 hf

/-- The loop of `EZOutputHandlerReplacer` is left within one pass more than the stream has
bytes. -/
theorem EZOutputHandlerReplacer.replacer_scan_total :
    ∀ (fuel : Nat) (s : Scan), s.linebody.WF → s.linebody.WriteTo.length + 1 ≤ fuel →
      ∃ e, EZOutputHandlerReplacer.scan fuel s = some e := by
  intro fuel
  induction fuel with
  | zero =>
    intro s _ hfuel
    omega
  | succ f ih =>
    intro s hwf hfuel
    obtain ⟨res, lb, k1, k2⟩ := Reader.ReadLine_spec s.linebody hwf
    rw [EZOutputHandlerReplacer.scan, k1]
    dsimp only
    by_cases hp : res.isPrefix = true ∨ res.eof = true
    · rw [if_pos hp]
      exact ⟨_, rfl⟩
    · rw [if_neg hp]
      by_cases h0 : res.line.bytes.length = 0
      · rw [if_pos h0]
        exact ⟨_, rfl⟩
      · rw [if_neg h0]
        have hp' : res.isPrefix = false := by
          cases h : res.isPrefix with
          | false => rfl
          | true => exact absurd (Or.inl h) hp
        obtain ⟨j1, _, j3⟩ := k2 hp'
        have hlt := j3 h0
        have hf : lb.WriteTo.length + 1 ≤ f := by omega
        cases IndexByte res.line.bytes 58 with
        | none => exact ⟨_, rfl⟩
        | some i =>
          dsimp only
          split_ifs
          · exact ⟨_, rfl⟩
          · cases Atoi ((TrimSpace (res.line.bytes.drop (i + 1))).take 3) with
            | none => exact ⟨_, rfl⟩
            | some code => exact ih _ j1 hf
          · exact ih _ j1 hf

/-- Every run of an output handler of `outputHandler.go` ends: it returns or it panics. -/
theorem runOutputHandler_total (f : OutputHandler) (hdr : Header) (w : ResponseWriter)
    (stdoutRead : Pipe) : ∃ o, runOutputHandler f hdr w stdoutRead = some o := by
  obtain ⟨n1, _, n3⟩ := NewReaderSize_spec stdoutRead
  cases f with
  | EZOutputHandler =>
    show ∃ o, EZOutputHandler hdr w stdoutRead = some o
    unfold EZOutputHandler
    dsimp only
    cases (w.addAll hdr).WriteHeader 200 with
    | none => exact ⟨_, rfl⟩
    | some w' => exact ⟨_, rfl⟩
  | EZOutputHandlerReplacer =>
    show ∃ o, EZOutputHandlerReplacer hdr w stdoutRead = some o
    obtain ⟨e, he⟩ := EZOutputHandlerReplacer.replacer_scan_total (stdoutRead.flatten.length + 1)
      { header := hdr, statusCode := 0, readBytes := none,
        linebody := NewReaderSize stdoutRead 1024 } n1 (by rw [n3])
    unfold EZOutputHandlerReplacer
    dsimp only
    rw [he]
    cases e with
    | ret s => exact ⟨_, rfl⟩
    | brk s =>
      dsimp only
      cases (w.addAll s.header).WriteHeader (if s.statusCode = 0 then 200 else s.statusCode) with
      | none => exact ⟨_, rfl⟩
      | some w' => exact ⟨_, rfl⟩
  | DefaultOutputHandler =>
    show ∃ o, DefaultOutputHandler hdr w stdoutRead = some o
    obtain ⟨e, he⟩ := DefaultOutputHandler.scan_total (stdoutRead.flatten.length + 1)
      { headers := [], statusCode := 0, headerLines := 0, sawBlankLine := false,
        linebody := NewReaderSize stdoutRead 1024 } n1 (by rw [n3])
    unfold DefaultOutputHandler
    dsimp only
    rw [he]
    cases e with
    | brk s => exact ⟨_, rfl⟩
    | longLine s => exact ⟨_, rfl⟩
    | ret s => exact ⟨_, rfl⟩


/-! ### The calls on the subprocess -/

set_option maxRecDepth 100000 in
/-- C21 does not hold as stated.  In the run of `ServeHTTP` for a subprocess with the output
`Content-Type: text/plain\n\nhi` the calls after the start are `Kill`, `Close`, `Wait`, in
that order: the process is killed before it is waited on, not right after the wait.  In the
run for the output `Status: 099\n\n` the call `WriteHeader(99)` panics inside
`DefaultOutputHandler`, and the calls after the start are `Close` and `Wait`: the kill is
skipped. -/
theorem C21_counterexample :
    (ServeHTTP sampleHandler ResponseWriter.fresh (sampleRequest []) []
      (fun _ => Spawn.started [str "Content-Type: text/plain\n\nhi"])).map
      (fun s => (s.events.drop 1, s.panicked))
      = some ([Event.kill, Event.close, Event.wait], false) ∧
    (ServeHTTP sampleHandler ResponseWriter.fresh (sampleRequest []) []
      (fun _ => Spawn.started [str "Status: 099\n\n"])).map
      (fun s => (s.events.drop 1, s.panicked))
      = some ([Event.close, Event.wait], true) :=
  ⟨by decide, by decide⟩

/-- C21, amended: for every handler with an output handler of `outputHandler.go`, every
request that is not chunked, every response writer and every subprocess output, when the
subprocess was started `ServeHTTP` ends, and the calls it made on the subprocess are, in
order: the start, `cmd.Process.Kill()` right after the output handler returned, then the
deferred `stdoutRead.Close()`, then the deferred `cmd.Wait()` as the last call.  The kill is
skipped, and the close and the wait still run, exactly when the output handler panics (a
`WriteHeader` with a code below 100 or above 999). -/
theorem C21_kill_close_wait (h : Handler) (w : ResponseWriter) (r : Request)
    (envs : List GoString) (os : Cmd → Spawn) (stdout : Pipe)
    (hnc : r.TransferEncoding.head? ≠ some (str "chunked"))
    (hstart : os (buildCmd h.withDefaults r (subprocessEnv h.withDefaults r envs))
      = Spawn.started stdout) :
    ∃ s, ServeHTTP h w r envs os = some s ∧
      s.events =
        if s.panicked then
          [Event.start (buildCmd h.withDefaults r (subprocessEnv h.withDefaults r envs)),
            Event.close, Event.wait]
        else
          [Event.start (buildCmd h.withDefaults r (subprocessEnv h.withDefaults r envs)),
            Event.kill, Event.close, Event.wait] := by
  obtain ⟨o, ho⟩ := runOutputHandler_total
    (h.withDefaults.OutputHandler.getD OutputHandler.DefaultOutputHandler)
    (h.withDefaults.Header.getD []) w stdout
  unfold ServeHTTP
  dsimp only
  rw [if_neg hnc, hstart]
  dsimp only
  rw [ho]
  cases o with
  | returned hdr w' => exact ⟨_, rfl, rfl⟩
  | panicked hdr w' => exact ⟨_, rfl, rfl⟩

set_option maxRecDepth 100000 in
/-- C21, amended, at the sample handler and a subprocess with the output
`Content-Type: text/plain\n\nhi`. -/
theorem C21_kill_close_wait_witness :
    ∃ s, ServeHTTP sampleHandler ResponseWriter.fresh (sampleRequest []) []
        (fun _ => Spawn.started [str "Content-Type: text/plain\n\nhi"]) = some s ∧
      s.events =
        if s.panicked then
          [Event.start (buildCmd sampleHandler.withDefaults (sampleRequest [])
            (subprocessEnv sampleHandler.withDefaults (sampleRequest []) [])),
            Event.close, Event.wait]
        else
          [Event.start (buildCmd sampleHandler.withDefaults (sampleRequest [])
            (subprocessEnv sampleHandler.withDefaults (sampleRequest []) [])),
            Event.kill, Event.close, Event.wait] :=
  C21_kill_close_wait sampleHandler ResponseWriter.fresh (sampleRequest []) []
    (fun _ => Spawn.started [str "Content-Type: text/plain\n\nhi"])
    [str "Content-Type: text/plain\n\nhi"] (by decide) rfl


/-! ### `EZOutputHandlerReplacer` at a line longer than the buffer -/

/-- The loop of `EZOutputHandlerReplacer` at a line of which the first 1024 bytes hold no
line feed: it is left by `break`, with nothing kept in `readBytes`. -/
theorem EZOutputHandlerReplacer.scan_long (X rest : List Nat) (fuel : Nat) (s : Scan)
    (hwf : s.linebody.WF) (herr : s.linebody.err = false)
    (hlen : s.linebody.buf.length = 1024) (hX : X.length = 1024) (hnl : 10 ∉ X)
    (hstream : s.linebody.WriteTo = X ++ rest) :
    ∃ lb, lb.WriteTo = (if X.getLast? = some 13 then [13] else []) ++ rest ∧
      EZOutputHandlerReplacer.scan (fuel + 1) s
        = some (ScanExit.brk { s with linebody := lb }) := by
  obtain ⟨off, b', k1, k2⟩ := Reader.ReadLine_long hwf herr hlen hX hnl hstream
  refine ⟨b', k2, ?_⟩
  rw [EZOutputHandlerReplacer.scan, k1]
  simp

/-- `EZOutputHandlerReplacer` on lines with a colon and without a bogus status, then a line
longer than the buffer. -/
theorem EZOutputHandlerReplacer.block_long (hdr : Header) (lines : List TextLine)
    (X rest : List Nat) (stdoutRead : Pipe) (code : Int)
    (hlines : ∀ l ∈ lines, l.fits 1024 ∧ l.hasColon = true ∧ ¬ l.isBogusStatus)
    (hX : X.length = 1024) (hnl : 10 ∉ X)
    (hout : stdoutRead.flatten = lines.flatMap TextLine.bytes ++ (X ++ rest))
    (hcode : (if lastStatus 0 lines = 0 then 200 else lastStatus 0 lines) = code)
    (hvalid : 100 ≤ code ∧ code ≤ 999) :
    ∃ w, EZOutputHandlerReplacer hdr ResponseWriter.fresh stdoutRead
        = some (Outcome.returned (setLines hdr lines) w) ∧
      w.status = some code ∧
      w.body = (if X.getLast? = some 13 then [13] else []) ++ rest ∧
      w.header = (ResponseWriter.fresh.addAll (setLines hdr lines)).header := by
  obtain ⟨n1, n2, n3⟩ := NewReaderSize_spec stdoutRead
  have hle : lines.length ≤ stdoutRead.flatten.length := by
    have := TextLine.length_le_bytes lines (fun l hl => (hlines l hl).1)
    rw [hout]
    simp only [List.length_append]
    omega
  have hfuel : stdoutRead.flatten.length + 1
      = lines.length + ((stdoutRead.flatten.length - lines.length) + 1) := by omega
  obtain ⟨lb, k1, k2, k3, k4, k5⟩ := EZOutputHandlerReplacer.scan_lines (X ++ rest) lines
    ((stdoutRead.flatten.length - lines.length) + 1)
    { header := hdr, statusCode := 0, readBytes := none,
      linebody := NewReaderSize stdoutRead 1024 }
    hlines n1 n2 (by rw [n3, hout])
  obtain ⟨lb', j1, j2⟩ := EZOutputHandlerReplacer.scan_long X rest
    (stdoutRead.flatten.length - lines.length)
    { header := setLines hdr lines, statusCode := lastStatus 0 lines, readBytes := none,
      linebody := lb } k1 (k5 rfl) k2 hX hnl k3
  obtain ⟨w, h1, h2, h3, h4⟩ := EZOutputHandlerReplacer.of_scan hdr stdoutRead
    { header := setLines hdr lines, statusCode := lastStatus 0 lines, readBytes := none,
      linebody := lb' } code (by rw [hfuel, k4, j2]) hcode hvalid
  exact ⟨w, h1, h2, by rw [h3]; exact j1, h4⟩

/-- C24: for every default header map `D` (distinct keys in canonical form) and every
subprocess output, in whatever chunks the pipe delivers it, made of lines with a colon (each
with fewer than 1024 bytes before its line feed, no bogus status, the status code they give
absent or between 200 and 999), then 1024 bytes `X` without a line feed (the start of a line
longer than the line buffer), then the bytes `rest`: `EZOutputHandlerReplacer` returns without
an error status; the status and the headers are those of the lines scanned before; and the
body is what follows the buffer-full that was read, which is `X`, or the first 1023 bytes of
`X` when its last byte is `\r`.  These bytes are neither in the headers nor in the body: the
output is the lines scanned, the buffer-full read and the body, in this order, and the body
is not the unscanned remainder `X ++ rest`. -/
theorem C24_long_line (D : Header) (lines : List TextLine) (X rest : List Nat)
    (stdoutRead : Pipe) (code : Int)
    (hcan : ∀ p ∈ D, CanonicalMIMEHeaderKey p.1 = p.1) (hnd : (D.map Prod.fst).Nodup)
    (hlines : ∀ l ∈ lines, l.fits 1024 ∧ l.hasColon = true ∧ ¬ l.isBogusStatus)
    (hX : X.length = 1024) (hnl : 10 ∉ X)
    (hout : stdoutRead.flatten = lines.flatMap TextLine.bytes ++ (X ++ rest))
    (hcode : (if lastStatus 0 lines = 0 then 200 else lastStatus 0 lines) = code)
    (hvalid : 200 ≤ code ∧ code ≤ 999) :
    ∃ w, EZOutputHandlerReplacer D ResponseWriter.fresh stdoutRead
        = some (Outcome.returned (setLines D lines) w) ∧
      w.status = some code ∧
      w.body = (if X.getLast? = some 13 then [13] else []) ++ rest ∧
      stdoutRead.flatten = lines.flatMap TextLine.bytes
        ++ (if X.getLast? = some 13 then X.dropLast else X) ++ w.body ∧
      w.body ≠ X ++ rest ∧
      ∀ key, Header.index w.header key =
        match lines.reverse.find? (fun l => l.isHeader key) with
        | some l => [l.value]
        | none => Header.index D key := by
  obtain ⟨w, h1, h2, h3, h4⟩ := EZOutputHandlerReplacer.block_long D lines X rest stdoutRead
    code hlines hX hnl hout hcode ⟨by omega, hvalid.2⟩
  refine ⟨w, h1, h2, h3, ?_, ?_, EZOutputHandlerReplacer.header_index D lines w hcan hnd h4⟩
  · rw [hout, h3]
    by_cases hcr : X.getLast? = some 13
    · rw [if_pos hcr, if_pos hcr]
      have hY : X.dropLast ++ [13] = X :=
        List.dropLast_append_getLast? 13 (by simpa using hcr)
      rw [List.append_assoc, ← List.append_assoc X.dropLast, hY]
    · rw [if_neg hcr, if_neg hcr, List.nil_append, List.append_assoc]
  · intro heq
    have hl := congrArg List.length heq
    rw [h3] at hl
    simp only [List.length_append, hX] at hl
    split_ifs at hl <;> simp at hl

set_option maxRecDepth 100000 in
/-- C24 at the output `X-Test: PASS\n`, then 1024 bytes `a`, then `tail\nmore`, with the
default header `Content-Type: text/plain`: the status is 200, the header `X-Test` is set, and
the body is `tail\nmore`. -/
theorem C24_long_line_witness :
    ∃ w, EZOutputHandlerReplacer [(str "Content-Type", [str "text/plain"])]
        ResponseWriter.fresh
        [str "X-Test: PASS\n" ++ List.replicate 1024 97 ++ str "tail\nmore"]
        = some (Outcome.returned
            [(str "Content-Type", [str "text/plain"]), (str "X-Test", [str "PASS"])] w) ∧
      w.status = some 200 ∧ w.body = str "tail\nmore" ∧
      Header.index w.header (str "X-Test") = [str "PASS"] := by
  obtain ⟨w, h1, h2, h3, _, _, h6⟩ := C24_long_line [(str "Content-Type", [str "text/plain"])]
    [⟨str "X-Test: PASS", false⟩] (List.replicate 1024 97) (str "tail\nmore")
    [str "X-Test: PASS\n" ++ List.replicate 1024 97 ++ str "tail\nmore"] 200
    (by decide) (by decide) (by decide) (List.length_replicate 1024 97)
    (fun hm => absurd (List.eq_of_mem_replicate hm) (by decide))
    (by simp [TextLine.bytes, endOfLine, str, EncodeRune])
    (by decide) (by decide)
  have hs : setLines [(str "Content-Type", [str "text/plain"])] [⟨str "X-Test: PASS", false⟩]
      = [(str "Content-Type", [str "text/plain"]), (str "X-Test", [str "PASS"])] := by
    decide
  have hcr : ¬ ((List.replicate 1024 97).getLast? = some 13) := by
    intro h
    have hm := List.mem_of_mem_getLast? (Option.mem_def.2 h)
    exact absurd (List.eq_of_mem_replicate hm) (by decide)
  rw [hs] at h1
  rw [if_neg hcr, List.nil_append] at h3
  exact ⟨w, h1, h2, h3, (h6 _).trans (by decide)⟩

end EzCgi
